import Mathlib

/-!
Verification of the jeiss-convert .dat header/payload codec.

This file gives a shallow embedding of the codec in
`src/jeiss_convert/utils.py`, `src/jeiss_convert/specs.py` and
`src/jeiss_convert/compound.py`, and proves or refutes the frozen claims
about it.

Modelling conventions:
* a byte buffer is a `List Nat` whose entries are meant to be `< 256`;
* numpy values are `DatValue`s; multi-dimensional arrays are represented by
  their shape together with the column-major (Fortran, first axis fastest)
  listing of their elements, which is exactly the order of the underlying
  bytes for an array produced by `np.frombuffer(...).reshape(shape, order="F")`;
* every numeric dtype of the schemas is big-endian (the format stores all
  fields big-endian; one-byte types are byte-order neutral), so the element
  codec below is big-endian throughout;
* Python exceptions are modelled by `Except DatError`.

The schema tables themselves (the `jeiss-specs` submodule: `specs/*.tsv`,
`enums/*.tsv`, `misc.toml`) and `jeiss_convert/constants.py` are not under
`src/`, so the registry is kept abstract (a parameter of every operation)
and the constants they define are modelled from the spec where needed.
-/

namespace Jeiss

/-- Modelled from the spec: `HEADER_LENGTH` is `data_offset` from
`jeiss-specs/misc.toml`, which is not under `src/`; the spec gives the fixed
header region length as 1024 bytes. -/
def HEADER_LENGTH : Nat := 1024

/-- Modelled from the spec: `ENUM_NAME_SUFFIX` comes from
`jeiss_convert/constants.py`, which is not under `src/`; the spec only says
enum-valued fields carry a companion derived entry named field name plus a
suffix. -/
def ENUM_NAME_SUFFIX : String := "_name"

/-- Modelled from the spec: `DAT_NBYTES_FIELD` comes from
`jeiss_convert/constants.py`, not under `src/`; the docstring of
`convert.py` names the attribute storing the original length `_dat_nbytes`. -/
def DAT_NBYTES_FIELD : String := "_dat_nbytes"

/-- Errors modelling the Python exceptions raised by the codec. -/
inductive DatError where
  | keyError (k : String)
  | missingVersion (v : Nat)
  | valueError (msg : String)
  | runtimeError (msg : String)
  | typeError (msg : String)
  | enumError (v : Int)
  | selfRefError (field dep : String)
  | unicodeError
  deriving DecidableEq, Repr

/-! ## Big-endian fixed-width integer codec -/

/-- Big-endian interpretation of a byte list as an unsigned integer. -/
def beBytesToNat : List Nat → Nat
  | [] => 0
  | b :: bs => b * 256 ^ bs.length + beBytesToNat bs

/-- Big-endian encoding of `n` in exactly `w` bytes (`n` taken mod `256 ^ w`). -/
def natToBeBytes : Nat → Nat → List Nat
  | 0, _ => []
  | w + 1, n => n / 256 ^ w :: natToBeBytes w (n % 256 ^ w)

theorem beBytesToNat_lt (bs : List Nat) (hb : ∀ x ∈ bs, x < 256) :
    beBytesToNat bs < 256 ^ bs.length := by
  induction bs with
  | nil => simp [beBytesToNat]
  | cons b rest ih =>
    have hb' : b < 256 := hb b (List.mem_cons_self b rest)
    have hr : beBytesToNat rest < 256 ^ rest.length :=
      ih (fun x hx => hb x (List.mem_cons_of_mem b hx))
    have hble : b + 1 ≤ 256 := hb'
    calc beBytesToNat (b :: rest) = b * 256 ^ rest.length + beBytesToNat rest := rfl
      _ < b * 256 ^ rest.length + 256 ^ rest.length := by omega
      _ = (b + 1) * 256 ^ rest.length := by ring
      _ ≤ 256 * 256 ^ rest.length := by
          exact Nat.mul_le_mul_right _ hble
      _ = 256 ^ (b :: rest).length := by
          simp [List.length_cons, pow_succ]; ring

theorem natToBeBytes_beBytesToNat (bs : List Nat) (hb : ∀ x ∈ bs, x < 256) :
    natToBeBytes bs.length (beBytesToNat bs) = bs := by
  induction bs with
  | nil => rfl
  | cons b rest ih =>
    have hr : beBytesToNat rest < 256 ^ rest.length :=
      beBytesToNat_lt rest (fun x hx => hb x (List.mem_cons_of_mem b hx))
    have hLpos : 0 < 256 ^ rest.length := Nat.pos_pow_of_pos _ (by norm_num)
    have hdiv : (b * 256 ^ rest.length + beBytesToNat rest) / 256 ^ rest.length = b := by
      rw [mul_comm b, Nat.mul_add_div hLpos, Nat.div_eq_of_lt hr]; omega
    have hmod : (b * 256 ^ rest.length + beBytesToNat rest) % 256 ^ rest.length
        = beBytesToNat rest := by
      rw [mul_comm b, Nat.mul_add_mod, Nat.mod_eq_of_lt hr]
    show natToBeBytes (rest.length + 1) (beBytesToNat (b :: rest)) = b :: rest
    have hstep : beBytesToNat (b :: rest) = b * 256 ^ rest.length + beBytesToNat rest := rfl
    rw [natToBeBytes, hstep, hdiv, hmod,
      ih (fun x hx => hb x (List.mem_cons_of_mem b hx))]

theorem length_natToBeBytes (w n : Nat) : (natToBeBytes w n).length = w := by
  induction w generalizing n with
  | zero => rfl
  | succ w ih => simp [natToBeBytes, ih]

/-! ## Scalar element types and the element codec

`DTKind.uint` models numpy dtypes `u1`/`>u2`/`>u4`/`>u8`, `DTKind.sint`
models `i1`/`>i2`/`>i4`/`>i8`, and `DTKind.bstr` models the fixed-width
byte-string dtypes `S<n>`. -/

inductive DTKind where
  | uint
  | sint
  | bstr
  deriving DecidableEq, Repr

/-- A numpy scalar dtype: kind plus width in bytes. -/
structure DType where
  kind : DTKind
  itemsize : Nat
  deriving DecidableEq, Repr

/-- Two's-complement reading of an unsigned value of width `w` bytes. -/
def toSigned (w : Nat) (u : Nat) : Int :=
  if 2 * u ≥ 256 ^ w then (u : Int) - 256 ^ w else u

/-- Remove trailing zero bytes, as numpy does when extracting an `S`-dtype
scalar (`np.bytes_` strips trailing NUL bytes). -/
def stripTrailingZeros (bs : List Nat) : List Nat :=
  (bs.reverse.dropWhile (· == 0)).reverse

/-- A decoded scalar element: an integer or a (trailing-NUL-stripped)
byte string. -/
inductive Elem where
  | i (v : Int)
  | s (bs : List Nat)
  deriving DecidableEq, Repr

/-- Decode one element of dtype `dt` from its `dt.itemsize` raw bytes,
as `np.frombuffer` followed by scalar extraction does. -/
def decodeElem (dt : DType) (bs : List Nat) : Elem :=
  match dt.kind with
  | .uint => .i (beBytesToNat bs)
  | .sint => .i (toSigned dt.itemsize (beBytesToNat bs))
  | .bstr => .s (stripTrailingZeros bs)

/-- Encode one element back to its `dt.itemsize` raw bytes, as
`np.asarray(item, dtype).tobytes()` does (integers wrap modulo `256 ^ w`,
byte strings are padded with NULs / truncated to the width). -/
def encodeElem (dt : DType) (e : Elem) : List Nat :=
  match dt.kind, e with
  | .uint, .i v => natToBeBytes dt.itemsize (v % (256 ^ dt.itemsize : Int)).toNat
  | .sint, .i v => natToBeBytes dt.itemsize (v % (256 ^ dt.itemsize : Int)).toNat
  | .bstr, .s bs => bs.take dt.itemsize ++ List.replicate (dt.itemsize - bs.length) 0
  | _, _ => List.replicate dt.itemsize 0

theorem stripTrailingZeros_append (bs : List Nat) :
    stripTrailingZeros bs
      ++ List.replicate (bs.length - (stripTrailingZeros bs).length) 0 = bs := by
  unfold stripTrailingZeros
  have h1 : bs.reverse.takeWhile (· == 0) ++ bs.reverse.dropWhile (· == 0)
      = bs.reverse := by apply List.takeWhile_append_dropWhile
  have h2 : bs.reverse.takeWhile (· == 0)
      = List.replicate (bs.reverse.takeWhile (· == 0)).length 0 := by
    apply List.eq_replicate_of_mem
    intro x hx
    have := List.mem_takeWhile_imp hx
    simpa using this
  have h3 : bs = (bs.reverse.dropWhile (· == 0)).reverse
      ++ (bs.reverse.takeWhile (· == 0)).reverse := by
    conv_lhs => rw [← List.reverse_reverse bs, ← h1]
    rw [List.reverse_append]
  have h5 : bs.length = (bs.reverse.dropWhile (· == 0)).reverse.length
      + (bs.reverse.takeWhile (· == 0)).length := by
    conv_lhs => rw [h3]
    simp [List.length_append]
  conv_rhs => rw [h3]
  congr 1
  conv_rhs => rw [h2]
  simp only [List.reverse_replicate]
  congr 1
  omega

theorem stripTrailingZeros_length_le (bs : List Nat) :
    (stripTrailingZeros bs).length ≤ bs.length := by
  unfold stripTrailingZeros
  have h : (bs.reverse.dropWhile (· == 0)).Sublist bs.reverse :=
    List.dropWhile_sublist _
  calc (bs.reverse.dropWhile (· == 0)).reverse.length
      = (bs.reverse.dropWhile (· == 0)).length := by simp
    _ ≤ bs.reverse.length := h.length_le
    _ = bs.length := by simp

/-- The byte-level element codec round-trips: re-encoding a decoded element
reproduces the raw bytes exactly. -/
theorem encodeElem_decodeElem (dt : DType) (bs : List Nat)
    (hlen : bs.length = dt.itemsize) (hb : ∀ x ∈ bs, x < 256) :
    encodeElem dt (decodeElem dt bs) = bs := by
  rcases dt with ⟨k, w⟩
  have hlen' : bs.length = w := hlen
  have hlt : beBytesToNat bs < 256 ^ w := by
    have := beBytesToNat_lt bs hb
    rwa [hlen'] at this
  have hule : ((beBytesToNat bs : Int) % (256 ^ w : Int)) = beBytesToNat bs := by
    apply Int.emod_eq_of_lt (Int.natCast_nonneg _)
    exact_mod_cast hlt
  rcases k with _ | _ | _
  · -- unsigned
    show natToBeBytes w (((beBytesToNat bs : Int) % (256 ^ w : Int)).toNat) = bs
    rw [hule, Int.toNat_natCast, ← hlen', natToBeBytes_beBytesToNat bs hb]
  · -- signed: two's complement wrap-around is the identity on the raw value
    show natToBeBytes w (((toSigned w (beBytesToNat bs)) % (256 ^ w : Int)).toNat) = bs
    have hmod : (toSigned w (beBytesToNat bs)) % (256 ^ w : Int) = beBytesToNat bs := by
      unfold toSigned
      by_cases hcase : 2 * beBytesToNat bs ≥ 256 ^ w
      · simp only [hcase, if_pos]
        have hsub : ((beBytesToNat bs : Int) - 256 ^ w) % (256 ^ w : Int)
            = (beBytesToNat bs : Int) % (256 ^ w : Int) := by
          rw [Int.sub_emod, Int.emod_self, sub_zero, Int.emod_emod_of_dvd _ dvd_rfl]
        rw [hsub, hule]
      · simp only [hcase, if_neg, not_false_iff]
        exact hule
    rw [hmod, Int.toNat_natCast, ← hlen', natToBeBytes_beBytesToNat bs hb]
  · -- byte string: strip trailing NULs, then pad back to width
    have hle := stripTrailingZeros_length_le bs
    have happ := stripTrailingZeros_append bs
    show (stripTrailingZeros bs).take w
        ++ List.replicate (w - (stripTrailingZeros bs).length) 0 = bs
    rw [List.take_of_length_le (by omega), ← hlen']
    exact happ

/-! ## Values and the decoded-header mapping -/

/-- A value held in a decoded-header mapping: a numpy scalar, a numpy array
(shape plus column-major element listing), or a Python string (used only by
derived entries such as enum names). -/
inductive DatValue where
  | scalar (e : Elem)
  | array (shape : List Nat) (elems : List Elem)
  | strVal (s : String)
  deriving DecidableEq, Repr

/-- The decoded header: a Python dict from field name to value, modelled as
an association list with insertion-order append / in-place overwrite. -/
abbrev Meta := List (String × DatValue)

/-- Dict lookup. -/
def mlookup : Meta → String → Option DatValue
  | [], _ => none
  | (k', v) :: rest, k => if k' = k then some v else mlookup rest k

/-- Dict membership test (`k in d`). -/
def mcontains (m : Meta) (k : String) : Bool :=
  (mlookup m k).isSome

/-- Dict assignment (`d[k] = v`): overwrite in place, else append. -/
def minsert : Meta → String → DatValue → Meta
  | [], k, v => [(k, v)]
  | (k', v') :: rest, k, v =>
    if k' = k then (k, v) :: rest else (k', v') :: minsert rest k v

/-- Dict key removal (used to state that derived entries are ignored). -/
def merase (m : Meta) (k : String) : Meta :=
  m.filter (fun p => p.1 ≠ k)

theorem mlookup_minsert_self (m : Meta) (k : String) (v : DatValue) :
    mlookup (minsert m k v) k = some v := by
  induction m with
  | nil => simp [minsert, mlookup]
  | cons p rest ih =>
    by_cases h : p.1 = k
    · simp [minsert, h, mlookup]
    · simp [minsert, h, mlookup, ih]

theorem mlookup_minsert_ne (m : Meta) (k k' : String) (v : DatValue)
    (h : k' ≠ k) : mlookup (minsert m k v) k' = mlookup m k' := by
  induction m with
  | nil => simp [minsert, mlookup, Ne.symm h]
  | cons p rest ih =>
    by_cases hp : p.1 = k
    · simp [minsert, hp, mlookup, Ne.symm h]
    · by_cases hp' : p.1 = k'
      · simp [minsert, hp, mlookup, hp', h]
      · simp [minsert, hp, mlookup, hp', ih]

theorem mlookup_merase_ne (m : Meta) (k k' : String) (h : k' ≠ k) :
    mlookup (merase m k) k' = mlookup m k' := by
  induction m with
  | nil => rfl
  | cons p rest ih =>
    unfold merase at ih ⊢
    rw [List.filter_cons]
    by_cases hp : p.1 = k
    · have hne : ¬ p.1 = k' := by rw [hp]; exact Ne.symm h
      rw [if_neg (by simp [hp])]
      rw [show mlookup (p :: rest) k' = mlookup rest k' from by simp [mlookup, hne]]
      exact ih
    · rw [if_pos (by simp [hp])]
      by_cases hp' : p.1 = k'
      · simp [mlookup, hp']
      · simp only [mlookup, hp', if_neg, not_false_iff]
        exact ih

/-! ## Reading raw values from a buffer (`np.frombuffer` and `read_value`) -/

/-- Split off `n` consecutive chunks of `w` items each (the caller
guarantees `n * w` items are available). -/
def takeChunks (w : Nat) : Nat → List α → List (List α)
  | 0, _ => []
  | n + 1, bs => bs.take w :: takeChunks w n (bs.drop w)

theorem takeChunks_flatten (w n : Nat) (bs : List α) (hn : n * w ≤ bs.length) :
    (takeChunks w n bs).flatten = bs.take (n * w) := by
  induction n generalizing bs with
  | zero => simp [takeChunks]
  | succ n ih =>
    have hw : w ≤ bs.length := by
      calc w ≤ (n + 1) * w := by nlinarith
        _ ≤ bs.length := hn
    have hrec : n * w ≤ (bs.drop w).length := by
      rw [List.length_drop]
      have : (n + 1) * w = n * w + w := by ring
      omega
    rw [takeChunks, List.flatten_cons, ih (bs.drop w) hrec]
    have : (n + 1) * w = w + n * w := by ring
    rw [this, List.take_add]

theorem takeChunks_mem_length (w n : Nat) (bs : List α) (hn : n * w ≤ bs.length)
    (c : List α) (hc : c ∈ takeChunks w n bs) : c.length = w ∧ ∀ x ∈ c, x ∈ bs := by
  induction n generalizing bs with
  | zero => simp [takeChunks] at hc
  | succ n ih =>
    have hw : w ≤ bs.length := by
      calc w ≤ (n + 1) * w := by nlinarith
        _ ≤ bs.length := hn
    have hrec : n * w ≤ (bs.drop w).length := by
      rw [List.length_drop]
      have : (n + 1) * w = n * w + w := by ring
      omega
    rw [takeChunks] at hc
    rcases List.mem_cons.mp hc with h | h
    · subst h
      refine ⟨by rw [List.length_take]; omega, fun x hx => ?_⟩
      exact List.mem_of_mem_take hx
    · obtain ⟨h1, h2⟩ := ih (bs.drop w) hrec h
      exact ⟨h1, fun x hx => List.mem_of_mem_drop (h2 x hx)⟩

/-- Model of `np.frombuffer(buffer, dtype, count, offset=offset)`: returns
exactly `count` decoded items, or raises `ValueError` when the offset is
past the end or fewer than `count * itemsize` bytes remain (numpy never
returns a short array). -/
def fromBuffer (buffer : List Nat) (dt : DType) (count offset : Nat) :
    Except DatError (List Elem) :=
  if offset > buffer.length then
    .error (.valueError "offset must not be greater than buffer length")
  else if buffer.length - offset < count * dt.itemsize then
    .error (.valueError "buffer is smaller than requested size")
  else
    .ok ((takeChunks dt.itemsize count (buffer.drop offset)).map (decodeElem dt))

/-- Model of `jeiss_convert.utils.read_value`.  The shape argument is the
already-realised shape (`None` for a scalar read).  Note the padding branch
after the read: it is reachable only if the read returned fewer than `count`
items, which `np.frombuffer` never does — it raises instead, so a truncated
buffer is an error even when `fill` is given. -/
def read_value (buffer : List Nat) (dt : DType) (offset : Nat)
    (shape : Option (List Nat)) (fill : Option Elem) : Except DatError DatValue :=
  match shape with
  | none =>
    match fromBuffer buffer dt 1 offset with
    | .error e => .error e
    | .ok es =>
      match es with
      | e :: _ => .ok (.scalar e)
      | [] =>
        match fill with
        | none => .error (.runtimeError "could only read 0 items; expected 1")
        | some f => .ok (.scalar f)
  | some sh =>
    match fromBuffer buffer dt sh.prod offset with
    | .error e => .error e
    | .ok es =>
      if es.length < sh.prod then
        match fill with
        | none => .error (.runtimeError "could only read fewer items than expected")
        | some f => .ok (.array sh (es ++ List.replicate (sh.prod - es.length) f))
      else .ok (.array sh es)

/-! ## Schemas, enum tables, registry -/

/-- One entry of a field's shape tuple: a literal dimension or the name of
an earlier field whose decoded value gives the dimension. -/
inductive ShapeItem where
  | lit (n : Nat)
  | ref (name : String)
  deriving DecidableEq, Repr

/-- A field descriptor (`SpecTuple` in `specs.py` / `utils.py`):
name, dtype, byte offset and optional shape tuple. -/
structure SpecTuple where
  name : String
  dtype : DType
  offset : Nat
  shape : Option (List ShapeItem)
  deriving DecidableEq, Repr

/-- The shape-reference names occurring in a field's shape tuple. -/
def shapeRefs (st : SpecTuple) : List String :=
  match st.shape with
  | none => []
  | some sh => sh.filterMap (fun it => match it with
      | .lit _ => none
      | .ref k => some k)

/-- Look a dimension up in the decoded-so-far mapping (`meta[item]`);
`KeyError` when absent, `TypeError` when the value is not an integer
scalar. -/
def lookupDim (m : Meta) (k : String) : Except DatError Nat :=
  match mlookup m k with
  | some (.scalar (.i v)) => .ok v.toNat
  | some _ => .error (.typeError k)
  | none => .error (.keyError k)

/-- Resolve the non-literal entries of a shape tuple against the mapping. -/
def realiseItems : List ShapeItem → Meta → Except DatError (List Nat)
  | [], _ => .ok []
  | .lit n :: rest, m =>
    match realiseItems rest m with
    | .error e => .error e
    | .ok l => .ok (n :: l)
  | .ref k :: rest, m =>
    match lookupDim m k with
    | .error e => .error e
    | .ok n =>
      match realiseItems rest m with
      | .error e => .error e
      | .ok l => .ok (n :: l)

/-- Model of `utils.SpecTuple.realise_shape`: `None` for a scalar field
(shape absent, empty, or the literal `(0,)`), otherwise the concrete
dimension tuple; a missing referenced field raises `KeyError`. -/
def realise_shape (st : SpecTuple) (m : Meta) : Except DatError (Option (List Nat)) :=
  match st.shape with
  | none => .ok none
  | some sh =>
    if sh = [] ∨ sh = [.lit 0] then .ok none
    else
      match realiseItems sh m with
      | .error e => .error e
      | .ok l => .ok (some l)

/-- An enumeration table (`EnumMapping`): ordered value/name pairs; the
Python class builds dicts in both directions, later pairs overwriting. -/
structure EnumMapping where
  pairs : List (Int × String)
  deriving DecidableEq, Repr

/-- Last-binding-wins association lookup, matching Python dict insertion
semantics for `_value_to_name`. -/
def lastAssoc : List (Int × String) → Int → Option String
  | [], _ => none
  | (k, n) :: rest, v =>
    match lastAssoc rest v with
    | some r => some r
    | none => if k = v then some n else none

/-- Model of `EnumMapping.get_name`: `KeyError` on an unknown value. -/
def get_name (em : EnumMapping) (v : Int) : Except DatError String :=
  match lastAssoc em.pairs v with
  | some n => .ok n
  | none => .error (.enumError v)

/-- The process-wide registries `SPECS` and `ENUMS`, loaded from the
`jeiss-specs` tables.  The tables are not under `src/`, so the registry is
a parameter. -/
structure Registry where
  specs : List (Nat × List SpecTuple)
  enums : List (String × EnumMapping)
  deriving DecidableEq, Repr

/-- `SPECS[version]` lookup. -/
def findSpec (reg : Registry) (v : Nat) : Option (List SpecTuple) :=
  match reg.specs.find? (fun p => p.1 = v) with
  | some p => some p.2
  | none => none

/-- `ENUMS` lookup (`self.name in ENUMS`). -/
def findEnum (reg : Registry) (k : String) : Option EnumMapping :=
  match reg.enums.find? (fun p => p.1 = k) with
  | some p => some p.2
  | none => none

/-! ## Decoding (`read_into`, `_parse_with_version`, `parse_bytes`) -/

/-- The dict key an enum value is looked up under must be a hashable
integer scalar; arrays and byte strings fail. -/
def enumKey (v : DatValue) : Except DatError Int :=
  match v with
  | .scalar (.i v) => .ok v
  | _ => .error (.typeError "unhashable enum key")

/-- Model of `utils.SpecTuple.read_into` (with `force=False`): skip the
field if its name is already bound, otherwise realise the shape against the
decoded-so-far mapping, read the value, store it, and — when enum naming is
enabled and the field has an enumeration table — store the derived
`name + ENUM_NAME_SUFFIX` entry as well. -/
def read_into (reg : Registry) (buffer : List Nat) (st : SpecTuple)
    (out : Meta) (name_enums : Bool) : Except DatError Meta :=
  if mcontains out st.name then .ok out
  else
    match realise_shape st out with
    | .error e => .error e
    | .ok sh =>
      match read_value buffer st.dtype st.offset sh none with
      | .error e => .error e
      | .ok val =>
        if name_enums then
          match findEnum reg st.name with
          | some em =>
            match enumKey val with
            | .error e => .error e
            | .ok key =>
              match get_name em key with
              | .error e => .error e
              | .ok nm =>
                .ok (minsert (minsert out st.name val)
                  (st.name ++ ENUM_NAME_SUFFIX) (.strVal nm))
          | none => .ok (minsert out st.name val)
        else .ok (minsert out st.name val)

/-- Left fold of `read_into` over the fields of a schema, in list order. -/
def foldFields (reg : Registry) (buffer : List Nat) (name_enums : Bool) :
    List SpecTuple → Meta → Except DatError Meta
  | [], out => .ok out
  | st :: rest, out =>
    match read_into reg buffer st out name_enums with
    | .error e => .error e
    | .ok out' => foldFields reg buffer name_enums rest out'

/-- Model of `utils._parse_with_version`. -/
def _parse_with_version (reg : Registry) (b : List Nat) (version : Nat)
    (name_enums : Bool) : Except DatError Meta :=
  match findSpec reg version with
  | none => .error (.missingVersion version)
  | some spec => foldFields reg b name_enums spec []

/-- Read `d["FileVersion"]` as the schema-registry key. -/
def getFileVersion (m : Meta) : Except DatError Nat :=
  match mlookup m "FileVersion" with
  | some (.scalar (.i v)) => .ok v.toNat
  | some _ => .error (.typeError "FileVersion")
  | none => .error (.keyError "FileVersion")

/-- Modelled from the spec: `utils.handle_dates` adds derived ISO-date
entries for the fields listed in `DATE_FIELDS` of `jeiss-specs/misc.toml`,
which is not under `src/`; the spec treats datetime handling as an external
concern, so the model takes the date-field list to be empty, making
`handle_dates` the identity (it never touches schema fields either way). -/
def handle_dates (m : Meta) : Meta := m

/-- Model of `utils.parse_bytes`: bootstrap parse with schema 0, full parse
with the schema named by the bootstrapped `FileVersion`, then record the
total byte count under `DAT_NBYTES_FIELD`. -/
def parse_bytes (reg : Registry) (b : List Nat) (name_enums : Bool) :
    Except DatError Meta :=
  match _parse_with_version reg b 0 name_enums with
  | .error e => .error e
  | .ok d =>
    match getFileVersion d with
    | .error e => .error e
    | .ok ver =>
      match _parse_with_version reg b ver name_enums with
      | .error e => .error e
      | .ok out =>
        let out1 := minsert out DAT_NBYTES_FIELD (.scalar (.i (b.length : Int)))
        .ok (if name_enums then handle_dates out1 else out1)

/-! ## Encoding (`write_header`) -/

/-- Model of `BytesIO.seek(offset)` followed by `write(bs)`: overwrite the
bytes at `[offset, offset + bs.length)`, zero-padding if the seek is past
the end, growing the buffer if the write runs past the end. -/
def writeAt (buf : List Nat) (off : Nat) (bs : List Nat) : List Nat :=
  buf.take off ++ List.replicate (off - buf.length) 0 ++ bs
    ++ buf.drop (off + bs.length)

/-- Serialize a mapping value with a field's dtype
(`np.asarray(item, dtype).tobytes(order)`); the column-major byte order of
an array is exactly its stored element listing. -/
def encodeValue (dt : DType) (v : DatValue) : Except DatError (List Nat) :=
  match v with
  | .scalar e => .ok (encodeElem dt e)
  | .array _ es => .ok (es.map (encodeElem dt)).flatten
  | .strVal _ => .error (.typeError "cannot cast str to numeric dtype")

/-- The write loop of `utils.write_header`: for each field of the schema,
look its value up in the mapping and write its bytes at the field's
offset. -/
def writeFields (data : Meta) : List SpecTuple → List Nat → Except DatError (List Nat)
  | [], buf => .ok buf
  | st :: rest, buf =>
    match mlookup data st.name with
    | none => .error (.keyError st.name)
    | some v =>
      match encodeValue st.dtype v with
      | .error e => .error e
      | .ok bs => writeFields data rest (writeAt buf st.offset bs)

/-- Model of `utils.write_header`: an all-zero buffer of `HEADER_LENGTH`
bytes, overwritten field by field at each field's offset. -/
def write_header (reg : Registry) (data : Meta) : Except DatError (List Nat) :=
  match getFileVersion data with
  | .error e => .error e
  | .ok ver =>
    match findSpec reg ver with
    | none => .error (.missingVersion ver)
    | some spec => writeFields data spec (List.replicate HEADER_LENGTH 0)

/-! ## Round-trip of a single field read -/

theorem length_takeChunks (w n : Nat) (bs : List α) :
    (takeChunks w n bs).length = n := by
  induction n generalizing bs with
  | zero => rfl
  | succ n ih => simp [takeChunks, ih]

theorem encode_decode_chunks (dt : DType) (n : Nat) (bs : List Nat)
    (hw : 0 < dt.itemsize) (hn : n * dt.itemsize ≤ bs.length)
    (hb : ∀ x ∈ bs, x < 256) :
    (((takeChunks dt.itemsize n bs).map (decodeElem dt)).map
        (encodeElem dt)).flatten = bs.take (n * dt.itemsize) := by
  have hchunks : ∀ c ∈ takeChunks dt.itemsize n bs,
      encodeElem dt (decodeElem dt c) = c := by
    intro c hc
    obtain ⟨hlen, hmem⟩ := takeChunks_mem_length dt.itemsize n bs hn c hc
    exact encodeElem_decodeElem dt c hlen (fun x hx => hb x (hmem x hx))
  rw [List.map_map]
  have : (takeChunks dt.itemsize n bs).map (encodeElem dt ∘ decodeElem dt)
      = takeChunks dt.itemsize n bs := by
    apply List.map_congr_left ?_ |>.trans (List.map_id _)
    intro c hc
    exact hchunks c hc
  rw [this, takeChunks_flatten _ _ _ hn]

/-- Inversion of a successful `fromBuffer`. -/
theorem fromBuffer_ok_inv {b : List Nat} {dt : DType} {cnt off : Nat}
    {es : List Elem} (h : fromBuffer b dt cnt off = .ok es) :
    off ≤ b.length ∧ cnt * dt.itemsize ≤ b.length - off ∧
    es = (takeChunks dt.itemsize cnt (b.drop off)).map (decodeElem dt) := by
  unfold fromBuffer at h
  by_cases h1 : off > b.length
  · rw [if_pos h1] at h
    cases h
  · rw [if_neg h1] at h
    by_cases h2 : b.length - off < cnt * dt.itemsize
    · rw [if_pos h2] at h
      cases h
    · rw [if_neg h2] at h
      cases h
      exact ⟨by omega, by omega, rfl⟩

/-- Characterisation of a successful `read_value` with no fill: the value's
re-encoding is exactly the raw byte range the read consumed, and that range
lies inside the buffer. -/
theorem read_value_ok_encode (b : List Nat) (dt : DType) (off : Nat)
    (sh : Option (List Nat)) (val : DatValue)
    (hw : 0 < dt.itemsize) (hb : ∀ x ∈ b, x < 256)
    (h : read_value b dt off sh none = .ok val) :
    ∃ cnt, (sh = none → cnt = 1) ∧ (∀ l, sh = some l → cnt = l.prod) ∧
      off + cnt * dt.itemsize ≤ b.length ∧
      encodeValue dt val = .ok ((b.drop off).take (cnt * dt.itemsize)) := by
  have hbdrop : ∀ x ∈ b.drop off, x < 256 :=
    fun x hx => hb x (List.mem_of_mem_drop hx)
  match sh with
  | none =>
    unfold read_value at h
    cases hfb : fromBuffer b dt 1 off with
    | error e =>
      rw [hfb] at h
      cases h
    | ok es =>
      rw [hfb] at h
      obtain ⟨ho1, ho2, hes⟩ := fromBuffer_ok_inv hfb
      have hchunk : takeChunks dt.itemsize 1 (b.drop off)
          = [(b.drop off).take dt.itemsize] := rfl
      rw [hchunk, List.map_cons, List.map_nil] at hes
      subst hes
      have hval : val = .scalar (decodeElem dt ((b.drop off).take dt.itemsize)) := by
        cases h
        rfl
      subst hval
      refine ⟨1, fun _ => rfl, ?_, by omega, ?_⟩
      · intro l hl
        cases hl
      · have hlen : ((b.drop off).take dt.itemsize).length = dt.itemsize := by
          rw [List.length_take, List.length_drop]
          omega
        show Except.ok (encodeElem dt (decodeElem dt ((b.drop off).take dt.itemsize)))
            = Except.ok ((b.drop off).take (1 * dt.itemsize))
        rw [encodeElem_decodeElem dt _ hlen
          (fun x hx => hbdrop x (List.mem_of_mem_take hx)), one_mul]
  | some l =>
    replace h : (match fromBuffer b dt l.prod off with
        | Except.error e => Except.error e
        | Except.ok es =>
          if es.length < l.prod then
            Except.error (DatError.runtimeError "could only read fewer items than expected")
          else Except.ok (DatValue.array l es)) = Except.ok val := h
    cases hfb : fromBuffer b dt l.prod off with
    | error e =>
      rw [hfb] at h
      cases h
    | ok es =>
      rw [hfb] at h
      obtain ⟨ho1, ho2, hes⟩ := fromBuffer_ok_inv hfb
      have hlen2 : es.length = l.prod := by
        rw [hes, List.length_map, length_takeChunks]
      have hnotlt : ¬ es.length < l.prod := by omega
      replace h : (if es.length < l.prod then
          Except.error (DatError.runtimeError "could only read fewer items than expected")
          else Except.ok (DatValue.array l es)) = Except.ok val := h
      rw [if_neg hnotlt] at h
      have hval : val = .array l es := by
        cases h
        rfl
      subst hval
      refine ⟨l.prod, ?_, ?_, by omega, ?_⟩
      · intro hn
        cases hn
      · intro l' hl'
        cases hl'
        rfl
      · rw [hes]
        show Except.ok ((((takeChunks dt.itemsize l.prod (b.drop off)).map
            (decodeElem dt)).map (encodeElem dt)).flatten)
            = Except.ok ((b.drop off).take (l.prod * dt.itemsize))
        rw [encode_decode_chunks dt l.prod (b.drop off) hw
          (by rw [List.length_drop]; omega) hbdrop]

/-! ## Parse-fold invariants -/

/-- `m'` preserves every binding of `m` (holds when `m'` extends `m` by
fresh keys only). -/
def MPreserve (m m' : Meta) : Prop :=
  ∀ k v, mlookup m k = some v → mlookup m' k = some v

theorem mpreserve_refl (m : Meta) : MPreserve m m := fun _ _ h => h

theorem mpreserve_trans {a b c : Meta} (h1 : MPreserve a b) (h2 : MPreserve b c) :
    MPreserve a c := fun k v h => h2 k v (h1 k v h)

theorem mpreserve_minsert_fresh (m : Meta) (k : String) (v : DatValue)
    (hf : mlookup m k = none) : MPreserve m (minsert m k v) := by
  intro k' v' h
  have hne : k' ≠ k := by
    intro he
    rw [he, hf] at h
    cases h
  rw [mlookup_minsert_ne m k k' v hne, h]

theorem realiseItems_mono {m m' : Meta} (hp : MPreserve m m')
    (sh : List ShapeItem) (l : List Nat) (h : realiseItems sh m = .ok l) :
    realiseItems sh m' = .ok l := by
  induction sh generalizing l with
  | nil =>
    cases h
    rfl
  | cons it rest ih =>
    cases it with
    | lit n =>
      unfold realiseItems at h ⊢
      cases hr : realiseItems rest m with
      | error e =>
        rw [hr] at h
        cases h
      | ok l0 =>
        rw [hr] at h
        cases h
        rw [ih l0 hr]
    | ref k =>
      unfold realiseItems at h ⊢
      cases hd : lookupDim m k with
      | error e =>
        rw [hd] at h
        cases h
      | ok n =>
        rw [hd] at h
        have hd' : lookupDim m' k = .ok n := by
          unfold lookupDim at hd ⊢
          cases hml : mlookup m k with
          | none =>
            rw [hml] at hd
            cases hd
          | some v =>
            rw [hml] at hd
            rw [hp k v hml]
            exact hd
        rw [hd']
        cases hr : realiseItems rest m with
        | error e =>
          rw [hr] at h
          cases h
        | ok l0 =>
          rw [hr] at h
          cases h
          rw [ih l0 hr]

theorem realise_shape_mono {m m' : Meta} (hp : MPreserve m m')
    (st : SpecTuple) (sh : Option (List Nat)) (h : realise_shape st m = .ok sh) :
    realise_shape st m' = .ok sh := by
  unfold realise_shape at h ⊢
  cases hst : st.shape with
  | none =>
    rw [hst] at h
    exact h
  | some items =>
    rw [hst] at h
    replace h : (if items = [] ∨ items = [ShapeItem.lit 0] then Except.ok none
        else match realiseItems items m with
          | Except.error e => Except.error e
          | Except.ok l => Except.ok (some l)) = Except.ok sh := h
    show (if items = [] ∨ items = [ShapeItem.lit 0] then Except.ok none
        else match realiseItems items m' with
          | Except.error e => Except.error e
          | Except.ok l => Except.ok (some l)) = Except.ok sh
    by_cases hc : items = [] ∨ items = [.lit 0]
    · rw [if_pos hc] at h
      rw [if_pos hc]
      exact h
    · rw [if_neg hc] at h
      rw [if_neg hc]
      cases hr : realiseItems items m with
      | error e =>
        rw [hr] at h
        cases h
      | ok l =>
        rw [hr] at h
        rw [realiseItems_mono hp items l hr]
        exact h

/-- A field has been decoded into `m` exactly as `read_into` decodes it. -/
def FieldOkAt (b : List Nat) (m : Meta) (st : SpecTuple) : Prop :=
  ∃ sh val, realise_shape st m = .ok sh ∧
    read_value b st.dtype st.offset sh none = .ok val ∧
    mlookup m st.name = some val

/-- The enum duality of a decoded field: if it has an enumeration table,
the mapping holds the raw integer and the derived name entry. -/
def EnumOkAt (reg : Registry) (m : Meta) (st : SpecTuple) : Prop :=
  ∀ em, findEnum reg st.name = some em →
    ∃ v nm, mlookup m st.name = some (.scalar (.i v)) ∧ get_name em v = .ok nm ∧
      mlookup m (st.name ++ ENUM_NAME_SUFFIX) = some (.strVal nm)

theorem fieldOkAt_mono {b : List Nat} {m m' : Meta} (hp : MPreserve m m')
    {st : SpecTuple} (h : FieldOkAt b m st) : FieldOkAt b m' st := by
  obtain ⟨sh, val, h1, h2, h3⟩ := h
  exact ⟨sh, val, realise_shape_mono hp st sh h1, h2, hp _ _ h3⟩

theorem enumOkAt_mono {reg : Registry} {m m' : Meta} (hp : MPreserve m m')
    {st : SpecTuple} (h : EnumOkAt reg m st) : EnumOkAt reg m' st := by
  intro em hem
  obtain ⟨v, nm, h1, h2, h3⟩ := h em hem
  exact ⟨v, nm, hp _ _ h1, h2, hp _ _ h3⟩

/-- Every key of `m` is a field name or derived enum-name key of `pro`. -/
def KeysFrom (pro : List SpecTuple) (m : Meta) : Prop :=
  ∀ k, mlookup m k ≠ none →
    ∃ st ∈ pro, k = st.name ∨ k = st.name ++ ENUM_NAME_SUFFIX

theorem mlookup_minsert_isSome (m : Meta) (k k' : String) (v : DatValue)
    (h : mlookup (minsert m k v) k' ≠ none) : k' = k ∨ mlookup m k' ≠ none := by
  by_cases he : k' = k
  · exact Or.inl he
  · rw [mlookup_minsert_ne m k k' v he] at h
    exact Or.inr h

/-- Schema well-formedness used throughout: distinct field names, no field
name clashing with a derived enum-name key or with the byte-count
attribute, and positive item sizes. -/
def specWF (spec : List SpecTuple) : Prop :=
  (spec.map SpecTuple.name).Nodup ∧
  (∀ st ∈ spec, ∀ st2 ∈ spec, st.name ≠ st2.name ++ ENUM_NAME_SUFFIX) ∧
  (∀ st ∈ spec, st.name ≠ DAT_NBYTES_FIELD ∧
    st.name ++ ENUM_NAME_SUFFIX ≠ DAT_NBYTES_FIELD) ∧
  (∀ st ∈ spec, 0 < st.dtype.itemsize)

instance (spec : List SpecTuple) : Decidable (specWF spec) := by
  unfold specWF
  infer_instance

theorem string_append_ne_self (s t : String) (ht : t ≠ "") : s ≠ s ++ t := by
  intro he
  apply ht
  have hd : s.data ++ t.data = s.data := by
    rw [← String.data_append, ← he]
  have hlen := congrArg List.length hd
  rw [List.length_append] at hlen
  have hnil : t.data = [] := List.eq_nil_of_length_eq_zero (by omega)
  cases t with
  | mk td =>
    show String.mk td = ""
    have htd : td = [] := hnil
    rw [htd]

theorem string_append_suffix_inj (a b t : String) (h : a ++ t = b ++ t) : a = b := by
  have hd : a.data ++ t.data = b.data ++ t.data := by
    have h1 : (a ++ t).data = a.data ++ t.data := String.data_append a t
    have h2 : (b ++ t).data = b.data ++ t.data := String.data_append b t
    rw [← h1, ← h2, h]
  have hab : a.data = b.data := List.append_cancel_right hd
  cases a with
  | mk da =>
    cases b with
    | mk db =>
      exact congrArg String.mk hab

theorem enum_suffix_ne_empty : ENUM_NAME_SUFFIX ≠ "" := by decide

theorem enumKey_ok_inv {val : DatValue} {key : Int} (h : enumKey val = .ok key) :
    val = .scalar (.i key) := by
  cases val with
  | scalar e =>
    cases e with
    | i v =>
      cases h
      rfl
    | s bs => cases h
  | array sh es => cases h
  | strVal s => cases h

/-- Invariant of the `read_into` fold: on success every field of the schema
has been decoded faithfully, all keys come from field names or derived enum
keys, and each enum-bearing field carries its derived name entry. -/
theorem foldFields_props (reg : Registry) (b : List Nat) (ne : Bool)
    (full : List SpecTuple) (hwf : specWF full) :
    ∀ spec done out m, full = done ++ spec →
      KeysFrom done out →
      (∀ st ∈ done, FieldOkAt b out st) →
      (ne = true → ∀ st ∈ done, EnumOkAt reg out st) →
      foldFields reg b ne spec out = .ok m →
      KeysFrom full m ∧ (∀ st ∈ full, FieldOkAt b m st) ∧
        (ne = true → ∀ st ∈ full, EnumOkAt reg m st) := by
  obtain ⟨hnodup, hsuf, hdat, hsize⟩ := hwf
  intro spec
  induction spec with
  | nil =>
    intro done out m hfull hkeys hdone henum hfold
    cases hfold
    rw [List.append_nil] at hfull
    subst hfull
    exact ⟨hkeys, hdone, henum⟩
  | cons st rest ih =>
    intro done out m hfull hkeys hdone henum hfold
    have hstfull : st ∈ full := by
      rw [hfull]
      exact List.mem_append.mpr (Or.inr (List.mem_cons_self st rest))
    have hdonefull : ∀ st2 ∈ done, st2 ∈ full := by
      intro st2 h2
      rw [hfull]
      exact List.mem_append.mpr (Or.inl h2)
    -- step A: the skip branch cannot trigger
    have hnamesplit : (done.map SpecTuple.name).Disjoint
        ((st :: rest).map SpecTuple.name) := by
      have hmapsplit : (full.map SpecTuple.name)
          = done.map SpecTuple.name ++ (st :: rest).map SpecTuple.name := by
        rw [hfull, List.map_append]
      rw [hmapsplit] at hnodup
      exact (List.nodup_append.mp hnodup).2.2
    have hheadmem : st.name ∈ (st :: rest).map SpecTuple.name :=
      List.mem_map_of_mem SpecTuple.name (List.mem_cons_self st rest)
    have hfreshname : mlookup out st.name = none := by
      by_contra hne
      obtain ⟨st2, hst2, hor⟩ := hkeys st.name hne
      rcases hor with heq | heq
      · have h1 : st.name ∈ done.map SpecTuple.name := by
          rw [heq]
          exact List.mem_map_of_mem SpecTuple.name hst2
        exact hnamesplit h1 hheadmem
      · exact hsuf st hstfull st2 (hdonefull st2 hst2) heq
    have hfreshderived : mlookup out (st.name ++ ENUM_NAME_SUFFIX) = none := by
      by_contra hne
      obtain ⟨st2, hst2, hor⟩ := hkeys (st.name ++ ENUM_NAME_SUFFIX) hne
      rcases hor with heq | heq
      · exact hsuf st2 (hdonefull st2 hst2) st hstfull heq.symm
      · have hnm : st.name = st2.name := string_append_suffix_inj _ _ _ heq
        have h1 : st.name ∈ done.map SpecTuple.name := by
          rw [hnm]
          exact List.mem_map_of_mem SpecTuple.name hst2
        exact hnamesplit h1 hheadmem
    have hcontains : mcontains out st.name = false := by
      unfold mcontains
      rw [hfreshname]
      rfl
    -- step B: unpack the successful read_into
    have hfold2 : (match read_into reg b st out ne with
        | Except.error e => Except.error e
        | Except.ok out2 => foldFields reg b ne rest out2) = Except.ok m := hfold
    clear hfold
    cases hri : read_into reg b st out ne with
    | error e =>
      rw [hri] at hfold2
      cases hfold2
    | ok out2 =>
      rw [hri] at hfold2
      replace hfold2 : foldFields reg b ne rest out2 = Except.ok m := hfold2
      have hri2 : (match realise_shape st out with
          | Except.error e => Except.error e
          | Except.ok sh =>
            match read_value b st.dtype st.offset sh none with
            | Except.error e => Except.error e
            | Except.ok val =>
              if ne = true then
                match findEnum reg st.name with
                | some em =>
                  match enumKey val with
                  | Except.error e => Except.error e
                  | Except.ok key =>
                    match get_name em key with
                    | Except.error e => Except.error e
                    | Except.ok nm =>
                      Except.ok (minsert (minsert out st.name val)
                        (st.name ++ ENUM_NAME_SUFFIX) (DatValue.strVal nm))
                | none => Except.ok (minsert out st.name val)
              else Except.ok (minsert out st.name val)) = Except.ok out2 := by
        rw [← hri]
        unfold read_into
        rw [hcontains]
        rfl
      clear hri
      cases hsh : realise_shape st out with
      | error e =>
        rw [hsh] at hri2
        cases hri2
      | ok sh =>
        rw [hsh] at hri2
        replace hri2 : (match read_value b st.dtype st.offset sh none with
            | Except.error e => Except.error e
            | Except.ok val =>
              if ne = true then
                match findEnum reg st.name with
                | some em =>
                  match enumKey val with
                  | Except.error e => Except.error e
                  | Except.ok key =>
                    match get_name em key with
                    | Except.error e => Except.error e
                    | Except.ok nm =>
                      Except.ok (minsert (minsert out st.name val)
                        (st.name ++ ENUM_NAME_SUFFIX) (DatValue.strVal nm))
                | none => Except.ok (minsert out st.name val)
              else Except.ok (minsert out st.name val)) = Except.ok out2 := hri2
        cases hrv : read_value b st.dtype st.offset sh none with
        | error e =>
          rw [hrv] at hri2
          cases hri2
        | ok val =>
          rw [hrv] at hri2
          replace hri2 : (if ne = true then
                match findEnum reg st.name with
                | some em =>
                  match enumKey val with
                  | Except.error e => Except.error e
                  | Except.ok key =>
                    match get_name em key with
                    | Except.error e => Except.error e
                    | Except.ok nm =>
                      Except.ok (minsert (minsert out st.name val)
                        (st.name ++ ENUM_NAME_SUFFIX) (DatValue.strVal nm))
                | none => Except.ok (minsert out st.name val)
              else Except.ok (minsert out st.name val)) = Except.ok out2 := hri2
          -- the three success shapes of out2, with the facts needed
          have hmain : MPreserve out out2 ∧ mlookup out2 st.name = some val ∧
              KeysFrom (done ++ [st]) out2 ∧
              (ne = true → EnumOkAt reg out2 st) := by
            have hksingle : KeysFrom (done ++ [st]) (minsert out st.name val) := by
              intro k hk
              rcases mlookup_minsert_isSome out st.name k val hk with hk1 | hk1
              · exact ⟨st, List.mem_append.mpr (Or.inr (List.mem_cons_self st [])),
                  Or.inl hk1⟩
              · obtain ⟨st2, hst2, hor⟩ := hkeys k hk1
                exact ⟨st2, List.mem_append.mpr (Or.inl hst2), hor⟩
            have hder_ne_name : st.name ++ ENUM_NAME_SUFFIX ≠ st.name :=
              fun he => string_append_ne_self st.name ENUM_NAME_SUFFIX
                enum_suffix_ne_empty he.symm
            cases hne : ne with
            | false =>
              rw [hne] at hri2
              rw [if_neg (by simp)] at hri2
              cases hri2
              refine ⟨mpreserve_minsert_fresh out st.name val hfreshname,
                mlookup_minsert_self out st.name val, hksingle, ?_⟩
              intro hcontra
              cases hcontra
            | true =>
              rw [hne] at hri2
              rw [if_pos rfl] at hri2
              cases hfe : findEnum reg st.name with
              | none =>
                rw [hfe] at hri2
                replace hri2 : (Except.ok (minsert out st.name val)
                      : Except DatError Meta)
                    = Except.ok out2 := hri2
                cases hri2
                refine ⟨mpreserve_minsert_fresh out st.name val hfreshname,
                  mlookup_minsert_self out st.name val, hksingle, ?_⟩
                intro _ em hem
                rw [hfe] at hem
                cases hem
              | some em =>
                rw [hfe] at hri2
                replace hri2 : (match enumKey val with
                    | Except.error e => Except.error e
                    | Except.ok key =>
                      match get_name em key with
                      | Except.error e => Except.error e
                      | Except.ok nm =>
                        Except.ok (minsert (minsert out st.name val)
                          (st.name ++ ENUM_NAME_SUFFIX) (DatValue.strVal nm)))
                    = Except.ok out2 := hri2
                cases hek : enumKey val with
                | error e =>
                  rw [hek] at hri2
                  cases hri2
                | ok key =>
                  rw [hek] at hri2
                  replace hri2 : (match get_name em key with
                      | Except.error e => Except.error e
                      | Except.ok nm =>
                        Except.ok (minsert (minsert out st.name val)
                          (st.name ++ ENUM_NAME_SUFFIX) (DatValue.strVal nm)))
                      = Except.ok out2 := hri2
                  cases hgn : get_name em key with
                  | error e =>
                    rw [hgn] at hri2
                    cases hri2
                  | ok nm =>
                    rw [hgn] at hri2
                    replace hri2 : (Except.ok
                        (minsert (minsert out st.name val)
                          (st.name ++ ENUM_NAME_SUFFIX) (DatValue.strVal nm))
                        : Except DatError Meta)
                        = Except.ok out2 := hri2
                    cases hri2
                    have hval : val = .scalar (.i key) := enumKey_ok_inv hek
                    have hfresh2 : mlookup (minsert out st.name val)
                        (st.name ++ ENUM_NAME_SUFFIX) = none := by
                      rw [mlookup_minsert_ne out st.name _ val hder_ne_name]
                      exact hfreshderived
                    have hp2 : MPreserve out
                        (minsert (minsert out st.name val)
                          (st.name ++ ENUM_NAME_SUFFIX) (.strVal nm)) :=
                      mpreserve_trans
                        (mpreserve_minsert_fresh out st.name val hfreshname)
                        (mpreserve_minsert_fresh _ _ _ hfresh2)
                    refine ⟨hp2, ?_, ?_, ?_⟩
                    · rw [mlookup_minsert_ne _ _ _ _ (Ne.symm hder_ne_name)]
                      exact mlookup_minsert_self out st.name val
                    · intro k hk
                      rcases mlookup_minsert_isSome _ _ k _ hk with hk1 | hk1
                      · exact ⟨st, List.mem_append.mpr
                          (Or.inr (List.mem_cons_self st [])), Or.inr hk1⟩
                      · exact hksingle k hk1
                    · intro _ em2 hem2
                      rw [hfe] at hem2
                      cases hem2
                      refine ⟨key, nm, ?_, hgn, ?_⟩
                      · rw [mlookup_minsert_ne _ _ _ _ (Ne.symm hder_ne_name),
                          hval]
                        exact mlookup_minsert_self out st.name _
                      · exact mlookup_minsert_self _ _ _
          obtain ⟨hpres, hlookname, hkeys2, henum2⟩ := hmain
          have hfieldok : FieldOkAt b out2 st :=
            ⟨sh, val, realise_shape_mono hpres st sh hsh, hrv, hlookname⟩
          -- recurse
          have hfull2 : full = (done ++ [st]) ++ rest := by
            rw [hfull, List.append_assoc]
            rfl
          refine ih (done ++ [st]) out2 m hfull2 hkeys2 ?_ ?_ hfold2
          · intro st2 hst2
            rcases List.mem_append.mp hst2 with h2 | h2
            · exact fieldOkAt_mono hpres (hdone st2 h2)
            · have heq2 : st2 = st := by
                cases h2 with
                | head => rfl
                | tail _ h3 => cases h3
              rw [heq2]
              exact hfieldok
          · intro hnet st2 hst2
            rcases List.mem_append.mp hst2 with h2 | h2
            · exact enumOkAt_mono hpres (henum hnet st2 h2)
            · have heq2 : st2 = st := by
                cases h2 with
                | head => rfl
                | tail _ h3 => cases h3
              rw [heq2]
              exact henum2 hnet

/-! ## Write-side machinery -/

/-- The number of bytes a field occupies, as determined by its realised
shape against a fully decoded mapping. -/
def fieldNBytes (m : Meta) (st : SpecTuple) : Option Nat :=
  match realise_shape st m with
  | .ok none => some st.dtype.itemsize
  | .ok (some sh) => some (sh.prod * st.dtype.itemsize)
  | .error _ => none

/-- Byte position `i` lies inside some field of the schema. -/
def Covered (m : Meta) (spec : List SpecTuple) (i : Nat) : Prop :=
  ∃ st ∈ spec, ∃ nb, fieldNBytes m st = some nb ∧
    st.offset ≤ i ∧ i < st.offset + nb

/-- Everything `writeFields` needs of one field: its stored value
re-encodes to exactly the original bytes of its range, and the range fits
in both the header and the buffer. -/
def WriteReady (b : List Nat) (m : Meta) (st : SpecTuple) : Prop :=
  ∃ nb val, fieldNBytes m st = some nb ∧ mlookup m st.name = some val ∧
    encodeValue st.dtype val = .ok ((b.drop st.offset).take nb) ∧
    st.offset + nb ≤ HEADER_LENGTH ∧ st.offset + nb ≤ b.length

/-- A decoded field is write-ready: its bytes re-encode exactly
(`WriteReady` without the header-length bound, which the caller supplies). -/
theorem fieldOk_writeReady (b : List Nat) (m : Meta) (st : SpecTuple)
    (hb : ∀ x ∈ b, x < 256) (hsize : 0 < st.dtype.itemsize)
    (hfo : FieldOkAt b m st)
    (hext : ∀ nb, fieldNBytes m st = some nb → st.offset + nb ≤ HEADER_LENGTH) :
    WriteReady b m st := by
  obtain ⟨sh, val, hsh, hrv, hlook⟩ := hfo
  obtain ⟨cnt, hc1, hc2, hbound, henc⟩ :=
    read_value_ok_encode b st.dtype st.offset sh val hsize hb hrv
  have hnb : fieldNBytes m st = some (cnt * st.dtype.itemsize) := by
    unfold fieldNBytes
    rw [hsh]
    cases sh with
    | none =>
      rw [hc1 rfl, one_mul]
    | some l =>
      rw [hc2 l rfl]
  exact ⟨cnt * st.dtype.itemsize, val, hnb, hlook, henc,
    hext _ hnb, hbound⟩

theorem length_writeAt (buf : List Nat) (off : Nat) (bs : List Nat)
    (h : off + bs.length ≤ buf.length) :
    (writeAt buf off bs).length = buf.length := by
  unfold writeAt
  rw [List.length_append, List.length_append, List.length_append,
    List.length_take, List.length_replicate, List.length_drop]
  omega

theorem getElem?_writeAt (buf : List Nat) (off : Nat) (bs : List Nat) (i : Nat)
    (h : off + bs.length ≤ buf.length) :
    (writeAt buf off bs)[i]? =
      if i < off then buf[i]?
      else if i < off + bs.length then bs[i - off]?
      else buf[i]? := by
  unfold writeAt
  have hoff : off ≤ buf.length := by omega
  have hrep : off - buf.length = 0 := by omega
  rw [hrep]
  have htl : (buf.take off).length = off := by
    rw [List.length_take]
    omega
  rw [show List.replicate 0 0 = ([] : List Nat) from rfl, List.append_nil]
  have htl1 : (buf.take off ++ bs).length = off + bs.length := by
    rw [List.length_append, htl]
  by_cases h1 : i < off
  · rw [if_pos h1]
    rw [List.getElem?_append, if_pos (by omega)]
    rw [List.getElem?_append, if_pos (by omega)]
    rw [List.getElem?_take, if_pos h1]
  · rw [if_neg h1]
    by_cases h2 : i < off + bs.length
    · rw [if_pos h2]
      rw [List.getElem?_append, if_pos (by omega)]
      rw [List.getElem?_append, if_neg (by omega), htl]
    · rw [if_neg h2]
      rw [List.getElem?_append, if_neg (by omega), htl1]
      rw [List.getElem?_drop]
      congr 1
      omega

theorem writeFields_spec (b : List Nat) (m : Meta) :
    ∀ (spec : List SpecTuple) (buf : List Nat),
      (∀ st ∈ spec, WriteReady b m st) → buf.length = HEADER_LENGTH →
      ∃ out, writeFields m spec buf = .ok out ∧ out.length = HEADER_LENGTH ∧
        (∀ i, Covered m spec i → out[i]? = b[i]?) ∧
        (∀ i, ¬ Covered m spec i → out[i]? = buf[i]?) := by
  intro spec
  induction spec with
  | nil =>
    intro buf _ hbuf
    refine ⟨buf, rfl, hbuf, ?_, fun i _ => rfl⟩
    intro i hi
    obtain ⟨st, hst, _⟩ := hi
    cases hst
  | cons st rest ih =>
    intro buf hready hbuf
    obtain ⟨nb, val, hnb, hlook, henc, hHL, hblen⟩ :=
      hready st (List.mem_cons_self st rest)
    have hbslen : ((b.drop st.offset).take nb).length = nb := by
      rw [List.length_take, List.length_drop]
      omega
    have hwa : st.offset + ((b.drop st.offset).take nb).length ≤ buf.length := by
      rw [hbslen, hbuf]
      exact hHL
    have hbuf2 : (writeAt buf st.offset ((b.drop st.offset).take nb)).length
        = HEADER_LENGTH := by
      rw [length_writeAt _ _ _ hwa, hbuf]
    obtain ⟨out, hout, hlenout, hcov, huncov⟩ :=
      ih (writeAt buf st.offset ((b.drop st.offset).take nb))
        (fun st2 h2 => hready st2 (List.mem_cons_of_mem st h2)) hbuf2
    refine ⟨out, ?_, hlenout, ?_, ?_⟩
    · have hstep : writeFields m (st :: rest) buf
          = (match mlookup m st.name with
            | none => Except.error (DatError.keyError st.name)
            | some v =>
              match encodeValue st.dtype v with
              | Except.error e => Except.error e
              | Except.ok bs => writeFields m rest (writeAt buf st.offset bs)) := rfl
      rw [hstep, hlook]
      show (match encodeValue st.dtype val with
          | Except.error e => Except.error e
          | Except.ok bs => writeFields m rest (writeAt buf st.offset bs))
          = Except.ok out
      rw [henc]
      show writeFields m rest
          (writeAt buf st.offset ((b.drop st.offset).take nb)) = Except.ok out
      exact hout
    · intro i hi
      obtain ⟨st2, hst2, nb2, hnb2, hlo, hhi⟩ := hi
      cases hst2 with
      | head =>
        -- covered by st itself
        by_cases hrest : Covered m rest i
        · exact hcov i hrest
        · rw [huncov i hrest]
          have hnb2' : nb2 = nb := by
            rw [hnb] at hnb2
            cases hnb2
            rfl
          subst hnb2'
          rw [getElem?_writeAt _ _ _ _ hwa]
          rw [if_neg (by omega), if_pos (by rw [hbslen]; omega)]
          rw [List.getElem?_take, if_pos (by omega), List.getElem?_drop]
          congr 1
          omega
      | tail _ h2 =>
        exact hcov i ⟨st2, h2, nb2, hnb2, hlo, hhi⟩
    · intro i hi
      have hrest : ¬ Covered m rest i := by
        intro ⟨st2, hst2, w⟩
        exact hi ⟨st2, List.mem_cons_of_mem st hst2, w⟩
      rw [huncov i hrest]
      rw [getElem?_writeAt _ _ _ _ hwa]
      have hnotst : ¬ (st.offset ≤ i ∧ i < st.offset + nb) := by
        intro ⟨hlo, hhi⟩
        exact hi ⟨st, List.mem_cons_self st rest, nb, hnb, hlo, hhi⟩
      by_cases h1 : i < st.offset
      · rw [if_pos h1]
      · rw [if_neg h1, if_neg (by rw [hbslen]; omega)]

/-- Unfolding of a successful `write_header` into its field loop. -/
theorem write_header_core (reg : Registry) (b : List Nat) (m : Meta)
    (ver : Nat) (spec : List SpecTuple)
    (hfv : getFileVersion m = .ok ver)
    (hspec : findSpec reg ver = some spec)
    (hready : ∀ st ∈ spec, WriteReady b m st) :
    ∃ out, write_header reg m = .ok out ∧ out.length = HEADER_LENGTH ∧
      (∀ i, Covered m spec i → out[i]? = b[i]?) ∧
      (∀ i, ¬ Covered m spec i → out[i]? = (List.replicate HEADER_LENGTH 0)[i]?) := by
  obtain ⟨out, hout, hlen, hcov, huncov⟩ :=
    writeFields_spec b m spec (List.replicate HEADER_LENGTH 0) hready
      (List.length_replicate _ _)
  refine ⟨out, ?_, hlen, hcov, huncov⟩
  have hstep : write_header reg m = (match getFileVersion m with
      | Except.error e => Except.error e
      | Except.ok ver =>
        match findSpec reg ver with
        | none => Except.error (DatError.missingVersion ver)
        | some spec => writeFields m spec (List.replicate HEADER_LENGTH 0)) := rfl
  rw [hstep, hfv]
  show (match findSpec reg ver with
      | none => Except.error (DatError.missingVersion ver)
      | some spec => writeFields m spec (List.replicate HEADER_LENGTH 0))
      = Except.ok out
  rw [hspec]
  show writeFields m spec (List.replicate HEADER_LENGTH 0) = Except.ok out
  exact hout

/-! ## `parse_bytes` inversion and the bootstrap version -/

/-- The schema version obtained from the bootstrap (version-0) parse, which
selects the full schema inside `parse_bytes`. -/
def bootVersion (reg : Registry) (b : List Nat) (ne : Bool) : Except DatError Nat :=
  match _parse_with_version reg b 0 ne with
  | .error e => .error e
  | .ok d => getFileVersion d

theorem parse_with_version_inv {reg : Registry} {b : List Nat} {ver : Nat}
    {ne : Bool} {m : Meta} (h : _parse_with_version reg b ver ne = .ok m) :
    ∃ spec, findSpec reg ver = some spec ∧ foldFields reg b ne spec [] = .ok m := by
  unfold _parse_with_version at h
  cases hs : findSpec reg ver with
  | none =>
    rw [hs] at h
    cases h
  | some spec =>
    rw [hs] at h
    exact ⟨spec, rfl, h⟩

theorem parse_bytes_inv {reg : Registry} {b : List Nat} {ne : Bool} {m : Meta}
    (h : parse_bytes reg b ne = .ok m) :
    ∃ d ver out, _parse_with_version reg b 0 ne = .ok d ∧
      getFileVersion d = .ok ver ∧
      _parse_with_version reg b ver ne = .ok out ∧
      m = minsert out DAT_NBYTES_FIELD (.scalar (.i (b.length : Int))) := by
  unfold parse_bytes at h
  cases h0 : _parse_with_version reg b 0 ne with
  | error e =>
    rw [h0] at h
    cases h
  | ok d =>
    rw [h0] at h
    replace h : (match getFileVersion d with
        | Except.error e => Except.error e
        | Except.ok ver =>
          match _parse_with_version reg b ver ne with
          | Except.error e => Except.error e
          | Except.ok out =>
            Except.ok (if ne = true then
              handle_dates (minsert out DAT_NBYTES_FIELD
                (.scalar (.i (b.length : Int))))
              else minsert out DAT_NBYTES_FIELD
                (.scalar (.i (b.length : Int))))) = Except.ok m := h
    cases hv : getFileVersion d with
    | error e =>
      rw [hv] at h
      cases h
    | ok ver =>
      rw [hv] at h
      replace h : (match _parse_with_version reg b ver ne with
          | Except.error e => Except.error e
          | Except.ok out =>
            Except.ok (if ne = true then
              handle_dates (minsert out DAT_NBYTES_FIELD
                (.scalar (.i (b.length : Int))))
              else minsert out DAT_NBYTES_FIELD
                (.scalar (.i (b.length : Int))))) = Except.ok m := h
      cases hp : _parse_with_version reg b ver ne with
      | error e =>
        rw [hp] at h
        cases h
      | ok out =>
        rw [hp] at h
        replace h : (Except.ok (if ne = true then
            handle_dates (minsert out DAT_NBYTES_FIELD
              (.scalar (.i (b.length : Int))))
            else minsert out DAT_NBYTES_FIELD
              (.scalar (.i (b.length : Int)))) : Except DatError Meta)
          = Except.ok m := h
        unfold handle_dates at h
        rw [ite_self] at h
        cases h
        exact ⟨d, ver, out, rfl, hv, hp, rfl⟩

/-- Executable form of `Covered`. -/
def coveredB (m : Meta) (spec : List SpecTuple) (i : Nat) : Bool :=
  spec.any (fun st =>
    match fieldNBytes m st with
    | some nb => decide (st.offset ≤ i) && decide (i < st.offset + nb)
    | none => false)

theorem coveredB_iff (m : Meta) (spec : List SpecTuple) (i : Nat) :
    coveredB m spec i = true ↔ Covered m spec i := by
  unfold coveredB Covered
  rw [List.any_eq_true]
  constructor
  · rintro ⟨st, hst, hp⟩
    refine ⟨st, hst, ?_⟩
    cases hnb : fieldNBytes m st with
    | none =>
      rw [hnb] at hp
      cases hp
    | some nb =>
      rw [hnb] at hp
      simp only [Bool.and_eq_true, decide_eq_true_eq] at hp
      exact ⟨nb, rfl, hp⟩
  · rintro ⟨st, hst, nb, hnb, h1, h2⟩
    refine ⟨st, hst, ?_⟩
    rw [hnb]
    simp only [Bool.and_eq_true, decide_eq_true_eq]
    exact ⟨h1, h2⟩

instance coveredDecidable (m : Meta) (spec : List SpecTuple) (i : Nat) :
    Decidable (Covered m spec i) :=
  decidable_of_iff (coveredB m spec i = true) (coveredB_iff m spec i)

deriving instance DecidableEq for Except

/-- C1: for every well-formed header byte buffer `b` of a supported schema
version (all bytes in range, exactly `HEADER_LENGTH` bytes, schema
well-formed, every spacer byte outside the schema's fields zero),
re-encoding the mapping obtained by decoding `b` — `write_header` uses only
the schema's named fields, never the derived entries — reproduces the
buffer byte for byte: `write_header (parse_bytes b) = b`, so `encode` is a
left inverse of `decode` on the non-derived fields. -/
theorem c1_header_roundtrip (reg : Registry) (b : List Nat) (m : Meta)
    (ver : Nat) (spec : List SpecTuple)
    (hlen : b.length = HEADER_LENGTH)
    (hb : ∀ x ∈ b, x < 256)
    (hparse : parse_bytes reg b true = .ok m)
    (hboot : bootVersion reg b true = .ok ver)
    (hfv : getFileVersion m = .ok ver)
    (hspec : findSpec reg ver = some spec)
    (hwf : specWF spec)
    (hspacer : ∀ i, i < HEADER_LENGTH → ¬ Covered m spec i → b[i]? = some 0) :
    write_header reg m = .ok b := by
  obtain ⟨d, ver0, out, hp0, hfv0, hpv, hm⟩ := parse_bytes_inv hparse
  have hver0 : ver0 = ver := by
    unfold bootVersion at hboot
    rw [hp0] at hboot
    replace hboot : getFileVersion d = .ok ver := hboot
    rw [hfv0] at hboot
    cases hboot
    rfl
  rw [hver0] at hpv
  obtain ⟨spec', hspec', hfold⟩ := parse_with_version_inv hpv
  have hspeceq : spec' = spec := by
    rw [hspec] at hspec'
    cases hspec'
    rfl
  rw [hspeceq] at hfold
  clear hspec' hspeceq
  have hkeysnil : KeysFrom [] ([] : Meta) := by
    intro k hk
    exact absurd rfl hk
  obtain ⟨hkeysout, hfieldout, _⟩ :=
    foldFields_props reg b true spec hwf spec [] [] out rfl hkeysnil
      (fun st h => absurd h (List.not_mem_nil st))
      (fun _ st h => absurd h (List.not_mem_nil st)) hfold
  have hdatfresh : mlookup out DAT_NBYTES_FIELD = none := by
    by_contra hne
    obtain ⟨st, hst, hor⟩ := hkeysout DAT_NBYTES_FIELD hne
    rcases hor with heq | heq
    · exact (hwf.2.2.1 st hst).1 heq.symm
    · exact (hwf.2.2.1 st hst).2 heq.symm
  have hpres : MPreserve out m := by
    rw [hm]
    exact mpreserve_minsert_fresh out _ _ hdatfresh
  have hready : ∀ st ∈ spec, WriteReady b m st := by
    intro st hst
    refine fieldOk_writeReady b m st hb (hwf.2.2.2 st hst)
      (fieldOkAt_mono hpres (hfieldout st hst)) ?_
    intro nb hnb
    obtain ⟨sh, val, hsh, hrv, _⟩ := fieldOkAt_mono hpres (hfieldout st hst)
    obtain ⟨cnt, hc1, hc2, hbound, _⟩ :=
      read_value_ok_encode b st.dtype st.offset sh val (hwf.2.2.2 st hst) hb hrv
    have hnb2 : fieldNBytes m st = some (cnt * st.dtype.itemsize) := by
      unfold fieldNBytes
      rw [hsh]
      cases sh with
      | none => rw [hc1 rfl, one_mul]
      | some l => rw [hc2 l rfl]
    rw [hnb2] at hnb
    cases hnb
    rw [← hlen]
    exact hbound
  obtain ⟨outb, hwh, hlenout, hcov, huncov⟩ :=
    write_header_core reg b m ver spec hfv hspec hready
  have houtb : outb = b := by
    apply List.ext_getElem?
    intro i
    by_cases hi : i < HEADER_LENGTH
    · by_cases hc : Covered m spec i
      · exact hcov i hc
      · rw [huncov i hc, hspacer i hi hc]
        simp [List.getElem?_replicate, hi]
    · have h1 : outb[i]? = none := List.getElem?_eq_none (by omega)
      have h2 : b[i]? = none := List.getElem?_eq_none (by omega)
      rw [h1, h2]
  rw [hwh, houtb]

/-- Concrete single-field registry used by witnesses: the bootstrap schema
is also the (only) full schema, version 0. -/
def regW : Registry :=
  ⟨[(0, [⟨"FileVersion", ⟨.uint, 1⟩, 0, none⟩])], []⟩

/-- A well-formed all-zero header buffer for `regW`. -/
def bW : List Nat := List.replicate 1024 0

/-- The mapping `parse_bytes regW bW` produces. -/
def mW : Meta :=
  [("FileVersion", .scalar (.i 0)), (DAT_NBYTES_FIELD, .scalar (.i 1024))]

theorem c1w_fb : fromBuffer bW ⟨.uint, 1⟩ 1 0 = .ok [.i 0] := by
  unfold fromBuffer bW
  rw [List.length_replicate]
  rw [if_neg (by omega), if_neg (by simp)]
  rw [List.drop_zero]
  unfold takeChunks
  rw [List.take_replicate]
  norm_num
  exact ⟨rfl, rfl⟩

theorem c1w_len : bW.length = 1024 := by
  show (List.replicate 1024 (0 : Nat)).length = 1024
  rw [List.length_replicate]

/-- Evaluation rule for a scalar `read_value` given its buffer read. -/
theorem read_value_scalar_eval {b : List Nat} {dt : DType} {off : Nat}
    {e : Elem} (h : fromBuffer b dt 1 off = .ok [e]) :
    read_value b dt off none none = .ok (.scalar e) := by
  unfold read_value
  rw [h]

/-- Evaluation rule for an array `read_value` given its buffer read. -/
theorem read_value_array_eval {b : List Nat} {dt : DType} {off : Nat}
    {sh : List Nat} {es : List Elem}
    (h : fromBuffer b dt sh.prod off = .ok es) (hlen : es.length = sh.prod) :
    read_value b dt off (some sh) none = .ok (.array sh es) := by
  show (match fromBuffer b dt sh.prod off with
      | Except.error e => Except.error e
      | Except.ok es2 =>
        if es2.length < sh.prod then
          Except.error (DatError.runtimeError
            "could only read fewer items than expected")
        else Except.ok (DatValue.array sh es2)) = Except.ok (DatValue.array sh es)
  rw [h]
  show (if es.length < sh.prod then
      Except.error (DatError.runtimeError
        "could only read fewer items than expected")
      else Except.ok (DatValue.array sh es)) = Except.ok (DatValue.array sh es)
  rw [if_neg (by omega)]

theorem c1w_rv : read_value bW ⟨.uint, 1⟩ 0 none none
    = .ok (.scalar (.i 0)) :=
  read_value_scalar_eval c1w_fb

theorem c1w_ri : read_into regW bW ⟨"FileVersion", ⟨.uint, 1⟩, 0, none⟩ [] true
    = .ok [("FileVersion", DatValue.scalar (.i 0))] := by
  simp [read_into, mcontains, mlookup, realise_shape, c1w_rv, findEnum, regW,
    minsert]

theorem c1w_findSpec : findSpec regW 0
    = some [⟨"FileVersion", ⟨.uint, 1⟩, 0, none⟩] := rfl

theorem c1w_pv : _parse_with_version regW bW 0 true
    = .ok [("FileVersion", DatValue.scalar (.i 0))] := by
  simp [_parse_with_version, c1w_findSpec, foldFields, c1w_ri]

theorem c1w_parse : parse_bytes regW bW true = .ok mW := by
  simp [parse_bytes, c1w_pv, getFileVersion, mlookup, handle_dates, minsert,
    mW, c1w_len, show ("FileVersion" : String) ≠ DAT_NBYTES_FIELD from by decide]

theorem c1w_boot : bootVersion regW bW true = .ok 0 := by
  simp [bootVersion, c1w_pv, getFileVersion, mlookup]

theorem c1_header_roundtrip_witness :
    (parse_bytes regW bW true = .ok mW ∧ bootVersion regW bW true = .ok 0 ∧
      specWF [⟨"FileVersion", ⟨.uint, 1⟩, 0, none⟩]) ∧
    write_header regW mW = .ok bW :=
  ⟨⟨c1w_parse, c1w_boot, by decide⟩,
    c1_header_roundtrip regW bW mW 0 [⟨"FileVersion", ⟨.uint, 1⟩, 0, none⟩]
      (by rw [c1w_len]; rfl) (fun x hx => by
        have h0 := List.eq_of_mem_replicate
          (show x ∈ List.replicate 1024 (0 : Nat) from hx)
        omega)
      c1w_parse c1w_boot (by decide) c1w_findSpec (by decide)
      (fun i hi _ => by
        show (List.replicate 1024 (0 : Nat))[i]? = some 0
        rw [List.getElem?_replicate, if_pos (show i < 1024 from hi)])⟩

/-! ## Schema loading (`specs.py`): sort by offset, no validation

`specs.SPECS` is built as
`tuple(sorted(SpecTuple.from_file(tsv), key=lambda s: s.offset))`: the rows
parsed from a TSV are sorted by offset and that is all — no check of
forward references happens at load time.  (`utils.SPECS` keeps the TSV file
order; the tables themselves are not under `src/`, and the spec says fields
are listed in offset order, which the sorted loader guarantees.) -/

/-- Stable insertion into an offset-sorted list. -/
def insertByOffset (st : SpecTuple) : List SpecTuple → List SpecTuple
  | [] => [st]
  | st2 :: rest =>
    if st2.offset ≤ st.offset then st2 :: insertByOffset st rest
    else st :: st2 :: rest

/-- Stable sort by offset, modelling Python's `sorted(key=offset)`. -/
def sortByOffset : List SpecTuple → List SpecTuple
  | [] => []
  | st :: rest => insertByOffset st (sortByOffset rest)

/-- Model of the `specs.py` schema construction for one version: the parsed
rows sorted by offset.  Loading is a total function — it cannot fail, and
in particular performs no forward-reference validation. -/
def loadSchema (rows : List SpecTuple) : List SpecTuple :=
  sortByOffset rows

theorem mem_insertByOffset (st y : SpecTuple) (l : List SpecTuple) :
    y ∈ insertByOffset st l ↔ y = st ∨ y ∈ l := by
  induction l with
  | nil => simp [insertByOffset]
  | cons st2 rest ih =>
    unfold insertByOffset
    by_cases h : st2.offset ≤ st.offset
    · rw [if_pos h]
      simp only [List.mem_cons, ih]
      tauto
    · rw [if_neg h]
      simp only [List.mem_cons]

theorem pairwise_insertByOffset (st : SpecTuple) (l : List SpecTuple)
    (h : l.Pairwise (fun a c => a.offset ≤ c.offset)) :
    (insertByOffset st l).Pairwise (fun a c => a.offset ≤ c.offset) := by
  induction l with
  | nil => simp [insertByOffset]
  | cons st2 rest ih =>
    rw [List.pairwise_cons] at h
    obtain ⟨h1, h2⟩ := h
    unfold insertByOffset
    by_cases hle : st2.offset ≤ st.offset
    · rw [if_pos hle]
      rw [List.pairwise_cons]
      refine ⟨?_, ih h2⟩
      intro y hy
      rcases (mem_insertByOffset st y rest).mp hy with he | hm
      · rw [he]
        exact hle
      · exact h1 y hm
    · rw [if_neg hle]
      rw [List.pairwise_cons]
      refine ⟨?_, by rw [List.pairwise_cons]; exact ⟨h1, h2⟩⟩
      intro y hy
      rcases List.mem_cons.mp hy with he | hm
      · rw [he]
        omega
      · have := h1 y hm
        omega

theorem pairwise_sortByOffset (rows : List SpecTuple) :
    (sortByOffset rows).Pairwise (fun a c => a.offset ≤ c.offset) := by
  induction rows with
  | nil => simp [sortByOffset]
  | cons st rest ih => exact pairwise_insertByOffset st _ ih

/-! ## Dependency errors surface at decode time, not load time -/

theorem mcontains_minsert_of (m : Meta) (k k2 : String) (v : DatValue)
    (h : mcontains m k = true) : mcontains (minsert m k2 v) k = true := by
  unfold mcontains at h ⊢
  by_cases he : k = k2
  · rw [he, mlookup_minsert_self]
    rfl
  · rw [mlookup_minsert_ne m k2 k v he]
    exact h

theorem read_into_ok_contains {reg : Registry} {b : List Nat} {st : SpecTuple}
    {out out2 : Meta} {ne : Bool} (h : read_into reg b st out ne = .ok out2) :
    mcontains out2 st.name = true ∧
      ∀ k, mcontains out k = true → mcontains out2 k = true := by
  unfold read_into at h
  by_cases hc : mcontains out st.name = true
  · rw [if_pos hc] at h
    cases h
    exact ⟨hc, fun _ h => h⟩
  · rw [if_neg hc] at h
    cases hsh : realise_shape st out with
    | error e =>
      rw [hsh] at h
      cases h
    | ok sh =>
      rw [hsh] at h
      replace h : (match read_value b st.dtype st.offset sh none with
          | Except.error e => Except.error e
          | Except.ok val =>
            if ne = true then
              match findEnum reg st.name with
              | some em =>
                match enumKey val with
                | Except.error e => Except.error e
                | Except.ok key =>
                  match get_name em key with
                  | Except.error e => Except.error e
                  | Except.ok nm =>
                    Except.ok (minsert (minsert out st.name val)
                      (st.name ++ ENUM_NAME_SUFFIX) (DatValue.strVal nm))
              | none => Except.ok (minsert out st.name val)
            else Except.ok (minsert out st.name val)) = Except.ok out2 := h
      cases hrv : read_value b st.dtype st.offset sh none with
      | error e =>
        rw [hrv] at h
        cases h
      | ok val =>
        rw [hrv] at h
        replace h : (if ne = true then
            match findEnum reg st.name with
            | some em =>
              match enumKey val with
              | Except.error e => Except.error e
              | Except.ok key =>
                match get_name em key with
                | Except.error e => Except.error e
                | Except.ok nm =>
                  Except.ok (minsert (minsert out st.name val)
                    (st.name ++ ENUM_NAME_SUFFIX) (DatValue.strVal nm))
            | none => Except.ok (minsert out st.name val)
          else Except.ok (minsert out st.name val)) = Except.ok out2 := h
        cases hne : ne with
        | false =>
          rw [hne] at h
          rw [if_neg (by simp)] at h
          cases h
          constructor
          · unfold mcontains
            rw [mlookup_minsert_self]
            rfl
          · intro k hk
            exact mcontains_minsert_of out k st.name val hk
        | true =>
          rw [hne] at h
          rw [if_pos rfl] at h
          cases hfe : findEnum reg st.name with
          | none =>
            rw [hfe] at h
            replace h : (Except.ok (minsert out st.name val)
                  : Except DatError Meta)
                = Except.ok out2 := h
            cases h
            constructor
            · unfold mcontains
              rw [mlookup_minsert_self]
              rfl
            · intro k hk
              exact mcontains_minsert_of out k st.name val hk
          | some em =>
            rw [hfe] at h
            replace h : (match enumKey val with
                | Except.error e => Except.error e
                | Except.ok key =>
                  match get_name em key with
                  | Except.error e => Except.error e
                  | Except.ok nm =>
                    Except.ok (minsert (minsert out st.name val)
                      (st.name ++ ENUM_NAME_SUFFIX) (DatValue.strVal nm)))
                = Except.ok out2 := h
            cases hek : enumKey val with
            | error e =>
              rw [hek] at h
              cases h
            | ok key =>
              rw [hek] at h
              replace h : (match get_name em key with
                  | Except.error e => Except.error e
                  | Except.ok nm =>
                    Except.ok (minsert (minsert out st.name val)
                      (st.name ++ ENUM_NAME_SUFFIX) (DatValue.strVal nm)))
                  = Except.ok out2 := h
              cases hgn : get_name em key with
              | error e =>
                rw [hgn] at h
                cases h
              | ok nm =>
                rw [hgn] at h
                replace h : (Except.ok
                    (minsert (minsert out st.name val)
                      (st.name ++ ENUM_NAME_SUFFIX) (DatValue.strVal nm))
                    : Except DatError Meta)
                    = Except.ok out2 := h
                cases h
                constructor
                · apply mcontains_minsert_of
                  unfold mcontains
                  rw [mlookup_minsert_self]
                  rfl
                · intro k hk
                  apply mcontains_minsert_of
                  exact mcontains_minsert_of out k st.name val hk

theorem realiseItems_keyError {items : List ShapeItem} {m : Meta} {r : String}
    (h : realiseItems items m = .error (.keyError r)) :
    (∃ it ∈ items, it = ShapeItem.ref r) ∧ mcontains m r = false := by
  induction items with
  | nil => cases h
  | cons it rest ih =>
    cases it with
    | lit n =>
      unfold realiseItems at h
      cases hr : realiseItems rest m with
      | error e =>
        rw [hr] at h
        cases h
        obtain ⟨⟨it2, hit2, he2⟩, hc⟩ := ih hr
        exact ⟨⟨it2, List.mem_cons_of_mem _ hit2, he2⟩, hc⟩
      | ok l =>
        rw [hr] at h
        cases h
    | ref k =>
      unfold realiseItems at h
      cases hd : lookupDim m k with
      | error e =>
        rw [hd] at h
        cases h
        -- the lookupDim error is the overall error
        unfold lookupDim at hd
        cases hml : mlookup m k with
        | none =>
          rw [hml] at hd
          cases hd
          refine ⟨⟨ShapeItem.ref r, List.mem_cons_self _ _, rfl⟩, ?_⟩
          unfold mcontains
          rw [hml]
          rfl
        | some v =>
          rw [hml] at hd
          cases v with
          | scalar e =>
            cases e with
            | i x => cases hd
            | s bs => cases hd
          | array sh es => cases hd
          | strVal s => cases hd
      | ok n =>
        rw [hd] at h
        cases hr : realiseItems rest m with
        | error e =>
          rw [hr] at h
          cases h
          obtain ⟨⟨it2, hit2, he2⟩, hc⟩ := ih hr
          exact ⟨⟨it2, List.mem_cons_of_mem _ hit2, he2⟩, hc⟩
        | ok l =>
          rw [hr] at h
          cases h

theorem fromBuffer_error_inv {b : List Nat} {dt : DType} {cnt off : Nat}
    {e : DatError} (h : fromBuffer b dt cnt off = .error e) :
    ∃ msg, e = .valueError msg := by
  unfold fromBuffer at h
  by_cases h1 : off > b.length
  · rw [if_pos h1] at h
    cases h
    exact ⟨_, rfl⟩
  · rw [if_neg h1] at h
    by_cases h2 : b.length - off < cnt * dt.itemsize
    · rw [if_pos h2] at h
      cases h
      exact ⟨_, rfl⟩
    · rw [if_neg h2] at h
      cases h

theorem read_value_error_inv {b : List Nat} {dt : DType} {off : Nat}
    {sh : Option (List Nat)} {fill : Option Elem} {e : DatError}
    (h : read_value b dt off sh fill = .error e) :
    (∃ msg, e = .valueError msg) ∨ (∃ msg, e = .runtimeError msg) := by
  match sh with
  | none =>
    cases fill with
    | none =>
      replace h : (match fromBuffer b dt 1 off with
          | Except.error e2 => Except.error e2
          | Except.ok es =>
            match es with
            | e2 :: _ => Except.ok (DatValue.scalar e2)
            | [] => Except.error (DatError.runtimeError
                "could only read 0 items; expected 1")) = Except.error e := h
      cases hfb : fromBuffer b dt 1 off with
      | error e2 =>
        rw [hfb] at h
        cases h
        exact Or.inl (fromBuffer_error_inv hfb)
      | ok es =>
        rw [hfb] at h
        cases es with
        | nil =>
          cases h
          exact Or.inr ⟨_, rfl⟩
        | cons e2 rest => cases h
    | some f =>
      replace h : (match fromBuffer b dt 1 off with
          | Except.error e2 => Except.error e2
          | Except.ok es =>
            match es with
            | e2 :: _ => Except.ok (DatValue.scalar e2)
            | [] => Except.ok (DatValue.scalar f)) = Except.error e := h
      cases hfb : fromBuffer b dt 1 off with
      | error e2 =>
        rw [hfb] at h
        cases h
        exact Or.inl (fromBuffer_error_inv hfb)
      | ok es =>
        rw [hfb] at h
        cases es with
        | nil => cases h
        | cons e2 rest => cases h
  | some l =>
    cases fill with
    | none =>
      replace h : (match fromBuffer b dt l.prod off with
          | Except.error e2 => Except.error e2
          | Except.ok es =>
            if es.length < l.prod then
              Except.error (DatError.runtimeError
                "could only read fewer items than expected")
            else Except.ok (DatValue.array l es)) = Except.error e := h
      cases hfb : fromBuffer b dt l.prod off with
      | error e2 =>
        rw [hfb] at h
        cases h
        exact Or.inl (fromBuffer_error_inv hfb)
      | ok es =>
        rw [hfb] at h
        replace h : (if es.length < l.prod then
            Except.error (DatError.runtimeError
              "could only read fewer items than expected")
            else Except.ok (DatValue.array l es)) = Except.error e := h
        by_cases hlt : es.length < l.prod
        · rw [if_pos hlt] at h
          cases h
          exact Or.inr ⟨_, rfl⟩
        · rw [if_neg hlt] at h
          cases h
    | some f =>
      replace h : (match fromBuffer b dt l.prod off with
          | Except.error e2 => Except.error e2
          | Except.ok es =>
            if es.length < l.prod then
              Except.ok (DatValue.array l
                (es ++ List.replicate (l.prod - es.length) f))
            else Except.ok (DatValue.array l es)) = Except.error e := h
      cases hfb : fromBuffer b dt l.prod off with
      | error e2 =>
        rw [hfb] at h
        cases h
        exact Or.inl (fromBuffer_error_inv hfb)
      | ok es =>
        rw [hfb] at h
        replace h : (if es.length < l.prod then
            (Except.ok (DatValue.array l
              (es ++ List.replicate (l.prod - es.length) f))
              : Except DatError DatValue)
            else Except.ok (DatValue.array l es)) = Except.error e := h
        by_cases hlt : es.length < l.prod
        · rw [if_pos hlt] at h
          cases h
        · rw [if_neg hlt] at h
          cases h

theorem read_into_keyError {reg : Registry} {b : List Nat} {st : SpecTuple}
    {out : Meta} {ne : Bool} {r : String}
    (h : read_into reg b st out ne = .error (.keyError r)) :
    r ∈ shapeRefs st ∧ mcontains out r = false := by
  unfold read_into at h
  by_cases hc : mcontains out st.name = true
  · rw [if_pos hc] at h
    cases h
  · rw [if_neg hc] at h
    cases hsh : realise_shape st out with
    | error e =>
      rw [hsh] at h
      cases h
      -- e is the keyError; it came from shape realisation
      unfold realise_shape at hsh
      cases hshape : st.shape with
      | none =>
        rw [hshape] at hsh
        cases hsh
      | some items =>
        rw [hshape] at hsh
        replace hsh : (if items = [] ∨ items = [ShapeItem.lit 0] then
            Except.ok none
            else match realiseItems items out with
              | Except.error e => Except.error e
              | Except.ok l => Except.ok (some l)) = Except.error
                (DatError.keyError r) := hsh
        by_cases hcond : items = [] ∨ items = [ShapeItem.lit 0]
        · rw [if_pos hcond] at hsh
          cases hsh
        · rw [if_neg hcond] at hsh
          cases hit : realiseItems items out with
          | error e2 =>
            rw [hit] at hsh
            cases hsh
            obtain ⟨⟨it, hitmem, hiteq⟩, hcon⟩ := realiseItems_keyError hit
            constructor
            · unfold shapeRefs
              rw [hshape]
              exact List.mem_filterMap.mpr ⟨it, hitmem, by rw [hiteq]⟩
            · exact hcon
          | ok l =>
            rw [hit] at hsh
            cases hsh
    | ok sh =>
      rw [hsh] at h
      replace h : (match read_value b st.dtype st.offset sh none with
          | Except.error e => Except.error e
          | Except.ok val =>
            if ne = true then
              match findEnum reg st.name with
              | some em =>
                match enumKey val with
                | Except.error e => Except.error e
                | Except.ok key =>
                  match get_name em key with
                  | Except.error e => Except.error e
                  | Except.ok nm =>
                    Except.ok (minsert (minsert out st.name val)
                      (st.name ++ ENUM_NAME_SUFFIX) (DatValue.strVal nm))
              | none => Except.ok (minsert out st.name val)
            else Except.ok (minsert out st.name val))
          = Except.error (DatError.keyError r) := h
      cases hrv : read_value b st.dtype st.offset sh none with
      | error e =>
        rw [hrv] at h
        cases h
        rcases read_value_error_inv hrv with ⟨msg, hmsg⟩ | ⟨msg, hmsg⟩ <;> cases hmsg
      | ok val =>
        rw [hrv] at h
        replace h : (if ne = true then
            match findEnum reg st.name with
            | some em =>
              match enumKey val with
              | Except.error e => Except.error e
              | Except.ok key =>
                match get_name em key with
                | Except.error e => Except.error e
                | Except.ok nm =>
                  Except.ok (minsert (minsert out st.name val)
                    (st.name ++ ENUM_NAME_SUFFIX) (DatValue.strVal nm))
            | none => Except.ok (minsert out st.name val)
          else Except.ok (minsert out st.name val))
          = Except.error (DatError.keyError r) := h
        cases hne : ne with
        | false =>
          rw [hne] at h
          rw [if_neg (by simp)] at h
          cases h
        | true =>
          rw [hne] at h
          rw [if_pos rfl] at h
          cases hfe : findEnum reg st.name with
          | none =>
            rw [hfe] at h
            cases h
          | some em =>
            rw [hfe] at h
            replace h : (match enumKey val with
                | Except.error e => Except.error e
                | Except.ok key =>
                  match get_name em key with
                  | Except.error e => Except.error e
                  | Except.ok nm =>
                    Except.ok (minsert (minsert out st.name val)
                      (st.name ++ ENUM_NAME_SUFFIX) (DatValue.strVal nm)))
                = Except.error (DatError.keyError r) := h
            cases hek : enumKey val with
            | error e =>
              rw [hek] at h
              cases h
              cases val with
              | scalar e2 =>
                cases e2 with
                | i v => cases hek
                | s bs =>
                  unfold enumKey at hek
                  cases hek
              | array sh2 es =>
                unfold enumKey at hek
                cases hek
              | strVal s2 =>
                unfold enumKey at hek
                cases hek
            | ok key =>
              rw [hek] at h
              replace h : (match get_name em key with
                  | Except.error e => Except.error e
                  | Except.ok nm =>
                    Except.ok (minsert (minsert out st.name val)
                      (st.name ++ ENUM_NAME_SUFFIX) (DatValue.strVal nm)))
                  = Except.error (DatError.keyError r) := h
              cases hgn : get_name em key with
              | error e =>
                rw [hgn] at h
                cases h
                unfold get_name at hgn
                cases hla : lastAssoc em.pairs key with
                | none =>
                  rw [hla] at hgn
                  cases hgn
                | some nm =>
                  rw [hla] at hgn
                  cases hgn
              | ok nm =>
                rw [hgn] at h
                cases h

/-- With an offset-sorted schema whose shape references all point to fields
at strictly lower offsets, the decode fold can never fail with a
dependency `KeyError`: every referenced field has already been decoded when
it is needed. -/
theorem foldFields_no_dependency_keyError (reg : Registry) (b : List Nat)
    (ne : Bool) (full : List SpecTuple)
    (hsorted : full.Pairwise (fun a c => a.offset ≤ c.offset))
    (hdeps : ∀ st ∈ full, ∀ r ∈ shapeRefs st,
      ∃ st2 ∈ full, st2.name = r ∧ st2.offset < st.offset) :
    ∀ spec done out, full = done ++ spec →
      (∀ st ∈ done, mcontains out st.name = true) →
      ∀ r, foldFields reg b ne spec out ≠ .error (.keyError r) := by
  intro spec
  induction spec with
  | nil =>
    intro done out hfull hinv r hcontra
    cases hcontra
  | cons st rest ih =>
    intro done out hfull hinv r hcontra
    replace hcontra : (match read_into reg b st out ne with
        | Except.error e => Except.error e
        | Except.ok o => foldFields reg b ne rest o)
        = Except.error (DatError.keyError r) := hcontra
    cases hri : read_into reg b st out ne with
    | error e =>
      rw [hri] at hcontra
      cases hcontra
      obtain ⟨hrref, hcon⟩ := read_into_keyError hri
      have hstfull : st ∈ full := by
        rw [hfull]
        exact List.mem_append.mpr (Or.inr (List.mem_cons_self st rest))
      obtain ⟨st2, hst2full, hname, hoff⟩ := hdeps st hstfull r hrref
      have hst2done : st2 ∈ done := by
        rw [hfull] at hst2full
        rcases List.mem_append.mp hst2full with h2 | h2
        · exact h2
        · exfalso
          cases h2 with
          | head => omega
          | tail _ h3 =>
            have hsorted2 := hsorted
            rw [hfull] at hsorted2
            have := ((List.pairwise_append.mp hsorted2).2.1)
            rw [List.pairwise_cons] at this
            have := this.1 st2 h3
            omega
      have hbound := hinv st2 hst2done
      rw [hname] at hbound
      rw [hbound] at hcon
      cases hcon
    | ok out2 =>
      rw [hri] at hcontra
      replace hcontra : foldFields reg b ne rest out2
          = Except.error (DatError.keyError r) := hcontra
      obtain ⟨hself, hmono⟩ := read_into_ok_contains hri
      refine ih (done ++ [st]) out2 ?_ ?_ r hcontra
      · rw [hfull, List.append_assoc]
        rfl
      · intro st2 h2
        rcases List.mem_append.mp h2 with h3 | h3
        · exact hmono st2.name (hinv st2 h3)
        · have heq : st2 = st := by
            cases h3 with
            | head => rfl
            | tail _ h4 => cases h4
          rw [heq]
          exact hself

/-! ## C3: forward references load fine and fail only at decode time -/

/-- Forward-referencing schema: the dependent field `B` precedes its
dependency `A` in offset order. -/
def specBadC3 : List SpecTuple :=
  [⟨"B", ⟨.uint, 1⟩, 0, some [.ref "A"]⟩, ⟨"A", ⟨.uint, 1⟩, 2, none⟩]

/-- Well-ordered schema: dependency `A` precedes the dependent field `B`. -/
def specGoodC3 : List SpecTuple :=
  [⟨"A", ⟨.uint, 1⟩, 0, none⟩, ⟨"B", ⟨.uint, 1⟩, 2, some [.ref "A"]⟩]

def regC3 : Registry := ⟨[(7, specBadC3), (8, specGoodC3)], []⟩

/-- C3 counterexample: loading a schema with a forward reference does not
fail — `loadSchema` returns the sorted schema and performs no validation —
and the failure the claim places at load time in fact happens at decode
time, as a dependency `KeyError` from `realise_shape`. -/
theorem c3_counterexample :
    loadSchema specBadC3 = specBadC3 ∧
    _parse_with_version regC3 [2, 0, 5, 9] 7 true = .error (.keyError "A") := by
  decide

/-- C3 (amended): schema construction succeeds whether or not shape
references point forward — `specs.py` only sorts the rows by offset and
never validates references — and the forward-reference failure happens at
decode time instead of load time: decoding with the forward-referencing
schema raises `KeyError` for the missing dependency, while decoding with
the well-ordered schema succeeds. -/
theorem c3_decode_time_validation (b1 b2 b3 : Nat) (tail : List Nat) :
    loadSchema specBadC3 = specBadC3 ∧
    loadSchema specGoodC3 = specGoodC3 ∧
    _parse_with_version regC3 (2 :: b1 :: b2 :: b3 :: tail) 8 true
      = .ok [("A", DatValue.scalar (.i 2)),
             ("B", DatValue.array [2] [.i b2, .i b3])] ∧
    _parse_with_version regC3 (2 :: b1 :: b2 :: b3 :: tail) 7 true
      = .error (.keyError "A") := by
  have hlen : (2 :: b1 :: b2 :: b3 :: tail).length = tail.length + 4 := by
    simp [List.length_cons]
  have hfbA : fromBuffer (2 :: b1 :: b2 :: b3 :: tail) ⟨.uint, 1⟩ 1 0
      = .ok [.i 2] := by
    unfold fromBuffer
    rw [if_neg (by omega), if_neg (by simp only [hlen]; omega)]
    rfl
  have hfbB : fromBuffer (2 :: b1 :: b2 :: b3 :: tail) ⟨.uint, 1⟩ 2 2
      = .ok [.i b2, .i b3] := by
    unfold fromBuffer
    rw [if_neg (by simp only [hlen]; omega), if_neg (by simp only [hlen]; omega)]
    show Except.ok ((takeChunks 1 2 (b2 :: b3 :: tail)).map
      (decodeElem ⟨.uint, 1⟩)) = _
    simp [takeChunks, decodeElem, beBytesToNat]
  have hrvA : read_value (2 :: b1 :: b2 :: b3 :: tail) ⟨.uint, 1⟩ 0 none none
      = .ok (.scalar (.i 2)) := read_value_scalar_eval hfbA
  have hrvB : read_value (2 :: b1 :: b2 :: b3 :: tail) ⟨.uint, 1⟩ 2
      (some [2]) none = .ok (.array [2] [.i b2, .i b3]) :=
    read_value_array_eval hfbB rfl
  have hriA : read_into regC3 (2 :: b1 :: b2 :: b3 :: tail)
      ⟨"A", ⟨.uint, 1⟩, 0, none⟩ [] true
      = .ok [("A", DatValue.scalar (.i 2))] := by
    simp [read_into, mcontains, mlookup, realise_shape, hrvA, findEnum, regC3,
      minsert]
  have hriB : read_into regC3 (2 :: b1 :: b2 :: b3 :: tail)
      ⟨"B", ⟨.uint, 1⟩, 2, some [.ref "A"]⟩ [("A", DatValue.scalar (.i 2))] true
      = .ok [("A", DatValue.scalar (.i 2)),
             ("B", DatValue.array [2] [.i b2, .i b3])] := by
    simp [read_into, mcontains, mlookup, realise_shape, realiseItems, lookupDim,
      hrvB, findEnum, regC3, minsert]
  have hrsBad : realise_shape ⟨"B", ⟨.uint, 1⟩, 0, some [.ref "A"]⟩ []
      = .error (.keyError "A") := by
    simp [realise_shape, realiseItems, lookupDim, mlookup]
  have hriBad : read_into regC3 (2 :: b1 :: b2 :: b3 :: tail)
      ⟨"B", ⟨.uint, 1⟩, 0, some [.ref "A"]⟩ [] true
      = .error (.keyError "A") := by
    simp [read_into, mcontains, mlookup, hrsBad]
  refine ⟨by decide, by decide, ?_, ?_⟩
  · have hfs : findSpec regC3 8 = some specGoodC3 := rfl
    simp [_parse_with_version, hfs, specGoodC3, foldFields, hriA, hriB]
  · have hfs : findSpec regC3 7 = some specBadC3 := rfl
    simp [_parse_with_version, hfs, specBadC3, foldFields, hriBad]

/-! ## C9: decode order is offset-ascending and resolves dependencies -/

/-- C9: the schema loaded for any version lists its fields in ascending
byte-offset order — `foldFields` processes exactly that list in order — and
when every shape reference points to a field at a strictly lower offset (as
the format guarantees), the decode can never fail with a dependency
`KeyError`: each referenced field has been decoded into the mapping before
any field whose shape needs it. -/
theorem c9_decode_offset_order (rows : List SpecTuple) (reg : Registry)
    (b : List Nat) (ver : Nat)
    (hspec : findSpec reg ver = some (loadSchema rows))
    (hdeps : ∀ st ∈ loadSchema rows, ∀ r ∈ shapeRefs st,
      ∃ st2 ∈ loadSchema rows, st2.name = r ∧ st2.offset < st.offset) :
    (loadSchema rows).Pairwise (fun a c => a.offset ≤ c.offset) ∧
    ∀ r, _parse_with_version reg b ver true ≠ .error (.keyError r) := by
  refine ⟨pairwise_sortByOffset rows, ?_⟩
  intro r hcontra
  unfold _parse_with_version at hcontra
  rw [hspec] at hcontra
  replace hcontra : foldFields reg b true (loadSchema rows) []
      = .error (.keyError r) := hcontra
  exact foldFields_no_dependency_keyError reg b true (loadSchema rows)
    (pairwise_sortByOffset rows) hdeps (loadSchema rows) [] [] rfl
    (fun st h => absurd h (List.not_mem_nil st)) r hcontra

def rowsC9 : List SpecTuple :=
  [⟨"B", ⟨.uint, 1⟩, 2, some [.ref "A"]⟩, ⟨"A", ⟨.uint, 1⟩, 0, none⟩]

def regC9 : Registry := ⟨[(3, loadSchema rowsC9)], []⟩

theorem c9_decode_offset_order_witness :
    (findSpec regC9 3 = some (loadSchema rowsC9) ∧
      (∀ st ∈ loadSchema rowsC9, ∀ r ∈ shapeRefs st,
        ∃ st2 ∈ loadSchema rowsC9, st2.name = r ∧ st2.offset < st.offset)) ∧
    ((loadSchema rowsC9).Pairwise (fun a c => a.offset ≤ c.offset) ∧
      ∀ r, _parse_with_version regC9 [1, 2, 3, 4] 3 true
        ≠ .error (.keyError r)) :=
  ⟨⟨by decide, by decide⟩,
    c9_decode_offset_order rowsC9 regC9 [1, 2, 3, 4] 3 (by decide) (by decide)⟩

/-! ## C4: the fill/pad branch of `read_value` is dead code

`np.frombuffer(buffer, dtype, count, offset)` raises `ValueError` whenever
fewer than `count` items are available — it never returns a short array —
so the `len(data) < count` padding branch in `utils.read_value` cannot
execute and a truncated read raises even when `fill` is given, contradicting
the documented `--fill` behaviour. -/

theorem fromBuffer_truncated {b : List Nat} {dt : DType} {cnt off : Nat}
    (h : b.length - off < cnt * dt.itemsize ∨ b.length < off) :
    ∃ msg, fromBuffer b dt cnt off = .error (.valueError msg) := by
  unfold fromBuffer
  by_cases h1 : off > b.length
  · rw [if_pos h1]
    exact ⟨_, rfl⟩
  · rw [if_neg h1]
    have h2 : b.length - off < cnt * dt.itemsize := by omega
    rw [if_pos h2]
    exact ⟨_, rfl⟩

theorem read_value_array_error {b : List Nat} {dt : DType} {off : Nat}
    {sh : List Nat} {fill : Option Elem} {e : DatError}
    (hfb : fromBuffer b dt sh.prod off = .error e) :
    read_value b dt off (some sh) fill = .error e := by
  cases fill with
  | none =>
    show (match fromBuffer b dt sh.prod off with
        | Except.error e2 => Except.error e2
        | Except.ok es =>
          if es.length < sh.prod then
            Except.error (DatError.runtimeError
              "could only read fewer items than expected")
          else Except.ok (DatValue.array sh es)) = Except.error e
    rw [hfb]
  | some f =>
    show (match fromBuffer b dt sh.prod off with
        | Except.error e2 => Except.error e2
        | Except.ok es =>
          if es.length < sh.prod then
            Except.ok (DatValue.array sh
              (es ++ List.replicate (sh.prod - es.length) f))
          else Except.ok (DatValue.array sh es)) = Except.error e
    rw [hfb]

/-- C4: on a buffer missing the last bytes of a read, the default policy
fails with an error as claimed — but supplying a fill value does not give a
padded array: the read still fails with `np.frombuffer`'s `ValueError`,
because numpy raises before the padding branch can run.  The concrete
conjuncts evaluate the model at the failing input `buffer=[0]`,
`shape=(5,)`, `fill=0`. -/
theorem c4_truncation_error_despite_fill :
    (∀ (b : List Nat) (dt : DType) (off : Nat) (sh : List Nat)
      (fill : Option Elem),
      b.length - off < sh.prod * dt.itemsize ∨ b.length < off →
      ∃ msg, read_value b dt off (some sh) fill
        = .error (.valueError msg)) ∧
    read_value [0] ⟨.uint, 1⟩ 0 (some [5]) (some (.i 0))
      = .error (.valueError "buffer is smaller than requested size") ∧
    read_value [0] ⟨.uint, 1⟩ 0 (some [5]) none
      = .error (.valueError "buffer is smaller than requested size") := by
  refine ⟨?_, by decide, by decide⟩
  intro b dt off sh fill h
  obtain ⟨msg, hmsg⟩ := fromBuffer_truncated h
  exact ⟨msg, read_value_array_error hmsg⟩

theorem c4_truncation_error_despite_fill_witness :
    ((([0] : List Nat).length - 0 < [5].prod * (⟨.uint, 1⟩ : DType).itemsize
        ∨ ([0] : List Nat).length < 0) →
      ∃ msg, read_value [0] ⟨.uint, 1⟩ 0 (some [5]) (some (.i 0))
        = .error (.valueError msg)) ∧
    (([0] : List Nat).length - 0 < [5].prod * (⟨.uint, 1⟩ : DType).itemsize
      ∨ ([0] : List Nat).length < 0) :=
  ⟨c4_truncation_error_despite_fill.1 [0] ⟨.uint, 1⟩ 0 [5] (some (.i 0)),
    by decide⟩

/-! ## C6: enum name duality -/

theorem getFileVersion_merase (m : Meta) (k : String) (h : k ≠ "FileVersion") :
    getFileVersion (merase m k) = getFileVersion m := by
  unfold getFileVersion
  rw [mlookup_merase_ne m k "FileVersion" (Ne.symm h)]

theorem writeFields_merase (m : Meta) (k : String) :
    ∀ (spec : List SpecTuple) (buf : List Nat), (∀ st ∈ spec, st.name ≠ k) →
    writeFields (merase m k) spec buf = writeFields m spec buf := by
  intro spec
  induction spec with
  | nil =>
    intro buf _
    rfl
  | cons st rest ih =>
    intro buf h
    show (match mlookup (merase m k) st.name with
        | none => Except.error (DatError.keyError st.name)
        | some v =>
          match encodeValue st.dtype v with
          | Except.error e => Except.error e
          | Except.ok bs => writeFields (merase m k) rest (writeAt buf st.offset bs))
      = (match mlookup m st.name with
        | none => Except.error (DatError.keyError st.name)
        | some v =>
          match encodeValue st.dtype v with
          | Except.error e => Except.error e
          | Except.ok bs => writeFields m rest (writeAt buf st.offset bs))
    rw [mlookup_merase_ne m k st.name (h st (List.mem_cons_self st rest))]
    cases hml : mlookup m st.name with
    | none => rfl
    | some v =>
      show (match encodeValue st.dtype v with
          | Except.error e => Except.error e
          | Except.ok bs => writeFields (merase m k) rest (writeAt buf st.offset bs))
        = (match encodeValue st.dtype v with
          | Except.error e => Except.error e
          | Except.ok bs => writeFields m rest (writeAt buf st.offset bs))
      cases henc : encodeValue st.dtype v with
      | error e => rfl
      | ok bs =>
        show writeFields (merase m k) rest (writeAt buf st.offset bs)
          = writeFields m rest (writeAt buf st.offset bs)
        exact ih (writeAt buf st.offset bs)
          (fun st2 h2 => h st2 (List.mem_cons_of_mem st h2))

/-- C6: a field with an enumeration table decodes (with enum naming on) to
both its raw integer and a derived `name ++ ENUM_NAME_SUFFIX` entry holding
the table's name for that integer; and the derived entry never affects
re-encoding — `write_header` on the mapping with the derived entry removed
produces exactly the same bytes. -/
theorem c6_enum_duality (reg : Registry) (b : List Nat) (ver : Nat)
    (spec : List SpecTuple) (m : Meta) (st : SpecTuple) (em : EnumMapping)
    (hspec : findSpec reg ver = some spec)
    (hwf : specWF spec)
    (hp : _parse_with_version reg b ver true = .ok m)
    (hst : st ∈ spec)
    (hem : findEnum reg st.name = some em)
    (hfvne : st.name ++ ENUM_NAME_SUFFIX ≠ "FileVersion")
    (hgv : getFileVersion m = .ok ver) :
    (∃ v nm, mlookup m st.name = some (.scalar (.i v)) ∧
      get_name em v = .ok nm ∧
      mlookup m (st.name ++ ENUM_NAME_SUFFIX) = some (.strVal nm)) ∧
    write_header reg (merase m (st.name ++ ENUM_NAME_SUFFIX))
      = write_header reg m := by
  obtain ⟨spec', hspec', hfold⟩ := parse_with_version_inv hp
  have hspeceq : spec' = spec := by
    rw [hspec] at hspec'
    cases hspec'
    rfl
  rw [hspeceq] at hfold
  have hkeysnil : KeysFrom [] ([] : Meta) := by
    intro k hk
    exact absurd rfl hk
  obtain ⟨hkeys, hfields, henums⟩ :=
    foldFields_props reg b true spec hwf spec [] [] m rfl hkeysnil
      (fun st2 h2 => absurd h2 (List.not_mem_nil st2))
      (fun _ st2 h2 => absurd h2 (List.not_mem_nil st2)) hfold
  constructor
  · exact henums rfl st hst em hem
  · have hstep : ∀ (d : Meta), write_header reg d = (match getFileVersion d with
        | Except.error e => Except.error e
        | Except.ok v =>
          match findSpec reg v with
          | none => Except.error (DatError.missingVersion v)
          | some sp => writeFields d sp (List.replicate HEADER_LENGTH 0)) :=
      fun d => rfl
    rw [hstep, hstep, getFileVersion_merase m _ hfvne, hgv]
    show (match findSpec reg ver with
        | none => Except.error (DatError.missingVersion ver)
        | some sp => writeFields (merase m (st.name ++ ENUM_NAME_SUFFIX)) sp
            (List.replicate HEADER_LENGTH 0))
      = (match findSpec reg ver with
        | none => Except.error (DatError.missingVersion ver)
        | some sp => writeFields m sp (List.replicate HEADER_LENGTH 0))
    rw [hspec]
    show writeFields (merase m (st.name ++ ENUM_NAME_SUFFIX)) spec
        (List.replicate HEADER_LENGTH 0)
      = writeFields m spec (List.replicate HEADER_LENGTH 0)
    apply writeFields_merase
    intro st2 h2
    exact hwf.2.1 st2 h2 st hst

def regC6 : Registry :=
  ⟨[(0, [⟨"FileVersion", ⟨.uint, 1⟩, 0, none⟩, ⟨"Det", ⟨.uint, 1⟩, 1, none⟩])],
    [("Det", ⟨[(1, "detA"), (2, "detB")]⟩)]⟩

theorem c6_enum_duality_witness :
    (_parse_with_version regC6 [0, 1] 0 true
        = .ok [("FileVersion", DatValue.scalar (.i 0)),
               ("Det", DatValue.scalar (.i 1)),
               ("Det" ++ ENUM_NAME_SUFFIX, DatValue.strVal "detA")]) ∧
    (∃ v nm, mlookup [("FileVersion", DatValue.scalar (.i 0)),
               ("Det", DatValue.scalar (.i 1)),
               ("Det" ++ ENUM_NAME_SUFFIX, DatValue.strVal "detA")] "Det"
        = some (.scalar (.i v)) ∧
      get_name ⟨[(1, "detA"), (2, "detB")]⟩ v = .ok nm ∧
      mlookup [("FileVersion", DatValue.scalar (.i 0)),
               ("Det", DatValue.scalar (.i 1)),
               ("Det" ++ ENUM_NAME_SUFFIX, DatValue.strVal "detA")]
          ("Det" ++ ENUM_NAME_SUFFIX) = some (.strVal nm)) ∧
    write_header regC6 (merase [("FileVersion", DatValue.scalar (.i 0)),
               ("Det", DatValue.scalar (.i 1)),
               ("Det" ++ ENUM_NAME_SUFFIX, DatValue.strVal "detA")]
          ("Det" ++ ENUM_NAME_SUFFIX))
      = write_header regC6 [("FileVersion", DatValue.scalar (.i 0)),
               ("Det", DatValue.scalar (.i 1)),
               ("Det" ++ ENUM_NAME_SUFFIX, DatValue.strVal "detA")] := by
  refine ⟨by decide, ?_⟩
  exact c6_enum_duality regC6 [0, 1] 0
    [⟨"FileVersion", ⟨.uint, 1⟩, 0, none⟩, ⟨"Det", ⟨.uint, 1⟩, 1, none⟩]
    [("FileVersion", DatValue.scalar (.i 0)),
     ("Det", DatValue.scalar (.i 1)),
     ("Det" ++ ENUM_NAME_SUFFIX, DatValue.strVal "detA")]
    ⟨"Det", ⟨.uint, 1⟩, 1, none⟩ ⟨[(1, "detA"), (2, "detB")]⟩
    (by decide) (by decide) (by decide) (by decide) (by decide) (by decide)
    (by decide)

/-! ## C2: payload split / join

`ParsedData.from_bytes` and `group_to_bytes` are translated from
`utils.py`.  The glue between them (`split_channels`, the hdf5 writer, the
channel dataset-name constant from `constants.py`) is not under `src/` and is
modelled from the spec: channel datasets are named by a fixed prefix plus
the 1-based slot index, and the channels flagged present are extracted in
slot order by 0-based sequential leading-axis index. -/

/-- Modelled from the spec: dataset-name prefix for channel slots
(`constants.py` is not under `src/`; `utils.get_channel_names` builds the
names as prefix + 1-based slot index). -/
def DATASET_STEM : String := "AI"

/-- Python truthiness of a decoded value (`if meta[ds]:`): numeric scalars
are truthy iff nonzero, byte strings iff nonempty; a numpy array of more
than one element raises `ValueError`. -/
def truthy : DatValue → Except DatError Bool
  | .scalar (.i v) => .ok (decide (v ≠ 0))
  | .scalar (.s bs) => .ok (decide (bs ≠ []))
  | .strVal s => .ok (decide (s ≠ ""))
  | .array _ [.i v] => .ok (decide (v ≠ 0))
  | .array _ [.s bs] => .ok (decide (bs ≠ []))
  | .array _ _ => .error (.valueError
      "The truth value of an array with more than one element is ambiguous")

/-- The loop body of `utils.get_channel_names` over the remaining slot
indices: `meta[prefix + str(i)]` (`KeyError` when absent), keeping the
names whose flag value is truthy. -/
def channelNamesFrom (meta : Meta) : List Nat → Except DatError (List String)
  | [] => .ok []
  | i :: rest =>
    match mlookup meta (DATASET_STEM ++ toString i) with
    | none => .error (.keyError (DATASET_STEM ++ toString i))
    | some v =>
      match truthy v with
      | .error e => .error e
      | .ok tv =>
        match channelNamesFrom meta rest with
        | .error e => .error e
        | .ok names =>
          .ok (if tv then (DATASET_STEM ++ toString i) :: names else names)

/-- Model of `utils.get_channel_names`: slots 1 to 4. -/
def get_channel_names (meta : Meta) : Except DatError (List String) :=
  channelNamesFrom meta [1, 2, 3, 4]

/-- The payload element dtype chosen by `ParsedData.from_bytes`:
`"u1" if meta["EightBit"] else ">i2"`. -/
def payloadDtype (eight : Bool) : DType :=
  if eight then ⟨.uint, 1⟩ else ⟨.sint, 2⟩

/-- `val.nbytes` of a numpy value of dtype `dt`. -/
def datNBytes (dt : DType) : DatValue → Nat
  | .scalar _ => dt.itemsize
  | .array _ es => es.length * dt.itemsize
  | .strVal _ => 0

/-- Model of `utils.ParsedData`: the decoded mapping, the stacked
channel-payload array (`dtype` models the numpy array's own dtype
attribute), the raw header bytes and the raw footer bytes. -/
structure ParsedData where
  meta : Meta
  data : DatValue
  dtype : DType
  header : List Nat
  footer : List Nat
  deriving DecidableEq, Repr

/-- Model of `utils.ParsedData.from_bytes`: parse the header from the full
file bytes, read the payload at `HEADER_LENGTH` with shape
`(ChanNum, XResolution, YResolution)` and dtype `u1`/`>i2` by the
`EightBit` flag, and slice the footer after `HEADER_LENGTH + data.nbytes`. -/
def ParsedData.from_bytes (reg : Registry) (b : List Nat) (fill : Option Elem) :
    Except DatError ParsedData :=
  match parse_bytes reg b true with
  | .error e => .error e
  | .ok meta =>
    match lookupDim meta "ChanNum" with
    | .error e => .error e
    | .ok cn =>
      match lookupDim meta "XResolution" with
      | .error e => .error e
      | .ok xr =>
        match lookupDim meta "YResolution" with
        | .error e => .error e
        | .ok yr =>
          match mlookup meta "EightBit" with
          | none => .error (.keyError "EightBit")
          | some ebv =>
            match truthy ebv with
            | .error e => .error e
            | .ok eight =>
              match read_value b (payloadDtype eight) HEADER_LENGTH
                  (some [cn, xr, yr]) fill with
              | .error e => .error e
              | .ok data =>
                .ok ⟨meta, data, payloadDtype eight, b.take HEADER_LENGTH,
                  b.drop (HEADER_LENGTH + datNBytes (payloadDtype eight) data)⟩

/-- Leading-axis slice `data[c]` of a `(C, …)` array stored as its
column-major element listing: every `C`-th element starting at `c`. -/
def channelOf (C c : Nat) (els : List Elem) : List Elem :=
  (takeChunks C (els.length / C) els).map (fun ch => ch.getD c (.i 0))

/-- The container group as `group_to_bytes` consumes it: attribute
mapping, stored raw header/footer byte blobs (`[]` models both an absent
dataset and an empty one, exactly as the falsy check in the source), and
the present channel datasets in slot order, each as the column-major
element listing of its `(X, Y)` array of common shape `chanShape` and
dtype `chanDtype`. -/
structure Group where
  attrs : Meta
  headerDS : List Nat
  footerDS : List Nat
  channels : List (List Elem)
  chanShape : List Nat
  chanDtype : DType
  deriving DecidableEq, Repr

/-- `np.stack(channels, axis=0)` read off in column-major order: the
leading (channel) axis varies fastest, so position `j` of every channel is
emitted before position `j + 1` of any. -/
def interleaveStack (chans : List (List Elem)) (n : Nat) : List Elem :=
  ((List.range n).map (fun j => chans.map (fun ch => ch.getD j (.i 0)))).flatten

/-- `header + stacked-payload-bytes + footer` of `group_to_bytes`. -/
def joinBytes (header : List Nat) (g : Group) : List Nat :=
  header ++ ((interleaveStack g.channels g.chanShape.prod).map
    (encodeElem g.chanDtype)).flatten ++ g.footerDS

/-- Model of `utils.group_to_bytes` (the `json_metadata=False` path; the
checksum function `hash` is a parameter, since `hashlib.md5` is an
external library): read the expected byte count from the
`_dat_nbytes` attribute, re-encode the header from the attributes, fail if
a nonempty stored header blob hashes differently, stack the channel
datasets (`np.stack` fails on an empty list) as big-endian column-major
bytes, and truncate the result to the expected length when longer. -/
def group_to_bytes (reg : Registry) (hash : List Nat → List Nat) (g : Group)
    (check_header : Bool) : Except DatError (List Nat) :=
  match mlookup g.attrs DAT_NBYTES_FIELD with
  | none => .error (.keyError DAT_NBYTES_FIELD)
  | some (.scalar (.i expectedLen)) =>
    match write_header reg g.attrs with
    | .error e => .error e
    | .ok header =>
      if check_header && !g.headerDS.isEmpty
          && hash g.headerDS != hash header then
        .error (.runtimeError
          "Stored header is different to calculated header")
      else if g.channels.isEmpty then
        .error (.valueError "need at least one array to stack")
      else
        .ok (if expectedLen.toNat < (joinBytes header g).length then
          (joinBytes header g).take expectedLen.toNat
        else joinBytes header g)
  | some _ => .error (.typeError DAT_NBYTES_FIELD)

/-- Modelled from the spec (the `split_channels` glue is not under
`src/`): split a `.dat` file and store it as a container group — decoded
attributes, raw header and footer blobs, and one dataset per present
channel, extracted from the stacked payload array by sequential leading-
axis index. -/
def dat_to_group (reg : Registry) (b : List Nat) : Except DatError Group :=
  match ParsedData.from_bytes reg b none with
  | .error e => .error e
  | .ok pd =>
    match get_channel_names pd.meta with
    | .error e => .error e
    | .ok names =>
      match pd.data with
      | .array (c :: sh) els =>
        .ok ⟨pd.meta, pd.header, pd.footer,
          (List.range names.length).map (fun idx => channelOf c idx els),
          sh, pd.dtype⟩
      | _ => .error (.typeError "expected a stacked channel array")

/-- Executable per-field extent bound: the field's realised byte range
fits inside the fixed-length header. -/
def extentOkB (m : Meta) (st : SpecTuple) : Bool :=
  match fieldNBytes m st with
  | some nb => decide (st.offset + nb ≤ HEADER_LENGTH)
  | none => true

theorem getD_map {α β : Type} (f : α → β) (l : List α) (j : Nat) (d : α)
    (hj : j < l.length) :
    (l.map f).getD j (f d) = f (l.getD j d) := by
  rw [List.getD_eq_getElem?_getD, List.getD_eq_getElem?_getD,
    List.getElem?_map, List.getElem?_eq_getElem hj]
  rfl

theorem range_map_getD {α : Type} (l : List α) (d : α) :
    (List.range l.length).map (fun c => l.getD c d) = l := by
  apply List.ext_getElem?
  intro i
  by_cases hi : i < l.length
  · rw [List.getElem?_map, List.getElem?_range hi, List.getElem?_eq_getElem hi]
    show some (l.getD i d) = some l[i]
    rw [List.getD_eq_getElem?_getD, List.getElem?_eq_getElem hi]
    rfl
  · have h1 : (List.range l.length)[i]? = none :=
      List.getElem?_eq_none (by rw [List.length_range]; omega)
    have h2 : l[i]? = none := List.getElem?_eq_none (by omega)
    rw [List.getElem?_map, h1, h2]
    rfl

theorem range_map_getD_of_length {α : Type} (l : List α) (d : α) (k : Nat)
    (hk : l.length = k) :
    (List.range k).map (fun c => l.getD c d) = l := by
  subst hk
  exact range_map_getD l d

theorem channelOf_getD (C n c j : Nat) (els : List Elem)
    (hlen : els.length = C * n) (hC : 0 < C) (hj : j < n) :
    (channelOf C c els).getD j (.i 0)
      = ((takeChunks C n els).getD j []).getD c (.i 0) := by
  unfold channelOf
  have hdiv : els.length / C = n := by
    rw [hlen]
    exact Nat.mul_div_cancel_left n hC
  rw [hdiv]
  have hj2 : j < (takeChunks C n els).length := by
    rw [length_takeChunks]
    exact hj
  exact getD_map (fun ch => ch.getD c (Elem.i 0)) (takeChunks C n els) j [] hj2

theorem length_channelOf (C c : Nat) (els : List Elem) :
    (channelOf C c els).length = els.length / C := by
  unfold channelOf
  rw [List.length_map, length_takeChunks]

/-- Splitting a column-major `(C, …)` element listing into its `C`
leading-axis slices and re-stacking them column-major is the identity. -/
theorem interleave_channelOf (C n : Nat) (els : List Elem) (hC : 0 < C)
    (hlen : els.length = C * n) :
    interleaveStack ((List.range C).map (fun c => channelOf C c els)) n
      = els := by
  have hn2 : n * C ≤ els.length := by
    rw [hlen, Nat.mul_comm]
  unfold interleaveStack
  have h2 : ∀ j ∈ List.range n,
      ((List.range C).map (fun c => channelOf C c els)).map
        (fun ch => ch.getD j (Elem.i 0))
      = (takeChunks C n els).getD j [] := by
    intro j hj
    have hjn : j < n := List.mem_range.mp hj
    rw [List.map_map]
    have h3 : ∀ c ∈ List.range C,
        ((fun ch => ch.getD j (Elem.i 0)) ∘ (fun c => channelOf C c els)) c
        = ((takeChunks C n els).getD j []).getD c (Elem.i 0) := by
      intro c _
      exact channelOf_getD C n c j els hlen hC hjn
    rw [List.map_congr_left h3]
    have hj2 : j < (takeChunks C n els).length := by
      rw [length_takeChunks]
      exact hjn
    have hchunk_mem : (takeChunks C n els).getD j [] ∈ takeChunks C n els := by
      rw [List.getD_eq_getElem?_getD, List.getElem?_eq_getElem hj2]
      exact List.getElem_mem hj2
    have hchunk_len : ((takeChunks C n els).getD j []).length = C :=
      (takeChunks_mem_length C n els hn2 _ hchunk_mem).1
    exact range_map_getD_of_length _ (Elem.i 0) C hchunk_len
  rw [List.map_congr_left h2]
  have hlenTC : (takeChunks C n els).length = n := length_takeChunks C n els
  rw [range_map_getD_of_length (takeChunks C n els) [] n hlenTC,
    takeChunks_flatten C n els hn2,
    show n * C = els.length from by rw [hlen, Nat.mul_comm], List.take_length]

theorem fromBuffer_dropCtx (pre l : List Nat) (dt : DType) (cnt k : Nat)
    (hk : pre.length = k) :
    fromBuffer (pre ++ l) dt cnt k = fromBuffer l dt cnt 0 := by
  unfold fromBuffer
  have hd : (pre ++ l).drop k = l := by
    rw [← hk]
    exact List.drop_left pre l
  have hlen : (pre ++ l).length = k + l.length := by
    rw [List.length_append, hk]
  rw [hd, hlen, List.drop_zero]
  rw [if_neg (show ¬ k > k + l.length by omega),
    if_neg (show ¬ (0 : Nat) > l.length by omega)]
  have hc : k + l.length - k = l.length - 0 := by omega
  rw [hc]

theorem fromBuffer_u1_head (x : Nat) (l : List Nat) :
    fromBuffer (x :: l) ⟨.uint, 1⟩ 1 0 = .ok [.i x] := by
  unfold fromBuffer
  rw [if_neg (by omega),
    if_neg (show ¬ ((x :: l).length - 0 < 1 * (1 : Nat)) by
      rw [List.length_cons]; omega)]
  rw [List.drop_zero]
  show Except.ok [decodeElem ⟨.uint, 1⟩ ((x :: l).take 1)]
      = Except.ok [Elem.i x]
  rw [show (x :: l).take 1 = [x] from rfl]
  show Except.ok [Elem.i (beBytesToNat [x])] = Except.ok [Elem.i x]
  rw [show beBytesToNat [x] = x from by simp [beBytesToNat]]

/-- The header re-encode of a mapping parsed from a full (longer than
`HEADER_LENGTH`) well-formed file buffer reproduces the first
`HEADER_LENGTH` bytes exactly. -/
theorem write_header_take (reg : Registry) (b : List Nat) (m : Meta)
    (ver : Nat) (spec : List SpecTuple)
    (hlen : HEADER_LENGTH ≤ b.length)
    (hb : ∀ x ∈ b, x < 256)
    (hparse : parse_bytes reg b true = .ok m)
    (hboot : bootVersion reg b true = .ok ver)
    (hfv : getFileVersion m = .ok ver)
    (hspec : findSpec reg ver = some spec)
    (hwf : specWF spec)
    (hext : ∀ st ∈ spec, extentOkB m st = true)
    (hspacer : ∀ i, i < HEADER_LENGTH → ¬ Covered m spec i → b[i]? = some 0) :
    write_header reg m = .ok (b.take HEADER_LENGTH) := by
  obtain ⟨d, ver0, out, hp0, hfv0, hpv, hm⟩ := parse_bytes_inv hparse
  have hver0 : ver0 = ver := by
    unfold bootVersion at hboot
    rw [hp0] at hboot
    replace hboot : getFileVersion d = .ok ver := hboot
    rw [hfv0] at hboot
    cases hboot
    rfl
  rw [hver0] at hpv
  obtain ⟨spec', hspec', hfold⟩ := parse_with_version_inv hpv
  have hspeceq : spec' = spec := by
    rw [hspec] at hspec'
    cases hspec'
    rfl
  rw [hspeceq] at hfold
  clear hspec' hspeceq
  have hkeysnil : KeysFrom [] ([] : Meta) := by
    intro k hk
    exact absurd rfl hk
  obtain ⟨hkeysout, hfieldout, _⟩ :=
    foldFields_props reg b true spec hwf spec [] [] out rfl hkeysnil
      (fun st h => absurd h (List.not_mem_nil st))
      (fun _ st h => absurd h (List.not_mem_nil st)) hfold
  have hdatfresh : mlookup out DAT_NBYTES_FIELD = none := by
    by_contra hne
    obtain ⟨st, hst, hor⟩ := hkeysout DAT_NBYTES_FIELD hne
    rcases hor with heq | heq
    · exact (hwf.2.2.1 st hst).1 heq.symm
    · exact (hwf.2.2.1 st hst).2 heq.symm
  have hpres : MPreserve out m := by
    rw [hm]
    exact mpreserve_minsert_fresh out _ _ hdatfresh
  have hready : ∀ st ∈ spec, WriteReady b m st := by
    intro st hst
    refine fieldOk_writeReady b m st hb (hwf.2.2.2 st hst)
      (fieldOkAt_mono hpres (hfieldout st hst)) ?_
    intro nb hnb
    have hok := hext st hst
    unfold extentOkB at hok
    rw [hnb] at hok
    exact of_decide_eq_true hok
  obtain ⟨outb, hwh, hlenout, hcov, huncov⟩ :=
    write_header_core reg b m ver spec hfv hspec hready
  have houtb : outb = b.take HEADER_LENGTH := by
    apply List.ext_getElem?
    intro i
    by_cases hi : i < HEADER_LENGTH
    · rw [List.getElem?_take, if_pos hi]
      by_cases hc : Covered m spec i
      · exact hcov i hc
      · rw [huncov i hc, hspacer i hi hc]
        simp [List.getElem?_replicate, hi]
    · have h1 : outb[i]? = none := List.getElem?_eq_none (by omega)
      have h2 : (b.take HEADER_LENGTH)[i]? = none :=
        List.getElem?_eq_none (by rw [List.length_take]; omega)
      rw [h1, h2]
  rw [hwh, houtb]

theorem prod_three (cn xr yr : Nat) : [cn, xr, yr].prod = cn * xr * yr := by
  simp [List.prod_cons]
  ring

/-- Evaluation of `ParsedData.from_bytes` on a parseable, non-truncated
buffer: the payload is the decoded element listing of the
`ChanNum * XResolution * YResolution` items following the header, and the
footer is everything after them. -/
theorem from_bytes_ok (reg : Registry) (b : List Nat) (m : Meta)
    (cn xr yr : Nat) (ebv : DatValue) (eight : Bool)
    (hparse : parse_bytes reg b true = .ok m)
    (hcn : lookupDim m "ChanNum" = .ok cn)
    (hxr : lookupDim m "XResolution" = .ok xr)
    (hyr : lookupDim m "YResolution" = .ok yr)
    (heb : mlookup m "EightBit" = some ebv)
    (htr : truthy ebv = .ok eight)
    (hblen : HEADER_LENGTH + cn * xr * yr * (payloadDtype eight).itemsize
      ≤ b.length) :
    ParsedData.from_bytes reg b none = .ok ⟨m,
      .array [cn, xr, yr] ((takeChunks (payloadDtype eight).itemsize
        (cn * xr * yr) (b.drop HEADER_LENGTH)).map
          (decodeElem (payloadDtype eight))),
      payloadDtype eight, b.take HEADER_LENGTH,
      b.drop (HEADER_LENGTH + cn * xr * yr * (payloadDtype eight).itemsize)⟩
    := by
  have hfb : fromBuffer b (payloadDtype eight) (cn * xr * yr) HEADER_LENGTH
      = .ok ((takeChunks (payloadDtype eight).itemsize (cn * xr * yr)
        (b.drop HEADER_LENGTH)).map (decodeElem (payloadDtype eight))) := by
    unfold fromBuffer
    rw [if_neg (show ¬ HEADER_LENGTH > b.length by omega),
      if_neg (show ¬ b.length - HEADER_LENGTH
        < cn * xr * yr * (payloadDtype eight).itemsize by omega)]
  have hfb2 : fromBuffer b (payloadDtype eight) ([cn, xr, yr].prod)
      HEADER_LENGTH
      = .ok ((takeChunks (payloadDtype eight).itemsize (cn * xr * yr)
        (b.drop HEADER_LENGTH)).map (decodeElem (payloadDtype eight))) := by
    rw [prod_three]
    exact hfb
  have hlen2 : ((takeChunks (payloadDtype eight).itemsize (cn * xr * yr)
      (b.drop HEADER_LENGTH)).map
        (decodeElem (payloadDtype eight))).length = [cn, xr, yr].prod := by
    rw [List.length_map, length_takeChunks, prod_three]
  have hrv := read_value_array_eval hfb2 hlen2
  unfold ParsedData.from_bytes
  simp only [hparse, hcn, hxr, hyr, heb, htr, hrv, datNBytes,
    List.length_map, length_takeChunks]

/-- Core split/join round-trip: splitting a well-formed, non-truncated
`.dat` buffer and re-joining it reproduces the input exactly, with the
byte counts of the parts summing to the total. -/
theorem full_roundtrip_core (reg : Registry) (b : List Nat) (m : Meta)
    (ver cn xr yr : Nat) (spec : List SpecTuple) (ebv : DatValue)
    (eight : Bool) (names : List String) (hash : List Nat → List Nat)
    (hb : ∀ x ∈ b, x < 256)
    (hparse : parse_bytes reg b true = .ok m)
    (hboot : bootVersion reg b true = .ok ver)
    (hfv : getFileVersion m = .ok ver)
    (hspec : findSpec reg ver = some spec)
    (hwf : specWF spec)
    (hext : ∀ st ∈ spec, extentOkB m st = true)
    (hspacer : ∀ i, i < HEADER_LENGTH → ¬ Covered m spec i → b[i]? = some 0)
    (hcn : lookupDim m "ChanNum" = .ok cn)
    (hxr : lookupDim m "XResolution" = .ok xr)
    (hyr : lookupDim m "YResolution" = .ok yr)
    (heb : mlookup m "EightBit" = some ebv)
    (htr : truthy ebv = .ok eight)
    (hnames : get_channel_names m = .ok names)
    (hcnn : names.length = cn)
    (hcn0 : 0 < cn)
    (hblen : HEADER_LENGTH + cn * xr * yr * (payloadDtype eight).itemsize
      ≤ b.length) :
    ∃ g, dat_to_group reg b = .ok g ∧
      group_to_bytes reg hash g true = .ok b ∧
      g.headerDS.length
        + (g.channels.map (fun ch => ch.length * g.chanDtype.itemsize)).sum
        + g.footerDS.length = b.length := by
  have hisz : 0 < (payloadDtype eight).itemsize := by
    cases eight <;> decide
  have hpd := from_bytes_ok reg b m cn xr yr ebv eight hparse hcn hxr hyr
    heb htr hblen
  have hg : dat_to_group reg b = .ok ⟨m, b.take HEADER_LENGTH,
      b.drop (HEADER_LENGTH + cn * xr * yr * (payloadDtype eight).itemsize),
      (List.range names.length).map (fun idx => channelOf cn idx
        ((takeChunks (payloadDtype eight).itemsize (cn * xr * yr)
          (b.drop HEADER_LENGTH)).map (decodeElem (payloadDtype eight)))),
      [xr, yr], payloadDtype eight⟩ := by
    unfold dat_to_group
    simp only [hpd, hnames]
  refine ⟨_, hg, ?_, ?_⟩
  · obtain ⟨d, ver0, out, hp0, hfv0, hpv, hm⟩ := parse_bytes_inv hparse
    have hnbf : mlookup m DAT_NBYTES_FIELD
        = some (.scalar (.i (b.length : Int))) := by
      rw [hm]
      exact mlookup_minsert_self out DAT_NBYTES_FIELD _
    have hwh : write_header reg m = .ok (b.take HEADER_LENGTH) :=
      write_header_take reg b m ver spec (by omega) hb hparse hboot hfv
        hspec hwf hext hspacer
    have hels : ((takeChunks (payloadDtype eight).itemsize (cn * xr * yr)
        (b.drop HEADER_LENGTH)).map
          (decodeElem (payloadDtype eight))).length = cn * xr * yr := by
      rw [List.length_map, length_takeChunks]
    have hchEmpty : (((List.range names.length).map (fun idx => channelOf cn
        idx ((takeChunks (payloadDtype eight).itemsize (cn * xr * yr)
          (b.drop HEADER_LENGTH)).map
            (decodeElem (payloadDtype eight))))).isEmpty) = false := by
      have hlen2 : ((List.range names.length).map (fun idx => channelOf cn
          idx ((takeChunks (payloadDtype eight).itemsize (cn * xr * yr)
            (b.drop HEADER_LENGTH)).map
              (decodeElem (payloadDtype eight))))).length = cn := by
        rw [List.length_map, List.length_range, hcnn]
      cases hl : (List.range names.length).map (fun idx => channelOf cn
          idx ((takeChunks (payloadDtype eight).itemsize (cn * xr * yr)
            (b.drop HEADER_LENGTH)).map
              (decodeElem (payloadDtype eight)))) with
      | nil =>
        rw [hl] at hlen2
        exact absurd hlen2.symm (by simp; omega)
      | cons a as => rfl
    have hinter : interleaveStack ((List.range names.length).map
        (fun idx => channelOf cn idx ((takeChunks
          (payloadDtype eight).itemsize (cn * xr * yr)
          (b.drop HEADER_LENGTH)).map (decodeElem (payloadDtype eight)))))
        ([xr, yr].prod)
        = (takeChunks (payloadDtype eight).itemsize (cn * xr * yr)
          (b.drop HEADER_LENGTH)).map (decodeElem (payloadDtype eight)) := by
      have hprod2 : [xr, yr].prod = xr * yr := by
        simp [List.prod_cons]
      rw [hprod2, hcnn]
      exact interleave_channelOf cn (xr * yr) _ hcn0
        (by rw [hels, Nat.mul_assoc])
    have hpay : (((takeChunks (payloadDtype eight).itemsize (cn * xr * yr)
        (b.drop HEADER_LENGTH)).map (decodeElem (payloadDtype eight))).map
          (encodeElem (payloadDtype eight))).flatten
        = (b.drop HEADER_LENGTH).take
          (cn * xr * yr * (payloadDtype eight).itemsize) :=
      encode_decode_chunks (payloadDtype eight) (cn * xr * yr)
        (b.drop HEADER_LENGTH) hisz
        (by rw [List.length_drop]; omega)
        (fun x hx => hb x (List.mem_of_mem_drop hx))
    have hjoin : joinBytes (b.take HEADER_LENGTH) ⟨m, b.take HEADER_LENGTH,
        b.drop (HEADER_LENGTH
          + cn * xr * yr * (payloadDtype eight).itemsize),
        (List.range names.length).map (fun idx => channelOf cn idx
          ((takeChunks (payloadDtype eight).itemsize (cn * xr * yr)
            (b.drop HEADER_LENGTH)).map
              (decodeElem (payloadDtype eight)))),
        [xr, yr], payloadDtype eight⟩ = b := by
      unfold joinBytes
      show b.take HEADER_LENGTH ++ ((interleaveStack _ ([xr, yr].prod)).map
        (encodeElem (payloadDtype eight))).flatten ++ _ = b
      rw [hinter, hpay]
      rw [List.append_assoc]
      rw [show (b.drop HEADER_LENGTH).take
          (cn * xr * yr * (payloadDtype eight).itemsize)
          ++ b.drop (HEADER_LENGTH
            + cn * xr * yr * (payloadDtype eight).itemsize)
          = b.drop HEADER_LENGTH from ?_]
      · exact List.take_append_drop HEADER_LENGTH b
      · rw [← List.drop_drop]
        exact List.take_append_drop _ _
    unfold group_to_bytes
    simp only [hnbf, hwh, hjoin, hchEmpty, bne_self_eq_false,
      Bool.and_false, Bool.false_eq_true, if_false, Int.toNat_natCast]
    rw [if_neg (by omega)]
  · show (b.take HEADER_LENGTH).length + _ + (b.drop (HEADER_LENGTH
      + cn * xr * yr * (payloadDtype eight).itemsize)).length = b.length
    have h1 : (b.take HEADER_LENGTH).length = HEADER_LENGTH := by
      rw [List.length_take]
      omega
    have h3 : (b.drop (HEADER_LENGTH
        + cn * xr * yr * (payloadDtype eight).itemsize)).length
        = b.length - (HEADER_LENGTH
          + cn * xr * yr * (payloadDtype eight).itemsize) :=
      List.length_drop _ _
    have h2 : (((List.range names.length).map (fun idx => channelOf cn idx
        ((takeChunks (payloadDtype eight).itemsize (cn * xr * yr)
          (b.drop HEADER_LENGTH)).map
            (decodeElem (payloadDtype eight))))).map
        (fun ch => ch.length * (payloadDtype eight).itemsize)).sum
        = cn * xr * yr * (payloadDtype eight).itemsize := by
      rw [List.map_map]
      have hconst : ∀ x ∈ List.range names.length,
          ((fun ch => ch.length * (payloadDtype eight).itemsize)
            ∘ (fun idx => channelOf cn idx ((takeChunks
              (payloadDtype eight).itemsize (cn * xr * yr)
              (b.drop HEADER_LENGTH)).map
                (decodeElem (payloadDtype eight))))) x
          = xr * yr * (payloadDtype eight).itemsize := by
        intro x _
        show (channelOf cn x _).length * (payloadDtype eight).itemsize = _
        rw [length_channelOf, List.length_map, length_takeChunks]
        congr 1
        rw [Nat.mul_assoc, Nat.mul_div_cancel_left _ hcn0]
      rw [List.map_congr_left hconst, List.map_const', List.sum_replicate,
        smul_eq_mul, List.length_range, hcnn]
      ring
    rw [h1, h2, h3]
    omega

/-! ## A concrete version-7 file

Schema tables are spec-modelled (the TSVs are not under `src/`): a
bootstrap schema holding only `FileVersion`, and a full version-7 schema
with the channel-count, resolution, bit-depth and channel-flag fields, all
1-byte unsigned scalars at offsets 0–8.  The file has `FileVersion = 7`,
`ChanNum = 2`, `EightBit = 1`, channels 1 and 2 present,
`XResolution = 4`, `YResolution = 3`, payload bytes `0..23` and the
5-byte footer `b"FOOTR"`. -/

def specBoot7 : List SpecTuple := [⟨"FileVersion", ⟨.uint, 1⟩, 0, none⟩]

def specFull7 : List SpecTuple :=
  [⟨"FileVersion", ⟨.uint, 1⟩, 0, none⟩,
   ⟨"ChanNum", ⟨.uint, 1⟩, 1, none⟩,
   ⟨"EightBit", ⟨.uint, 1⟩, 2, none⟩,
   ⟨"AI1", ⟨.uint, 1⟩, 3, none⟩,
   ⟨"AI2", ⟨.uint, 1⟩, 4, none⟩,
   ⟨"AI3", ⟨.uint, 1⟩, 5, none⟩,
   ⟨"AI4", ⟨.uint, 1⟩, 6, none⟩,
   ⟨"XResolution", ⟨.uint, 1⟩, 7, none⟩,
   ⟨"YResolution", ⟨.uint, 1⟩, 8, none⟩]

def reg7 : Registry := ⟨[(0, specBoot7), (7, specFull7)], []⟩

def head7 : List Nat := [7, 2, 1, 1, 1, 0, 0, 4, 3]

def payload7 : List Nat :=
  [0, 1, 2, 3, 4, 5, 6, 7, 8, 9, 10, 11,
   12, 13, 14, 15, 16, 17, 18, 19, 20, 21, 22, 23]

def footer7 : List Nat := [70, 79, 79, 84, 82]

def tail7 : List Nat := List.replicate 1015 0 ++ (payload7 ++ footer7)

def dat7 : List Nat := head7 ++ tail7

/-- The 9 schema fields decoded from `dat7`. -/
def meta9 : Meta :=
  [("FileVersion", .scalar (.i 7)), ("ChanNum", .scalar (.i 2)),
   ("EightBit", .scalar (.i 1)), ("AI1", .scalar (.i 1)),
   ("AI2", .scalar (.i 1)), ("AI3", .scalar (.i 0)),
   ("AI4", .scalar (.i 0)), ("XResolution", .scalar (.i 4)),
   ("YResolution", .scalar (.i 3))]

/-- `parse_bytes reg7 dat7` output: the 9 fields plus the byte count. -/
def meta7 : Meta := meta9 ++ [(DAT_NBYTES_FIELD, .scalar (.i 1053))]

theorem sc7_len : dat7.length = 1053 := by
  show (head7 ++ (List.replicate 1015 0 ++ (payload7 ++ footer7))).length
    = 1053
  rw [List.length_append, List.length_append, List.length_append,
    List.length_replicate]
  rfl

theorem sc7_fb0 : fromBuffer dat7 ⟨.uint, 1⟩ 1 0 = .ok [.i 7] := by
  have hsplit : dat7 = 7 :: ([2, 1, 1, 1, 0, 0, 4, 3] ++ tail7) := rfl
  rw [hsplit]
  exact fromBuffer_u1_head 7 _

theorem sc7_fb1 : fromBuffer dat7 ⟨.uint, 1⟩ 1 1 = .ok [.i 2] := by
  have hsplit : dat7 = [7] ++ ([2, 1, 1, 1, 0, 0, 4, 3] ++ tail7) := rfl
  rw [hsplit, fromBuffer_dropCtx [7] ([2, 1, 1, 1, 0, 0, 4, 3] ++ tail7) ⟨.uint, 1⟩ 1 1 rfl]
  have hsplit2 : ([2, 1, 1, 1, 0, 0, 4, 3] : List Nat) ++ tail7 = 2 :: ([1, 1, 1, 0, 0, 4, 3] ++ tail7) := rfl
  rw [hsplit2]
  exact fromBuffer_u1_head 2 _

theorem sc7_fb2 : fromBuffer dat7 ⟨.uint, 1⟩ 1 2 = .ok [.i 1] := by
  have hsplit : dat7 = [7, 2] ++ ([1, 1, 1, 0, 0, 4, 3] ++ tail7) := rfl
  rw [hsplit, fromBuffer_dropCtx [7, 2] ([1, 1, 1, 0, 0, 4, 3] ++ tail7) ⟨.uint, 1⟩ 1 2 rfl]
  have hsplit2 : ([1, 1, 1, 0, 0, 4, 3] : List Nat) ++ tail7 = 1 :: ([1, 1, 0, 0, 4, 3] ++ tail7) := rfl
  rw [hsplit2]
  exact fromBuffer_u1_head 1 _

theorem sc7_fb3 : fromBuffer dat7 ⟨.uint, 1⟩ 1 3 = .ok [.i 1] := by
  have hsplit : dat7 = [7, 2, 1] ++ ([1, 1, 0, 0, 4, 3] ++ tail7) := rfl
  rw [hsplit, fromBuffer_dropCtx [7, 2, 1] ([1, 1, 0, 0, 4, 3] ++ tail7) ⟨.uint, 1⟩ 1 3 rfl]
  have hsplit2 : ([1, 1, 0, 0, 4, 3] : List Nat) ++ tail7 = 1 :: ([1, 0, 0, 4, 3] ++ tail7) := rfl
  rw [hsplit2]
  exact fromBuffer_u1_head 1 _

theorem sc7_fb4 : fromBuffer dat7 ⟨.uint, 1⟩ 1 4 = .ok [.i 1] := by
  have hsplit : dat7 = [7, 2, 1, 1] ++ ([1, 0, 0, 4, 3] ++ tail7) := rfl
  rw [hsplit, fromBuffer_dropCtx [7, 2, 1, 1] ([1, 0, 0, 4, 3] ++ tail7) ⟨.uint, 1⟩ 1 4 rfl]
  have hsplit2 : ([1, 0, 0, 4, 3] : List Nat) ++ tail7 = 1 :: ([0, 0, 4, 3] ++ tail7) := rfl
  rw [hsplit2]
  exact fromBuffer_u1_head 1 _

theorem sc7_fb5 : fromBuffer dat7 ⟨.uint, 1⟩ 1 5 = .ok [.i 0] := by
  have hsplit : dat7 = [7, 2, 1, 1, 1] ++ ([0, 0, 4, 3] ++ tail7) := rfl
  rw [hsplit, fromBuffer_dropCtx [7, 2, 1, 1, 1] ([0, 0, 4, 3] ++ tail7) ⟨.uint, 1⟩ 1 5 rfl]
  have hsplit2 : ([0, 0, 4, 3] : List Nat) ++ tail7 = 0 :: ([0, 4, 3] ++ tail7) := rfl
  rw [hsplit2]
  exact fromBuffer_u1_head 0 _

theorem sc7_fb6 : fromBuffer dat7 ⟨.uint, 1⟩ 1 6 = .ok [.i 0] := by
  have hsplit : dat7 = [7, 2, 1, 1, 1, 0] ++ ([0, 4, 3] ++ tail7) := rfl
  rw [hsplit, fromBuffer_dropCtx [7, 2, 1, 1, 1, 0] ([0, 4, 3] ++ tail7) ⟨.uint, 1⟩ 1 6 rfl]
  have hsplit2 : ([0, 4, 3] : List Nat) ++ tail7 = 0 :: ([4, 3] ++ tail7) := rfl
  rw [hsplit2]
  exact fromBuffer_u1_head 0 _

theorem sc7_fb7 : fromBuffer dat7 ⟨.uint, 1⟩ 1 7 = .ok [.i 4] := by
  have hsplit : dat7 = [7, 2, 1, 1, 1, 0, 0] ++ ([4, 3] ++ tail7) := rfl
  rw [hsplit, fromBuffer_dropCtx [7, 2, 1, 1, 1, 0, 0] ([4, 3] ++ tail7) ⟨.uint, 1⟩ 1 7 rfl]
  have hsplit2 : ([4, 3] : List Nat) ++ tail7 = 4 :: ([3] ++ tail7) := rfl
  rw [hsplit2]
  exact fromBuffer_u1_head 4 _

theorem sc7_fb8 : fromBuffer dat7 ⟨.uint, 1⟩ 1 8 = .ok [.i 3] := by
  have hsplit : dat7 = [7, 2, 1, 1, 1, 0, 0, 4] ++ ([3] ++ tail7) := rfl
  rw [hsplit, fromBuffer_dropCtx [7, 2, 1, 1, 1, 0, 0, 4] ([3] ++ tail7) ⟨.uint, 1⟩ 1 8 rfl]
  have hsplit2 : ([3] : List Nat) ++ tail7 = 3 :: (([] : List Nat) ++ tail7) := rfl
  rw [hsplit2]
  exact fromBuffer_u1_head 3 _

theorem sc7_rv0 : read_value dat7 ⟨.uint, 1⟩ 0 none none
    = .ok (.scalar (.i 7)) := read_value_scalar_eval sc7_fb0

theorem sc7_rv1 : read_value dat7 ⟨.uint, 1⟩ 1 none none
    = .ok (.scalar (.i 2)) := read_value_scalar_eval sc7_fb1

theorem sc7_rv2 : read_value dat7 ⟨.uint, 1⟩ 2 none none
    = .ok (.scalar (.i 1)) := read_value_scalar_eval sc7_fb2

theorem sc7_rv3 : read_value dat7 ⟨.uint, 1⟩ 3 none none
    = .ok (.scalar (.i 1)) := read_value_scalar_eval sc7_fb3

theorem sc7_rv4 : read_value dat7 ⟨.uint, 1⟩ 4 none none
    = .ok (.scalar (.i 1)) := read_value_scalar_eval sc7_fb4

theorem sc7_rv5 : read_value dat7 ⟨.uint, 1⟩ 5 none none
    = .ok (.scalar (.i 0)) := read_value_scalar_eval sc7_fb5

theorem sc7_rv6 : read_value dat7 ⟨.uint, 1⟩ 6 none none
    = .ok (.scalar (.i 0)) := read_value_scalar_eval sc7_fb6

theorem sc7_rv7 : read_value dat7 ⟨.uint, 1⟩ 7 none none
    = .ok (.scalar (.i 4)) := read_value_scalar_eval sc7_fb7

theorem sc7_rv8 : read_value dat7 ⟨.uint, 1⟩ 8 none none
    = .ok (.scalar (.i 3)) := read_value_scalar_eval sc7_fb8

theorem sc7_pv0 : _parse_with_version reg7 dat7 0 true
    = .ok [("FileVersion", DatValue.scalar (.i 7))] := by
  simp [_parse_with_version, reg7, findSpec, specBoot7, foldFields,
    read_into, mcontains, mlookup, realise_shape, findEnum, minsert,
    sc7_rv0]

theorem sc7_pv7 : _parse_with_version reg7 dat7 7 true = .ok meta9 := by
  simp [_parse_with_version, reg7, findSpec, specFull7, foldFields,
    read_into, mcontains, mlookup, realise_shape, findEnum, minsert,
    sc7_rv0, sc7_rv1, sc7_rv2, sc7_rv3, sc7_rv4, sc7_rv5, sc7_rv6,
    sc7_rv7, sc7_rv8, meta9]

theorem sc7_parse : parse_bytes reg7 dat7 true = .ok meta7 := by
  simp [parse_bytes, sc7_pv0, sc7_pv7, getFileVersion, mlookup,
    handle_dates, minsert, meta7, meta9, sc7_len, DAT_NBYTES_FIELD]

theorem sc7_boot : bootVersion reg7 dat7 true = .ok 7 := by
  simp [bootVersion, sc7_pv0, getFileVersion, mlookup]

theorem sc7_b256 : ∀ x ∈ dat7, x < 256 := by
  intro x hx
  rcases List.mem_append.mp hx with h | h
  · exact (by decide : ∀ y ∈ head7, y < 256) x h
  · rcases List.mem_append.mp h with h2 | h2
    · have h0 := List.eq_of_mem_replicate h2
      omega
    · rcases List.mem_append.mp h2 with h3 | h3
      · exact (by decide : ∀ y ∈ payload7, y < 256) x h3
      · exact (by decide : ∀ y ∈ footer7, y < 256) x h3

theorem sc7_spacer : ∀ i, i < HEADER_LENGTH →
    ¬ Covered meta7 specFull7 i → dat7[i]? = some 0 := by
  intro i hi hnc
  have hi9 : 9 ≤ i := by
    by_contra h9
    push_neg at h9
    apply hnc
    interval_cases i <;> decide
  show (head7 ++ (List.replicate 1015 0 ++ (payload7 ++ footer7)))[i]?
    = some 0
  rw [List.getElem?_append]
  rw [if_neg (show ¬ i < head7.length by
    rw [show head7.length = 9 from rfl]; omega)]
  rw [List.getElem?_append]
  rw [if_pos (show i - head7.length < (List.replicate 1015 (0 : Nat)).length
    by rw [List.length_replicate, show head7.length = 9 from rfl]
       show i - 9 < 1015
       have hh : HEADER_LENGTH = 1024 := rfl
       omega)]
  rw [List.getElem?_replicate,
    if_pos (show i - head7.length < 1015 by
      rw [show head7.length = 9 from rfl]
      have hh : HEADER_LENGTH = 1024 := rfl
      omega)]

/-- C2: for a well-formed, non-truncated `.dat` byte sequence, splitting
into header bytes, per-channel payload arrays and footer bytes
(`dat_to_group`, built on `ParsedData.from_bytes`) and re-joining
(`group_to_bytes`: re-encoded header, then the channel arrays stacked and
emitted as column-major flat bytes, then the footer) reproduces the input
exactly, and the header, channel-payload and footer byte counts sum to the
total length. -/
theorem c2_full_roundtrip (reg : Registry) (b : List Nat) (m : Meta)
    (ver cn xr yr : Nat) (spec : List SpecTuple) (ebv : DatValue)
    (eight : Bool) (names : List String) (hash : List Nat → List Nat)
    (hb : ∀ x ∈ b, x < 256)
    (hparse : parse_bytes reg b true = .ok m)
    (hboot : bootVersion reg b true = .ok ver)
    (hfv : getFileVersion m = .ok ver)
    (hspec : findSpec reg ver = some spec)
    (hwf : specWF spec)
    (hext : ∀ st ∈ spec, extentOkB m st = true)
    (hspacer : ∀ i, i < HEADER_LENGTH → ¬ Covered m spec i → b[i]? = some 0)
    (hcn : lookupDim m "ChanNum" = .ok cn)
    (hxr : lookupDim m "XResolution" = .ok xr)
    (hyr : lookupDim m "YResolution" = .ok yr)
    (heb : mlookup m "EightBit" = some ebv)
    (htr : truthy ebv = .ok eight)
    (hnames : get_channel_names m = .ok names)
    (hcnn : names.length = cn)
    (hcn0 : 0 < cn)
    (hblen : HEADER_LENGTH + cn * xr * yr * (payloadDtype eight).itemsize
      ≤ b.length) :
    ∃ g, dat_to_group reg b = .ok g ∧
      group_to_bytes reg hash g true = .ok b ∧
      g.headerDS.length
        + (g.channels.map (fun ch => ch.length * g.chanDtype.itemsize)).sum
        + g.footerDS.length = b.length :=
  full_roundtrip_core reg b m ver cn xr yr spec ebv eight names hash hb
    hparse hboot hfv hspec hwf hext hspacer hcn hxr hyr heb htr hnames
    hcnn hcn0 hblen

theorem c2_full_roundtrip_witness :
    (parse_bytes reg7 dat7 true = .ok meta7 ∧
      bootVersion reg7 dat7 true = .ok 7 ∧ specWF specFull7) ∧
    ∃ g, dat_to_group reg7 dat7 = .ok g ∧
      group_to_bytes reg7 (fun x => x) g true = .ok dat7 ∧
      g.headerDS.length
        + (g.channels.map (fun ch => ch.length * g.chanDtype.itemsize)).sum
        + g.footerDS.length = dat7.length :=
  ⟨⟨sc7_parse, sc7_boot, by decide⟩,
    c2_full_roundtrip reg7 dat7 meta7 7 2 4 3 specFull7 (.scalar (.i 1))
      true ["AI1", "AI2"] (fun x => x) sc7_b256 sc7_parse sc7_boot
      (by decide) rfl (by decide) (by decide) sc7_spacer (by decide)
      (by decide) (by decide) (by decide) (by decide) (by decide)
      (by decide) (by decide) (by rw [sc7_len]; decide)⟩

/-! ## C5: the concrete version-7 split -/

/-- The 24 decoded payload elements of `dat7`. -/
def els24 : List Elem :=
  [.i 0, .i 1, .i 2, .i 3, .i 4, .i 5, .i 6, .i 7, .i 8, .i 9, .i 10,
   .i 11, .i 12, .i 13, .i 14, .i 15, .i 16, .i 17, .i 18, .i 19, .i 20,
   .i 21, .i 22, .i 23]

/-- Column-major flattening of channel 0 of `dat7`: the even payload
bytes, because the channel axis varies fastest in column-major order. -/
def chan0of7 : List Elem :=
  [.i 0, .i 2, .i 4, .i 6, .i 8, .i 10, .i 12, .i 14, .i 16, .i 18,
   .i 20, .i 22]

/-- Column-major flattening of channel 1 of `dat7`: the odd payload
bytes. -/
def chan1of7 : List Elem :=
  [.i 1, .i 3, .i 5, .i 7, .i 9, .i 11, .i 13, .i 15, .i 17, .i 19,
   .i 21, .i 23]

theorem sc7_split1024 : dat7
    = (head7 ++ List.replicate 1015 0) ++ (payload7 ++ footer7) := by
  show head7 ++ (List.replicate 1015 0 ++ (payload7 ++ footer7)) = _
  rw [List.append_assoc]

theorem sc7_len1024 : (head7 ++ List.replicate 1015 (0 : Nat)).length
    = 1024 := by
  rw [List.length_append, List.length_replicate]
  rfl

theorem sc7_drop1024 : dat7.drop 1024 = payload7 ++ footer7 := by
  rw [sc7_split1024, ← sc7_len1024]
  exact List.drop_left _ _

theorem sc7_fbP : fromBuffer dat7 ⟨.uint, 1⟩ (2 * 4 * 3) 1024
    = .ok els24 := by
  rw [sc7_split1024, fromBuffer_dropCtx (head7 ++ List.replicate 1015 0)
    (payload7 ++ footer7) ⟨.uint, 1⟩ (2 * 4 * 3) 1024 sc7_len1024]
  decide

theorem sc7_els : (takeChunks (payloadDtype true).itemsize (2 * 4 * 3)
    (dat7.drop HEADER_LENGTH)).map (decodeElem (payloadDtype true))
    = els24 := by
  rw [show HEADER_LENGTH = 1024 from rfl, sc7_drop1024]
  decide

theorem sc7_foot : dat7.drop (HEADER_LENGTH
    + 2 * 4 * 3 * (payloadDtype true).itemsize) = footer7 := by
  have h1 : dat7 = ((head7 ++ List.replicate 1015 0) ++ payload7)
      ++ footer7 := by
    rw [sc7_split1024,
      ← List.append_assoc (head7 ++ List.replicate 1015 0) payload7 footer7]
  have h2 : ((head7 ++ List.replicate 1015 (0 : Nat)) ++ payload7).length
      = 1048 := by
    rw [List.length_append, sc7_len1024]
    rfl
  rw [show HEADER_LENGTH + 2 * 4 * 3 * (payloadDtype true).itemsize = 1048
    from by decide, h1, ← h2]
  exact List.drop_left _ _

/-- `dat_to_group` on the concrete version-7 file: the two present
channels hold the even and odd payload bytes respectively, and the footer
is the 5 bytes after the payload. -/
theorem sc7_group : dat_to_group reg7 dat7 = .ok ⟨meta7,
    dat7.take HEADER_LENGTH, footer7, [chan0of7, chan1of7], [4, 3],
    ⟨.uint, 1⟩⟩ := by
  have hpd := from_bytes_ok reg7 dat7 meta7 2 4 3 (.scalar (.i 1)) true
    sc7_parse (by decide) (by decide) (by decide) (by decide) (by decide)
    (by rw [sc7_len]; decide)
  rw [sc7_els, sc7_foot] at hpd
  have hnm : get_channel_names meta7 = .ok ["AI1", "AI2"] := by decide
  have hch : (List.range (["AI1", "AI2"] : List String).length).map
      (fun idx => channelOf 2 idx els24) = [chan0of7, chan1of7] := by
    decide
  unfold dat_to_group
  simp only [hpd, hnm, hch]
  rfl

/-- C5 counterexample: on the specified synthetic version-7 file
(`FileVersion = 7`, `ChanNum = 2`, `XResolution = 4`, `YResolution = 3`,
`EightBit = 1`, payload bytes `0..23`, footer `b"FOOTR"`), the two
channel arrays' column-major flattenings are the even and odd payload
bytes — not `[0..11]` and `[12..23]` as claimed: the channel axis is the
first axis of the `(ChanNum, XResolution, YResolution)` payload array, so
in column-major order the channels are interleaved byte by byte. -/
theorem c5_counterexample :
    dat_to_group reg7 dat7 = .ok ⟨meta7, dat7.take HEADER_LENGTH, footer7,
      [chan0of7, chan1of7], [4, 3], ⟨.uint, 1⟩⟩ ∧
    chan0of7 ≠ [.i 0, .i 1, .i 2, .i 3, .i 4, .i 5, .i 6, .i 7, .i 8,
      .i 9, .i 10, .i 11] ∧
    chan1of7 ≠ [.i 12, .i 13, .i 14, .i 15, .i 16, .i 17, .i 18, .i 19,
      .i 20, .i 21, .i 22, .i 23] :=
  ⟨sc7_group, by decide, by decide⟩

/-- C5 (amended): on the specified synthetic version-7 file, splitting
yields two channel arrays whose column-major flattenings are the even
payload bytes `[0, 2, …, 22]` and the odd payload bytes `[1, 3, …, 23]`
respectively, with footer `b"FOOTR"`; re-joining (for any checksum
function) reproduces the original `1024 + 24 + 5` bytes exactly. -/
theorem c5_channel_split :
    dat_to_group reg7 dat7 = .ok ⟨meta7, dat7.take HEADER_LENGTH, footer7,
      [chan0of7, chan1of7], [4, 3], ⟨.uint, 1⟩⟩ ∧
    chan0of7 = [.i 0, .i 2, .i 4, .i 6, .i 8, .i 10, .i 12, .i 14, .i 16,
      .i 18, .i 20, .i 22] ∧
    chan1of7 = [.i 1, .i 3, .i 5, .i 7, .i 9, .i 11, .i 13, .i 15, .i 17,
      .i 19, .i 21, .i 23] ∧
    footer7 = [70, 79, 79, 84, 82] ∧
    (∀ hash : List Nat → List Nat,
      group_to_bytes reg7 hash ⟨meta7, dat7.take HEADER_LENGTH, footer7,
        [chan0of7, chan1of7], [4, 3], ⟨.uint, 1⟩⟩ true = .ok dat7) ∧
    dat7.length = 1024 + 24 + 5 := by
  refine ⟨sc7_group, rfl, rfl, rfl, ?_, by rw [sc7_len]⟩
  intro hash
  obtain ⟨g, hg, hgb, _⟩ := full_roundtrip_core reg7 dat7 meta7 7 2 4 3
    specFull7 (.scalar (.i 1)) true ["AI1", "AI2"] hash sc7_b256
    sc7_parse sc7_boot (by decide) rfl (by decide) (by decide) sc7_spacer
    (by decide) (by decide) (by decide) (by decide) (by decide)
    (by decide) (by decide) (by decide) (by rw [sc7_len]; decide)
  have hgeq : (Except.ok g : Except DatError Group) = .ok (⟨meta7,
      dat7.take HEADER_LENGTH, footer7, [chan0of7, chan1of7], [4, 3],
      ⟨.uint, 1⟩⟩ : Group) := by
    rw [← hg, ← sc7_group]
  cases hgeq
  exact hgb

/-! ## C8: the stored-header checksum gate in `group_to_bytes` -/

/-- C8: during reconstruction, once the expected length is read and the
header is re-encoded from the stored attributes, a nonempty stored header
blob whose checksum differs from the fresh header's checksum makes
`group_to_bytes` fail with `RuntimeError`; if the checksums agree or no
header blob is stored, the checked reconstruction returns exactly what the
unchecked reconstruction returns. -/
theorem c8_header_checksum_gate (reg : Registry)
    (hash : List Nat → List Nat) (g : Group) (n : Int) (header : List Nat)
    (hnb : mlookup g.attrs DAT_NBYTES_FIELD = some (.scalar (.i n)))
    (hwh : write_header reg g.attrs = .ok header) :
    (g.headerDS ≠ [] → hash g.headerDS ≠ hash header →
      group_to_bytes reg hash g true = .error (.runtimeError
        "Stored header is different to calculated header")) ∧
    (g.headerDS = [] ∨ hash g.headerDS = hash header →
      group_to_bytes reg hash g true = group_to_bytes reg hash g false)
    := by
  have hstep : ∀ ch : Bool, group_to_bytes reg hash g ch
      = if ch && !g.headerDS.isEmpty && hash g.headerDS != hash header then
          .error (.runtimeError
            "Stored header is different to calculated header")
        else if g.channels.isEmpty then
          .error (.valueError "need at least one array to stack")
        else
          .ok (if n.toNat < (joinBytes header g).length then
            (joinBytes header g).take n.toNat
          else joinBytes header g) := by
    intro ch
    unfold group_to_bytes
    simp only [hnb, hwh]
  constructor
  · intro hne hdiff
    rw [hstep true]
    have hb1 : g.headerDS.isEmpty = false := by
      cases hds : g.headerDS with
      | nil => exact absurd hds hne
      | cons a as => rfl
    have hb2 : (hash g.headerDS != hash header) = true :=
      bne_iff_ne.mpr hdiff
    rw [hb1, hb2]
    rfl
  · intro hor
    have hcond : (!g.headerDS.isEmpty && (hash g.headerDS != hash header))
        = false := by
      rcases hor with h | h
      · rw [h]
        rfl
      · rw [show (hash g.headerDS != hash header) = false from by
          rw [h]; exact bne_self_eq_false _, Bool.and_false]
    rw [hstep true, hstep false, Bool.true_and, hcond, Bool.false_and,
      Bool.false_and]

/-- Evaluation of `write_header` on the single-field witness registry. -/
theorem whW : write_header regW mW = .ok bW := by
  have hwa : writeAt (List.replicate 1024 0) 0 [0]
      = List.replicate 1024 (0 : Nat) := by
    unfold writeAt
    rw [List.take_zero, List.length_replicate,
      show (0 : Nat) - 1024 = 0 from rfl, List.drop_replicate]
    show [0] ++ List.replicate (1024 - (0 + 1)) (0 : Nat)
      = List.replicate 1024 (0 : Nat)
    rw [show (1024 : Nat) - (0 + 1) = 1023 from rfl,
      show (1024 : Nat) = 1023 + 1 from rfl, List.replicate_succ]
    rfl
  show (match getFileVersion mW with
    | Except.error e => Except.error e
    | Except.ok ver => match findSpec regW ver with
      | none => Except.error (DatError.missingVersion ver)
      | some spec => writeFields mW spec (List.replicate HEADER_LENGTH 0))
    = Except.ok bW
  rw [show getFileVersion mW = .ok 0 from by decide]
  show (match findSpec regW 0 with
    | none => Except.error (DatError.missingVersion 0)
    | some spec => writeFields mW spec (List.replicate HEADER_LENGTH 0))
    = Except.ok bW
  rw [show findSpec regW 0 = some [⟨"FileVersion", ⟨.uint, 1⟩, 0, none⟩]
    from rfl]
  show (match mlookup mW "FileVersion" with
    | none => Except.error (DatError.keyError "FileVersion")
    | some v =>
      match encodeValue ⟨.uint, 1⟩ v with
      | Except.error e => Except.error e
      | Except.ok bs => writeFields mW []
          (writeAt (List.replicate HEADER_LENGTH 0) 0 bs))
    = Except.ok bW
  rw [show mlookup mW "FileVersion" = some (.scalar (.i 0)) from by decide]
  show (match encodeValue ⟨.uint, 1⟩ (.scalar (.i 0)) with
    | Except.error e => Except.error e
    | Except.ok bs => writeFields mW []
        (writeAt (List.replicate HEADER_LENGTH 0) 0 bs))
    = Except.ok bW
  rw [show encodeValue ⟨.uint, 1⟩ (.scalar (.i 0)) = .ok [0] from by decide]
  show writeFields mW [] (writeAt (List.replicate HEADER_LENGTH 0) 0 [0])
    = Except.ok bW
  rw [show HEADER_LENGTH = 1024 from rfl, hwa]
  rfl

/-- A witness group: stored header blob `[7]` disagrees with the freshly
encoded all-zero header. -/
def gW : Group := ⟨mW, [7], [], [[.i 0]], [1], ⟨.uint, 1⟩⟩

theorem c8_header_checksum_gate_witness :
    (mlookup gW.attrs DAT_NBYTES_FIELD = some (.scalar (.i 1024)) ∧
      write_header regW gW.attrs = .ok bW ∧ gW.headerDS ≠ []) ∧
    group_to_bytes regW id gW true = .error (.runtimeError
      "Stored header is different to calculated header") := by
  refine ⟨⟨by decide, whW, by decide⟩, ?_⟩
  have hne2 : id gW.headerDS ≠ id bW := by
    intro h
    have h2 := congrArg List.length h
    rw [show (id gW.headerDS).length = 1 from rfl,
      show (id bW).length = 1024 from c1w_len] at h2
    exact absurd h2 (by decide)
  exact (c8_header_checksum_gate regW id gW 1024 bW (by decide) whW).1
    (by decide) hne2

/-! ## C7: JSON-safe conversion of field values

`SpecTuple.dtype_to_jso` calls `value.tolist()` and, when the result is a
`bytes` object, `val.decode()` — Python's strict UTF-8 decoder.
`SpecTuple.jso_to_dtype` encodes a `str` back to bytes and rebuilds the
numpy value with `np.asarray`.  The UTF-8 codec is modelled exactly
(strict ranges, no surrogates, four byte-length classes). -/

/-- A UTF-8 continuation byte. -/
abbrev Ucont (b : Nat) : Prop := 0x80 ≤ b ∧ b ≤ 0xBF

/-- Valid second byte of a three-byte sequence headed by `b1`
(`E0` forbids overlong encodings, `ED` forbids surrogates). -/
abbrev Ucont3 (b1 b2 : Nat) : Prop :=
  (b1 = 0xE0 → 0xA0 ≤ b2) ∧ (b1 = 0xED → b2 ≤ 0x9F) ∧ 0x80 ≤ b2 ∧ b2 ≤ 0xBF

/-- Valid second byte of a four-byte sequence headed by `b1`
(`F0` forbids overlong encodings, `F4` caps at `U+10FFFF`). -/
abbrev Ucont4 (b1 b2 : Nat) : Prop :=
  (b1 = 0xF0 → 0x90 ≤ b2) ∧ (b1 = 0xF4 → b2 ≤ 0x8F) ∧ 0x80 ≤ b2 ∧ b2 ≤ 0xBF

/-- Consume one byte of the remaining input, or fail. -/
def utf8Take1 : List Nat → (Nat → List Nat → Option (List Nat))
    → Option (List Nat)
  | b2 :: r, k => k b2 r
  | _, _ => none

/-- Consume two bytes of the remaining input, or fail. -/
def utf8Take2 : List Nat → (Nat → Nat → List Nat → Option (List Nat))
    → Option (List Nat)
  | b2 :: b3 :: r, k => k b2 b3 r
  | _, _ => none

/-- Consume three bytes of the remaining input, or fail. -/
def utf8Take3 : List Nat →
    (Nat → Nat → Nat → List Nat → Option (List Nat)) → Option (List Nat)
  | b2 :: b3 :: b4 :: r, k => k b2 b3 b4 r
  | _, _ => none

/-- Strict UTF-8 decoding of a byte list to its code points (`None` models
`UnicodeDecodeError`), as Python's `bytes.decode()`; fuelled so that the
recursion is structural (the wrapper supplies the list length, which
always suffices since every step consumes at least one byte). -/
def utf8DecodeF : Nat → List Nat → Option (List Nat)
  | _, [] => some []
  | 0, _ :: _ => none
  | fuel + 1, b1 :: rest =>
    if b1 < 0x80 then
      (utf8DecodeF fuel rest).map (fun cps => b1 :: cps)
    else if 0xC2 ≤ b1 ∧ b1 ≤ 0xDF then
      utf8Take1 rest (fun b2 rest2 =>
        if Ucont b2 then
          (utf8DecodeF fuel rest2).map
            (fun cps => ((b1 - 0xC0) * 64 + (b2 - 0x80)) :: cps)
        else none)
    else if 0xE0 ≤ b1 ∧ b1 ≤ 0xEF then
      utf8Take2 rest (fun b2 b3 rest3 =>
        if Ucont3 b1 b2 ∧ Ucont b3 then
          (utf8DecodeF fuel rest3).map
            (fun cps => ((b1 - 0xE0) * 4096 + (b2 - 0x80) * 64
              + (b3 - 0x80)) :: cps)
        else none)
    else if 0xF0 ≤ b1 ∧ b1 ≤ 0xF4 then
      utf8Take3 rest (fun b2 b3 b4 rest4 =>
        if Ucont4 b1 b2 ∧ Ucont b3 ∧ Ucont b4 then
          (utf8DecodeF fuel rest4).map
            (fun cps => ((b1 - 0xF0) * 262144 + (b2 - 0x80) * 4096
              + (b3 - 0x80) * 64 + (b4 - 0x80)) :: cps)
        else none)
    else none

/-- `bytes.decode()`. -/
def utf8Decode (bs : List Nat) : Option (List Nat) :=
  utf8DecodeF bs.length bs

/-- UTF-8 encoding of a code-point list (`str.encode()`). -/
def utf8Encode : List Nat → List Nat
  | [] => []
  | cp :: rest =>
    (if cp < 0x80 then [cp]
     else if cp < 0x800 then [0xC0 + cp / 64, 0x80 + cp % 64]
     else if cp < 0x10000 then
       [0xE0 + cp / 4096, 0x80 + cp / 64 % 64, 0x80 + cp % 64]
     else [0xF0 + cp / 262144, 0x80 + cp / 4096 % 64, 0x80 + cp / 64 % 64,
       0x80 + cp % 64]) ++ utf8Encode rest

theorem utf8_rt_aux : ∀ (fuel : Nat) (bs cps : List Nat),
    utf8DecodeF fuel bs = some cps → utf8Encode cps = bs := by
  intro fuel
  induction fuel with
  | zero =>
    intro bs cps hdec
    cases bs with
    | nil =>
      replace hdec : some ([] : List Nat) = some cps := hdec
      cases hdec
      rfl
    | cons b1 rest =>
      replace hdec : (none : Option (List Nat)) = some cps := hdec
      cases hdec
  | succ n ih =>
    intro bs cps hdec
    cases bs with
    | nil =>
      replace hdec : some ([] : List Nat) = some cps := hdec
      cases hdec
      rfl
    | cons b1 rest =>
      replace hdec : (if b1 < 0x80 then
          (utf8DecodeF n rest).map (fun cps => b1 :: cps)
        else if 0xC2 ≤ b1 ∧ b1 ≤ 0xDF then
          utf8Take1 rest (fun b2 rest2 =>
            if Ucont b2 then
              (utf8DecodeF n rest2).map
                (fun cps => ((b1 - 0xC0) * 64 + (b2 - 0x80)) :: cps)
            else none)
        else if 0xE0 ≤ b1 ∧ b1 ≤ 0xEF then
          utf8Take2 rest (fun b2 b3 rest3 =>
            if Ucont3 b1 b2 ∧ Ucont b3 then
              (utf8DecodeF n rest3).map
                (fun cps => ((b1 - 0xE0) * 4096 + (b2 - 0x80) * 64
                  + (b3 - 0x80)) :: cps)
            else none)
        else if 0xF0 ≤ b1 ∧ b1 ≤ 0xF4 then
          utf8Take3 rest (fun b2 b3 b4 rest4 =>
            if Ucont4 b1 b2 ∧ Ucont b3 ∧ Ucont b4 then
              (utf8DecodeF n rest4).map
                (fun cps => ((b1 - 0xF0) * 262144 + (b2 - 0x80) * 4096
                  + (b3 - 0x80) * 64 + (b4 - 0x80)) :: cps)
            else none)
        else none) = some cps := hdec
      by_cases h1 : b1 < 0x80
      · rw [if_pos h1] at hdec
        cases hrec : utf8DecodeF n rest with
        | none =>
          rw [hrec] at hdec
          cases hdec
        | some cpsr =>
          rw [hrec] at hdec
          replace hdec : some (b1 :: cpsr) = some cps := hdec
          cases hdec
          show (if b1 < 0x80 then [b1]
            else if b1 < 0x800 then [0xC0 + b1 / 64, 0x80 + b1 % 64]
            else if b1 < 0x10000 then
              [0xE0 + b1 / 4096, 0x80 + b1 / 64 % 64, 0x80 + b1 % 64]
            else [0xF0 + b1 / 262144, 0x80 + b1 / 4096 % 64,
              0x80 + b1 / 64 % 64, 0x80 + b1 % 64]) ++ utf8Encode cpsr
            = b1 :: rest
          rw [if_pos h1, ih rest cpsr hrec]
          rfl
      · rw [if_neg h1] at hdec
        by_cases h2 : 0xC2 ≤ b1 ∧ b1 ≤ 0xDF
        · rw [if_pos h2] at hdec
          cases rest with
          | nil =>
            replace hdec : (none : Option (List Nat)) = some cps := hdec
            cases hdec
          | cons b2 rest2 =>
            replace hdec : (if Ucont b2 then
                (utf8DecodeF n rest2).map
                  (fun cps => ((b1 - 0xC0) * 64 + (b2 - 0x80)) :: cps)
              else none) = some cps := hdec
            by_cases h3 : Ucont b2
            · rw [if_pos h3] at hdec
              cases hrec : utf8DecodeF n rest2 with
              | none =>
                rw [hrec] at hdec
                cases hdec
              | some cpsr =>
                rw [hrec] at hdec
                replace hdec :
                    some (((b1 - 0xC0) * 64 + (b2 - 0x80)) :: cpsr)
                    = some cps := hdec
                cases hdec
                obtain ⟨h3a, h3b⟩ := h3
                obtain ⟨h2a, h2b⟩ := h2
                show (if (b1 - 0xC0) * 64 + (b2 - 0x80) < 0x80 then
                    [(b1 - 0xC0) * 64 + (b2 - 0x80)]
                  else if (b1 - 0xC0) * 64 + (b2 - 0x80) < 0x800 then
                    [0xC0 + ((b1 - 0xC0) * 64 + (b2 - 0x80)) / 64,
                     0x80 + ((b1 - 0xC0) * 64 + (b2 - 0x80)) % 64]
                  else if (b1 - 0xC0) * 64 + (b2 - 0x80) < 0x10000 then
                    [0xE0 + ((b1 - 0xC0) * 64 + (b2 - 0x80)) / 4096,
                     0x80 + ((b1 - 0xC0) * 64 + (b2 - 0x80)) / 64 % 64,
                     0x80 + ((b1 - 0xC0) * 64 + (b2 - 0x80)) % 64]
                  else [0xF0 + ((b1 - 0xC0) * 64 + (b2 - 0x80)) / 262144,
                     0x80 + ((b1 - 0xC0) * 64 + (b2 - 0x80)) / 4096 % 64,
                     0x80 + ((b1 - 0xC0) * 64 + (b2 - 0x80)) / 64 % 64,
                     0x80 + ((b1 - 0xC0) * 64 + (b2 - 0x80)) % 64])
                  ++ utf8Encode cpsr = b1 :: b2 :: rest2
                rw [if_neg (by omega), if_pos (by omega),
                  ih rest2 cpsr hrec,
                  show 0xC0 + ((b1 - 0xC0) * 64 + (b2 - 0x80)) / 64 = b1
                    from by omega,
                  show 0x80 + ((b1 - 0xC0) * 64 + (b2 - 0x80)) % 64 = b2
                    from by omega]
                rfl
            · rw [if_neg h3] at hdec
              cases hdec
        · rw [if_neg h2] at hdec
          by_cases h4 : 0xE0 ≤ b1 ∧ b1 ≤ 0xEF
          · rw [if_pos h4] at hdec
            cases rest with
            | nil =>
              replace hdec : (none : Option (List Nat)) = some cps := hdec
              cases hdec
            | cons b2 rest' =>
              cases rest' with
              | nil =>
                replace hdec : (none : Option (List Nat)) = some cps := hdec
                cases hdec
              | cons b3 rest3 =>
                replace hdec : (if Ucont3 b1 b2 ∧ Ucont b3 then
                    (utf8DecodeF n rest3).map
                      (fun cps => ((b1 - 0xE0) * 4096 + (b2 - 0x80) * 64
                        + (b3 - 0x80)) :: cps)
                  else none) = some cps := hdec
                by_cases h5 : Ucont3 b1 b2 ∧ Ucont b3
                · rw [if_pos h5] at hdec
                  cases hrec : utf8DecodeF n rest3 with
                  | none =>
                    rw [hrec] at hdec
                    cases hdec
                  | some cpsr =>
                    rw [hrec] at hdec
                    replace hdec : some (((b1 - 0xE0) * 4096
                        + (b2 - 0x80) * 64 + (b3 - 0x80)) :: cpsr)
                        = some cps := hdec
                    cases hdec
                    obtain ⟨⟨h5a, h5b, h5c, h5d⟩, h5e, h5f⟩ := h5
                    obtain ⟨h4a, h4b⟩ := h4
                    have hlow : 0x800 ≤ (b1 - 0xE0) * 4096
                        + (b2 - 0x80) * 64 + (b3 - 0x80) := by
                      by_cases hE : b1 = 0xE0
                      · have := h5a hE
                        omega
                      · omega
                    show (if (b1 - 0xE0) * 4096 + (b2 - 0x80) * 64
                        + (b3 - 0x80) < 0x80 then
                        [(b1 - 0xE0) * 4096 + (b2 - 0x80) * 64 + (b3 - 0x80)]
                      else if (b1 - 0xE0) * 4096 + (b2 - 0x80) * 64
                          + (b3 - 0x80) < 0x800 then
                        [0xC0 + ((b1 - 0xE0) * 4096 + (b2 - 0x80) * 64
                          + (b3 - 0x80)) / 64,
                         0x80 + ((b1 - 0xE0) * 4096 + (b2 - 0x80) * 64
                          + (b3 - 0x80)) % 64]
                      else if (b1 - 0xE0) * 4096 + (b2 - 0x80) * 64
                          + (b3 - 0x80) < 0x10000 then
                        [0xE0 + ((b1 - 0xE0) * 4096 + (b2 - 0x80) * 64
                          + (b3 - 0x80)) / 4096,
                         0x80 + ((b1 - 0xE0) * 4096 + (b2 - 0x80) * 64
                          + (b3 - 0x80)) / 64 % 64,
                         0x80 + ((b1 - 0xE0) * 4096 + (b2 - 0x80) * 64
                          + (b3 - 0x80)) % 64]
                      else [0xF0 + ((b1 - 0xE0) * 4096 + (b2 - 0x80) * 64
                          + (b3 - 0x80)) / 262144,
                         0x80 + ((b1 - 0xE0) * 4096 + (b2 - 0x80) * 64
                          + (b3 - 0x80)) / 4096 % 64,
                         0x80 + ((b1 - 0xE0) * 4096 + (b2 - 0x80) * 64
                          + (b3 - 0x80)) / 64 % 64,
                         0x80 + ((b1 - 0xE0) * 4096 + (b2 - 0x80) * 64
                          + (b3 - 0x80)) % 64])
                      ++ utf8Encode cpsr = b1 :: b2 :: b3 :: rest3
                    rw [if_neg (by omega), if_neg (by omega),
                      if_pos (by omega), ih rest3 cpsr hrec,
                      show 0xE0 + ((b1 - 0xE0) * 4096 + (b2 - 0x80) * 64
                        + (b3 - 0x80)) / 4096 = b1 from by omega,
                      show 0x80 + ((b1 - 0xE0) * 4096 + (b2 - 0x80) * 64
                        + (b3 - 0x80)) / 64 % 64 = b2 from by omega,
                      show 0x80 + ((b1 - 0xE0) * 4096 + (b2 - 0x80) * 64
                        + (b3 - 0x80)) % 64 = b3 from by omega]
                    rfl
                · rw [if_neg h5] at hdec
                  cases hdec
          · rw [if_neg h4] at hdec
            by_cases h6 : 0xF0 ≤ b1 ∧ b1 ≤ 0xF4
            · rw [if_pos h6] at hdec
              cases rest with
              | nil =>
                replace hdec : (none : Option (List Nat)) = some cps := hdec
                cases hdec
              | cons b2 rest' =>
                cases rest' with
                | nil =>
                  replace hdec : (none : Option (List Nat)) = some cps :=
                    hdec
                  cases hdec
                | cons b3 rest'' =>
                  cases rest'' with
                  | nil =>
                    replace hdec : (none : Option (List Nat)) = some cps :=
                      hdec
                    cases hdec
                  | cons b4 rest4 =>
                    replace hdec : (if Ucont4 b1 b2 ∧ Ucont b3 ∧ Ucont b4
                      then
                        (utf8DecodeF n rest4).map
                          (fun cps => ((b1 - 0xF0) * 262144
                            + (b2 - 0x80) * 4096 + (b3 - 0x80) * 64
                            + (b4 - 0x80)) :: cps)
                      else none) = some cps := hdec
                    by_cases h7 : Ucont4 b1 b2 ∧ Ucont b3 ∧ Ucont b4
                    · rw [if_pos h7] at hdec
                      cases hrec : utf8DecodeF n rest4 with
                      | none =>
                        rw [hrec] at hdec
                        cases hdec
                      | some cpsr =>
                        rw [hrec] at hdec
                        replace hdec : some (((b1 - 0xF0) * 262144
                            + (b2 - 0x80) * 4096 + (b3 - 0x80) * 64
                            + (b4 - 0x80)) :: cpsr) = some cps := hdec
                        cases hdec
                        obtain ⟨⟨h7a, h7b, h7c, h7d⟩, ⟨h7e, h7f⟩,
                          h7g, h7h⟩ := h7
                        obtain ⟨h6a, h6b⟩ := h6
                        have hlow : 0x10000 ≤ (b1 - 0xF0) * 262144
                            + (b2 - 0x80) * 4096 + (b3 - 0x80) * 64
                            + (b4 - 0x80) := by
                          by_cases hF : b1 = 0xF0
                          · have := h7a hF
                            omega
                          · omega
                        show (if (b1 - 0xF0) * 262144 + (b2 - 0x80) * 4096
                            + (b3 - 0x80) * 64 + (b4 - 0x80) < 0x80 then
                            [(b1 - 0xF0) * 262144 + (b2 - 0x80) * 4096
                              + (b3 - 0x80) * 64 + (b4 - 0x80)]
                          else if (b1 - 0xF0) * 262144 + (b2 - 0x80) * 4096
                              + (b3 - 0x80) * 64 + (b4 - 0x80) < 0x800 then
                            [0xC0 + ((b1 - 0xF0) * 262144
                              + (b2 - 0x80) * 4096 + (b3 - 0x80) * 64
                              + (b4 - 0x80)) / 64,
                             0x80 + ((b1 - 0xF0) * 262144
                              + (b2 - 0x80) * 4096 + (b3 - 0x80) * 64
                              + (b4 - 0x80)) % 64]
                          else if (b1 - 0xF0) * 262144 + (b2 - 0x80) * 4096
                              + (b3 - 0x80) * 64 + (b4 - 0x80) < 0x10000
                          then
                            [0xE0 + ((b1 - 0xF0) * 262144
                              + (b2 - 0x80) * 4096 + (b3 - 0x80) * 64
                              + (b4 - 0x80)) / 4096,
                             0x80 + ((b1 - 0xF0) * 262144
                              + (b2 - 0x80) * 4096 + (b3 - 0x80) * 64
                              + (b4 - 0x80)) / 64 % 64,
                             0x80 + ((b1 - 0xF0) * 262144
                              + (b2 - 0x80) * 4096 + (b3 - 0x80) * 64
                              + (b4 - 0x80)) % 64]
                          else [0xF0 + ((b1 - 0xF0) * 262144
                              + (b2 - 0x80) * 4096 + (b3 - 0x80) * 64
                              + (b4 - 0x80)) / 262144,
                             0x80 + ((b1 - 0xF0) * 262144
                              + (b2 - 0x80) * 4096 + (b3 - 0x80) * 64
                              + (b4 - 0x80)) / 4096 % 64,
                             0x80 + ((b1 - 0xF0) * 262144
                              + (b2 - 0x80) * 4096 + (b3 - 0x80) * 64
                              + (b4 - 0x80)) / 64 % 64,
                             0x80 + ((b1 - 0xF0) * 262144
                              + (b2 - 0x80) * 4096 + (b3 - 0x80) * 64
                              + (b4 - 0x80)) % 64])
                          ++ utf8Encode cpsr = b1 :: b2 :: b3 :: b4 :: rest4
                        rw [if_neg (by omega), if_neg (by omega),
                          if_neg (by omega), ih rest4 cpsr hrec,
                          show 0xF0 + ((b1 - 0xF0) * 262144
                            + (b2 - 0x80) * 4096 + (b3 - 0x80) * 64
                            + (b4 - 0x80)) / 262144 = b1 from by omega,
                          show 0x80 + ((b1 - 0xF0) * 262144
                            + (b2 - 0x80) * 4096 + (b3 - 0x80) * 64
                            + (b4 - 0x80)) / 4096 % 64 = b2 from by omega,
                          show 0x80 + ((b1 - 0xF0) * 262144
                            + (b2 - 0x80) * 4096 + (b3 - 0x80) * 64
                            + (b4 - 0x80)) / 64 % 64 = b3 from by omega,
                          show 0x80 + ((b1 - 0xF0) * 262144
                            + (b2 - 0x80) * 4096 + (b3 - 0x80) * 64
                            + (b4 - 0x80)) % 64 = b4 from by omega]
                        rfl
                    · rw [if_neg h7] at hdec
                      cases hdec
            · rw [if_neg h6] at hdec
              cases hdec

/-- Python's `str.encode()` is a left inverse of strict `bytes.decode()`:
re-encoding the decoded code points reproduces the original bytes. -/
theorem utf8Encode_decode (bs cps : List Nat)
    (h : utf8Decode bs = some cps) : utf8Encode cps = bs :=
  utf8_rt_aux bs.length bs cps h

/-- A Python value as returned by `dtype_to_jso` / fed to `jso_to_dtype`:
a number, a string (as its code points), a raw `bytes` object (which
`value.tolist()` yields for byte-string array *elements* — only a
top-level scalar `bytes` is UTF-8-decoded by the source), or a (nested)
list. -/
inductive Jso where
  | num (v : Int)
  | str (cps : List Nat)
  | bytes (bs : List Nat)
  | arr (elems : List Jso)

/-- One element of `value.tolist()`. -/
def elemToJso : Elem → Jso
  | .i v => .num v
  | .s bs => .bytes bs

/-- `value.tolist()` of an array of the given shape stored as its
column-major element listing: nested lists, outer axis first; the slice
of leading-axis index `i` is every `d`-th stored element starting at `i`. -/
def tolistJso : List Nat → List Elem → Jso
  | [], els =>
    match els with
    | e :: _ => elemToJso e
    | [] => .arr []
  | [_], els => .arr (els.map elemToJso)
  | d :: d2 :: rest, els =>
    .arr ((List.range d).map (fun i => tolistJso (d2 :: rest)
      (channelOf d i els)))

/-- Model of `SpecTuple.dtype_to_jso`: `value.tolist()`, then UTF-8
decoding when the result is a `bytes` object; a raised
`UnicodeDecodeError` is the error case. -/
def dtype_to_jso (value : DatValue) : Except DatError Jso :=
  match value with
  | .scalar (.i v) => .ok (.num v)
  | .scalar (.s bs) =>
    match utf8Decode bs with
    | none => .error .unicodeError
    | some cps => .ok (.str cps)
  | .array sh els => .ok (tolistJso sh els)
  | .strVal _ => .error (.typeError "str has no tolist")

/-- `np.asarray(v, dtype)` accepts an integer only when it fits the
dtype (`OverflowError` otherwise). -/
def elemRangeB (dt : DType) (v : Int) : Bool :=
  match dt.kind with
  | .uint => decide (0 ≤ v) && decide (v < (256 : Int) ^ dt.itemsize)
  | .sint => decide (-((256 : Int) ^ dt.itemsize / 2) ≤ v)
      && decide (v < (256 : Int) ^ dt.itemsize / 2)
  | .bstr => false

mutual

/-- Shape inference and column-major element listing of
`np.asarray(value, dtype)` on a Python value: numbers and byte strings
are scalars (byte strings truncated to the itemsize, with trailing NULs
stripped on access), a list stacks its homogeneously-shaped members along
a new leading axis. -/
def jsoShapeElems (dt : DType) : Jso → Except DatError (List Nat × List Elem)
  | .num v =>
    if elemRangeB dt v then .ok ([], [.i v])
    else .error (.valueError "overflow")
  | .str cps =>
    match dt.kind with
    | .bstr => .ok ([], [.s (stripTrailingZeros
        ((utf8Encode cps).take dt.itemsize))])
    | _ => .error (.valueError "could not convert string")
  | .bytes bs =>
    match dt.kind with
    | .bstr => .ok ([], [.s (stripTrailingZeros (bs.take dt.itemsize))])
    | _ => .error (.valueError "could not convert bytes")
  | .arr elems =>
    match jsoShapeElemsList dt elems with
    | .error e => .error e
    | .ok [] => .ok ([0], [])
    | .ok ((sh0, f0) :: rest) =>
      if rest.all (fun p => p.1 == sh0) then
        .ok (elems.length :: sh0,
          interleaveStack (((sh0, f0) :: rest).map (fun p => p.2))
            sh0.prod)
      else .error (.valueError
        "setting an array element with a sequence")

def jsoShapeElemsList (dt : DType) :
    List Jso → Except DatError (List (List Nat × List Elem))
  | [] => .ok []
  | j :: rest =>
    match jsoShapeElems dt j with
    | .error e => .error e
    | .ok p =>
      match jsoShapeElemsList dt rest with
      | .error e => .error e
      | .ok ps => .ok (p :: ps)

end

/-- Model of `SpecTuple.jso_to_dtype`: a `str` is encoded back to bytes
first; `np.asarray(value, dtype)` then rebuilds the value — an array when
the input was a list, a scalar (`arr.reshape(1)[0]`) otherwise. -/
def jso_to_dtype (dt : DType) (j : Jso) : Except DatError DatValue :=
  match j with
  | .num v =>
    if elemRangeB dt v then .ok (.scalar (.i v))
    else .error (.valueError "overflow")
  | .str cps =>
    match dt.kind with
    | .bstr => .ok (.scalar (.s (stripTrailingZeros
        ((utf8Encode cps).take dt.itemsize))))
    | _ => .error (.valueError "could not convert string")
  | .bytes bs =>
    match dt.kind with
    | .bstr => .ok (.scalar (.s (stripTrailingZeros (bs.take dt.itemsize))))
    | _ => .error (.valueError "could not convert bytes")
  | .arr elems =>
    match jsoShapeElems dt (.arr elems) with
    | .error e => .error e
    | .ok (sh, els) => .ok (.array sh els)

/-- An element the decoder can produce for dtype `dt`: an in-range
integer, or (for a byte-string dtype) a byte string of at most the item
width with no trailing NUL. -/
def elemOkB (dt : DType) : Elem → Bool
  | .i v => elemRangeB dt v
  | .s bs => (dt.kind == .bstr) && decide (bs.length ≤ dt.itemsize)
      && (stripTrailingZeros bs == bs)

/-- A value the decoder can produce for dtype `dt`, with positive
dimensions. -/
def valOkB (dt : DType) : DatValue → Bool
  | .scalar e => elemOkB dt e
  | .array sh els => (decide (sh ≠ [])) && sh.all (fun d => decide (0 < d))
      && (els.length == sh.prod) && els.all (elemOkB dt)
  | .strVal _ => false

theorem jso_leaf (dt : DType) (e : Elem) (hok : elemOkB dt e = true) :
    jsoShapeElems dt (elemToJso e) = .ok ([], [e]) := by
  cases e with
  | i v =>
    show jsoShapeElems dt (.num v) = .ok ([], [.i v])
    simp only [jsoShapeElems]
    rw [show elemRangeB dt v = true from hok]
    rfl
  | s bs =>
    simp only [elemOkB, Bool.and_eq_true, beq_iff_eq,
      decide_eq_true_eq] at hok
    obtain ⟨⟨h1, h2⟩, h3⟩ := hok
    show jsoShapeElems dt (.bytes bs) = .ok ([], [.s bs])
    simp only [jsoShapeElems, h1]
    rw [List.take_of_length_le h2, h3]

theorem forall2_map_map {α β γ : Type} (R : β → γ → Prop) (f : α → β)
    (g : α → γ) (l : List α) (h : ∀ x ∈ l, R (f x) (g x)) :
    List.Forall₂ R (l.map f) (l.map g) := by
  induction l with
  | nil => exact List.Forall₂.nil
  | cons x rest ih =>
    rw [List.map_cons, List.map_cons]
    exact List.Forall₂.cons (h x (List.mem_cons_self x rest))
      (ih (fun y hy => h y (List.mem_cons_of_mem x hy)))

theorem jsoShapeElemsList_ok (dt : DType) : ∀ (js : List Jso)
    (ps : List (List Nat × List Elem)),
    List.Forall₂ (fun j p => jsoShapeElems dt j = .ok p) js ps →
    jsoShapeElemsList dt js = .ok ps := by
  intro js
  induction js with
  | nil =>
    intro ps h
    cases h
    rfl
  | cons j rest ih =>
    intro ps h
    cases h with
    | cons h1 h2 =>
      rename_i p ps2
      simp only [jsoShapeElemsList, h1, ih ps2 h2]

theorem interleave_singletons (els : List Elem) :
    interleaveStack (els.map (fun e => [e])) 1 = els := by
  unfold interleaveStack
  rw [show List.range 1 = [0] from rfl, List.map_cons, List.map_nil]
  rw [List.flatten_cons, List.flatten_nil, List.append_nil, List.map_map]
  have h : ∀ e ∈ els,
      ((fun ch => ch.getD 0 (Elem.i 0)) ∘ (fun e => [e])) e = e :=
    fun e _ => rfl
  rw [List.map_congr_left h]
  exact List.map_id' els

theorem channelOf_mem (C n c : Nat) (els : List Elem) (hc : c < C)
    (hlen : els.length = C * n) :
    ∀ e ∈ channelOf C c els, e ∈ els := by
  intro e he
  unfold channelOf at he
  have hdiv : els.length / C = n := by
    rw [hlen]
    exact Nat.mul_div_cancel_left n (by omega)
  rw [hdiv] at he
  obtain ⟨ch, hch, he2⟩ := List.mem_map.mp he
  have hn2 : n * C ≤ els.length := by
    rw [hlen, Nat.mul_comm]
  obtain ⟨hlen2, hmem⟩ := takeChunks_mem_length C n els hn2 ch hch
  have hc2 : c < ch.length := by
    rw [hlen2]
    exact hc
  apply hmem
  rw [← he2, List.getD_eq_getElem?_getD, List.getElem?_eq_getElem hc2]
  exact List.getElem_mem hc2

theorem jsoShapeElems_arr_ok (dt : DType) (elems : List Jso)
    (sh0 : List Nat) (chans : List (List Elem))
    (hne : chans ≠ [])
    (hlist : jsoShapeElemsList dt elems
      = .ok (chans.map (fun c => (sh0, c)))) :
    jsoShapeElems dt (.arr elems)
      = .ok (elems.length :: sh0, interleaveStack chans sh0.prod) := by
  cases chans with
  | nil => exact absurd rfl hne
  | cons c0 crest =>
    rw [List.map_cons] at hlist
    simp only [jsoShapeElems, hlist]
    rw [if_pos (List.all_eq_true.mpr (fun p hp => by
      obtain ⟨c, _, hc⟩ := List.mem_map.mp hp
      rw [← hc]
      exact beq_self_eq_true sh0))]
    rw [List.map_cons, List.map_map]
    rw [show crest.map ((fun p => p.2)
        ∘ (fun c => ((sh0, c) : List Nat × List Elem))) = crest
      from List.map_id' crest]

theorem jso_tolist_inverse (dt : DType) : ∀ (sh : List Nat)
    (els : List Elem), sh ≠ [] → (∀ d ∈ sh, 0 < d) →
    els.length = sh.prod → (∀ e ∈ els, elemOkB dt e = true) →
    jsoShapeElems dt (tolistJso sh els) = .ok (sh, els) := by
  intro sh
  induction sh with
  | nil =>
    intro els h _ _ _
    exact absurd rfl h
  | cons d sh2 ih =>
    intro els _ hpos hlen hok
    have hd : 0 < d := hpos d (List.mem_cons_self d sh2)
    cases sh2 with
    | nil =>
      rw [List.prod_cons, List.prod_nil, Nat.mul_one] at hlen
      have hne : els.map (fun e => ([e] : List Elem)) ≠ [] := by
        intro hemp
        have h2 := congrArg List.length hemp
        rw [List.length_map, hlen, List.length_nil] at h2
        omega
      have hlist : jsoShapeElemsList dt (els.map elemToJso)
          = .ok ((els.map (fun e => [e])).map
            (fun c => (([] : List Nat), c))) := by
        apply jsoShapeElemsList_ok
        rw [List.map_map]
        exact forall2_map_map _ elemToJso _ els
          (fun e he => jso_leaf dt e (hok e he))
      have harr := jsoShapeElems_arr_ok dt (els.map elemToJso) []
        (els.map (fun e => [e])) hne hlist
      show jsoShapeElems dt (.arr (els.map elemToJso)) = .ok ([d], els)
      rw [harr, List.length_map, hlen]
      show (Except.ok
          ([d], interleaveStack (els.map (fun e => [e])) 1)
          : Except DatError (List Nat × List Elem))
        = .ok ([d], els)
      rw [interleave_singletons]
    | cons d2 sh3 =>
      have hlen2 : els.length = d * (d2 :: sh3).prod := by
        rw [hlen, List.prod_cons]
      have hchild : ∀ i ∈ List.range d,
          jsoShapeElems dt (tolistJso (d2 :: sh3) (channelOf d i els))
          = .ok (d2 :: sh3, channelOf d i els) := by
        intro i hi
        refine ih (channelOf d i els) (by simp)
          (fun x hx => hpos x (List.mem_cons_of_mem d hx)) ?_ ?_
        · rw [length_channelOf, hlen2, Nat.mul_div_cancel_left _ hd]
        · intro e he
          exact hok e (channelOf_mem d ((d2 :: sh3).prod) i els
            (List.mem_range.mp hi) hlen2 e he)
      have hne : (List.range d).map (fun i => channelOf d i els) ≠ [] := by
        intro hemp
        have h2 := congrArg List.length hemp
        rw [List.length_map, List.length_range, List.length_nil] at h2
        omega
      have hmapeq : (List.range d).map
          (fun i => ((d2 :: sh3, channelOf d i els)
            : List Nat × List Elem))
          = ((List.range d).map (fun i => channelOf d i els)).map
            (fun c => (d2 :: sh3, c)) := by
        rw [List.map_map]
        rfl
      have hlist : jsoShapeElemsList dt ((List.range d).map
          (fun i => tolistJso (d2 :: sh3) (channelOf d i els)))
          = .ok (((List.range d).map (fun i => channelOf d i els)).map
            (fun c => (d2 :: sh3, c))) := by
        rw [← hmapeq]
        exact jsoShapeElemsList_ok dt _ _
          (forall2_map_map _ _ _ _ hchild)
      have harr := jsoShapeElems_arr_ok dt _ (d2 :: sh3)
        ((List.range d).map (fun i => channelOf d i els)) hne hlist
      show jsoShapeElems dt (.arr ((List.range d).map
          (fun i => tolistJso (d2 :: sh3) (channelOf d i els))))
        = .ok (d :: d2 :: sh3, els)
      rw [harr, List.length_map, List.length_range,
        interleave_channelOf d ((d2 :: sh3).prod) els hd hlen2]

/-- C7 counterexample: the decoder produces the value `b"\xff"` for a
1-byte byte-string field over the buffer `[0xFF]`, but `dtype_to_jso`
raises `UnicodeDecodeError` on it (0xFF is not valid UTF-8), so the
JSON-safe conversion is not total — let alone invertible — on
decoder-produced values. -/
theorem c7_counterexample :
    read_value [255] ⟨.bstr, 1⟩ 0 none none = .ok (.scalar (.s [255])) ∧
    dtype_to_jso (.scalar (.s [255])) = .error .unicodeError :=
  ⟨by decide, rfl⟩

/-- C7 (amended): for every decoder-producible value (in-range integers;
byte strings at most the item width with no trailing NUL; positive array
dimensions) whose top-level byte-string content, if any, is valid UTF-8,
`dtype_to_jso` succeeds and `jso_to_dtype` maps the result back to exactly
the original value.  (A top-level byte-string scalar whose bytes are not
valid UTF-8 instead raises `UnicodeDecodeError`; byte-string array
elements are returned by `tolist` as raw `bytes` objects, which round-trip
but are not JSON-serialisable.) -/
theorem c7_jso_value_roundtrip (dt : DType) (val : DatValue)
    (hok : valOkB dt val = true)
    (hutf : ∀ bs, val = .scalar (.s bs) → (utf8Decode bs).isSome = true) :
    ∃ j, dtype_to_jso val = .ok j ∧ jso_to_dtype dt j = .ok val := by
  cases val with
  | scalar e =>
    cases e with
    | i v =>
      refine ⟨.num v, rfl, ?_⟩
      show (if elemRangeB dt v then
          Except.ok (DatValue.scalar (.i v))
        else Except.error (DatError.valueError "overflow"))
        = .ok (.scalar (.i v))
      rw [show elemRangeB dt v = true from hok]
      rfl
    | s bs =>
      have hutf2 := hutf bs rfl
      cases hdec : utf8Decode bs with
      | none =>
        rw [hdec] at hutf2
        simp at hutf2
      | some cps =>
        refine ⟨.str cps, ?_, ?_⟩
        · show (match utf8Decode bs with
            | none => Except.error DatError.unicodeError
            | some cps => Except.ok (Jso.str cps)) = Except.ok (Jso.str cps)
          rw [hdec]
        · have hok2 : elemOkB dt (.s bs) = true := hok
          simp only [elemOkB, Bool.and_eq_true, beq_iff_eq,
            decide_eq_true_eq] at hok2
          obtain ⟨⟨h1, h2⟩, h3⟩ := hok2
          show (match dt.kind with
            | DTKind.bstr => Except.ok (DatValue.scalar (.s
                (stripTrailingZeros ((utf8Encode cps).take dt.itemsize))))
            | _ => Except.error
                (DatError.valueError "could not convert string"))
            = .ok (.scalar (.s bs))
          rw [h1]
          show Except.ok (DatValue.scalar (.s (stripTrailingZeros
              ((utf8Encode cps).take dt.itemsize)))) = .ok (.scalar (.s bs))
          rw [utf8Encode_decode bs cps hdec, List.take_of_length_le h2, h3]
  | array sh els =>
    simp only [valOkB, Bool.and_eq_true, beq_iff_eq, decide_eq_true_eq,
      List.all_eq_true] at hok
    obtain ⟨⟨⟨hne, hpos⟩, hlen⟩, hels⟩ := hok
    refine ⟨tolistJso sh els, rfl, ?_⟩
    obtain ⟨elemsJ, hJ⟩ : ∃ elemsJ, tolistJso sh els = .arr elemsJ := by
      cases sh with
      | nil => exact absurd rfl hne
      | cons d sh2 =>
        cases sh2 with
        | nil => exact ⟨els.map elemToJso, rfl⟩
        | cons d2 sh3 => exact ⟨_, rfl⟩
    rw [hJ]
    show (match jsoShapeElems dt (.arr elemsJ) with
      | Except.error e => Except.error e
      | Except.ok (sh2, els2) => Except.ok (DatValue.array sh2 els2))
      = .ok (.array sh els)
    rw [← hJ, jso_tolist_inverse dt sh els hne hpos hlen hels]
  | strVal t =>
    simp [valOkB] at hok

theorem c7_jso_value_roundtrip_witness :
    (valOkB ⟨.bstr, 4⟩ (.scalar (.s [104, 105])) = true ∧
      valOkB ⟨.uint, 1⟩ (.array [2, 2] [.i 1, .i 2, .i 3, .i 4]) = true) ∧
    (∃ j, dtype_to_jso (.scalar (.s [104, 105])) = .ok j ∧
      jso_to_dtype ⟨.bstr, 4⟩ j = .ok (.scalar (.s [104, 105]))) ∧
    (∃ j, dtype_to_jso (.array [2, 2] [.i 1, .i 2, .i 3, .i 4]) = .ok j ∧
      jso_to_dtype ⟨.uint, 1⟩ j
        = .ok (.array [2, 2] [.i 1, .i 2, .i 3, .i 4])) :=
  ⟨⟨by decide, by decide⟩,
    c7_jso_value_roundtrip ⟨.bstr, 4⟩ (.scalar (.s [104, 105]))
      (by decide) (fun bs h => by cases h; decide),
    c7_jso_value_roundtrip ⟨.uint, 1⟩
      (.array [2, 2] [.i 1, .i 2, .i 3, .i 4]) (by decide)
      (fun bs h => nomatch h)⟩

/-! ## C10: the compound-dtype codec path (`compound.py`)

`make_compound_dtype` walks the offset-sorted schema building a numpy
compound dtype whose fields tile the header contiguously, inserting
`u1`-array spacer fields (named with a `_` prefix, which the `Header`
mapping hides — modelled as `none` names) for the gaps, and raising
`ValueError` when a field starts before the previous one ends.
`Header.from_bytes` stores the raw bytes viewed through that dtype;
`Header.to_bytes` returns exactly those raw bytes.  Note that numpy
compound *subarray* fields are C-ordered, whereas the mapping path
(`read_value`) reshapes column-major. -/

/-- `specs.SpecTuple.realise_shape`: like the `utils` variant but raising
`SelfReferentialSpecException` (not `KeyError`) for a missing referenced
field. -/
def realiseItemsS (stName : String) : List ShapeItem → Meta
    → Except DatError (List Nat)
  | [], _ => .ok []
  | .lit n :: rest, m =>
    match realiseItemsS stName rest m with
    | .error e => .error e
    | .ok l => .ok (n :: l)
  | .ref k :: rest, m =>
    match mlookup m k with
    | some (.scalar (.i v)) =>
      match realiseItemsS stName rest m with
      | .error e => .error e
      | .ok l => .ok (v.toNat :: l)
    | some _ => .error (.typeError k)
    | none => .error (.selfRefError stName k)

def realise_shapeS (st : SpecTuple) (m : Meta) :
    Except DatError (Option (List Nat)) :=
  match st.shape with
  | none => .ok none
  | some sh =>
    if sh = [] ∨ sh = [.lit 0] then .ok none
    else
      match realiseItemsS st.name sh m with
      | .error e => .error e
      | .ok l => .ok (some l)

/-- One field of a compound dtype: `none` name models the `_`-prefixed
spacer fields, which the `Header` mapping hides. -/
structure CField where
  name : Option String
  dtype : DType
  shape : Option (List Nat)
  deriving DecidableEq, Repr

def cfieldNBytes (f : CField) : Nat :=
  (match f.shape with
   | none => 1
   | some sh => sh.prod) * f.dtype.itemsize

/-- The field walk of `make_compound_dtype`: spacers fill gaps before
fields and up to `HEADER_LENGTH` at the end; a field starting before the
running offset raises `ValueError`. -/
def compoundFields (meta : Meta) : List SpecTuple → Nat
    → Except DatError (List CField)
  | [], offset =>
    .ok (if offset < HEADER_LENGTH then
        [⟨none, ⟨.uint, 1⟩, some [HEADER_LENGTH - offset]⟩]
      else [])
  | st :: rest, offset =>
    if offset > st.offset then
      .error (.valueError "field overlap")
    else
      match realise_shapeS st meta with
      | .error e => .error e
      | .ok sh =>
        match compoundFields meta rest
            (st.offset + cfieldNBytes ⟨some st.name, st.dtype, sh⟩) with
        | .error e => .error e
        | .ok fs =>
          .ok (if offset < st.offset then
              ⟨none, ⟨.uint, 1⟩, some [st.offset - offset]⟩
                :: ⟨some st.name, st.dtype, sh⟩ :: fs
            else ⟨some st.name, st.dtype, sh⟩ :: fs)

def compoundItemsize (fs : List CField) : Nat :=
  (fs.map cfieldNBytes).sum

/-- Convert the C-order (row-major) flat element listing of a numpy
compound subarray to the column-major listing used by `DatValue.array`:
in C order the leading-axis slices are the contiguous chunks. -/
def cToF : List Nat → List Elem → List Elem
  | [], els => els
  | [_], els => els
  | d :: d2 :: rest, els =>
    interleaveStack ((takeChunks ((d2 :: rest).prod) d els).map
      (cToF (d2 :: rest))) ((d2 :: rest).prod)

/-- The value of one compound field read from the raw bytes at its
offset: scalars and 1-D arrays as the mapping path; `≥ 2`-D subarrays are
C-ordered in memory, converted here to the column-major value listing. -/
def cheaderGetField (raw : List Nat) (off : Nat) (f : CField) : DatValue :=
  match f.shape with
  | none => .scalar (decodeElem f.dtype ((raw.drop off).take f.dtype.itemsize))
  | some sh => .array sh (cToF sh ((takeChunks f.dtype.itemsize sh.prod
      (raw.drop off)).map (decodeElem f.dtype)))

/-- Model of `compound.Header`: the raw bytes of the structured scalar
and the compound dtype's fields in offset order. -/
structure CHeader where
  raw : List Nat
  fields : List CField
  deriving DecidableEq, Repr

/-- `Header.__getitem__`: find the named (non-spacer) field, tracking the
cumulative offset; `KeyError` when absent. -/
def cgetFrom : Nat → List Nat → List CField → String
    → Except DatError DatValue
  | _, _, [], key => .error (.keyError key)
  | off, raw, f :: rest, key =>
    if f.name = some key then .ok (cheaderGetField raw off f)
    else cgetFrom (off + cfieldNBytes f) raw rest key

def cheaderGet (h : CHeader) (key : String) : Except DatError DatValue :=
  cgetFrom 0 h.raw h.fields key

/-- The `Header` viewed as a mapping (spacer fields hidden), as
`Header.from_bytes` passes the bootstrap header on for shape resolution. -/
def cfieldsMeta : Nat → List Nat → List CField → Meta
  | _, _, [] => []
  | off, raw, f :: rest =>
    match f.name with
    | none => cfieldsMeta (off + cfieldNBytes f) raw rest
    | some nm => (nm, cheaderGetField raw off f)
        :: cfieldsMeta (off + cfieldNBytes f) raw rest

/-- `Header._from_bytes_version`: build the compound dtype for the
version and view the first `itemsize` bytes through it
(`np.frombuffer(b, dtype, 1)` raises when the buffer is too small). -/
def cheaderFromBytesVersion (reg : Registry) (b : List Nat) (ver : Nat)
    (meta : Meta) : Except DatError CHeader :=
  match findSpec reg ver with
  | none => .error (.missingVersion ver)
  | some spec =>
    match compoundFields meta spec 0 with
    | .error e => .error e
    | .ok fs =>
      if b.length < compoundItemsize fs then
        .error (.valueError "buffer is smaller than requested size")
      else .ok ⟨b.take (compoundItemsize fs), fs⟩

/-- Model of `Header.from_bytes`: bootstrap parse with the version-0
compound dtype, then the full parse using the bootstrap header for shape
resolution. -/
def Header_from_bytes (reg : Registry) (b : List Nat) :
    Except DatError CHeader :=
  match cheaderFromBytesVersion reg b 0 [] with
  | .error e => .error e
  | .ok mini =>
    match mlookup (cfieldsMeta 0 mini.raw mini.fields) "FileVersion" with
    | some (.scalar (.i v)) =>
      cheaderFromBytesVersion reg b v.toNat
        (cfieldsMeta 0 mini.raw mini.fields)
    | some _ => .error (.typeError "FileVersion")
    | none => .error (.keyError "FileVersion")

/-- `Header.to_bytes`: the raw bytes of the structured scalar. -/
def Header_to_bytes (h : CHeader) : List Nat := h.raw

theorem realiseItemsS_noref (stName : String) : ∀ (items : List ShapeItem)
    (m m2 : Meta),
    items.filterMap (fun it => match it with
      | .lit _ => none
      | .ref k => some k) = [] →
    realiseItemsS stName items m = realiseItems items m2 := by
  intro items
  induction items with
  | nil =>
    intro m m2 _
    rfl
  | cons it rest ih =>
    intro m m2 h
    cases it with
    | lit n =>
      rw [List.filterMap_cons] at h
      show (match realiseItemsS stName rest m with
        | Except.error e => Except.error e
        | Except.ok l => Except.ok (n :: l))
        = (match realiseItems rest m2 with
        | Except.error e => Except.error e
        | Except.ok l => Except.ok (n :: l))
      rw [ih m m2 h]
    | ref k =>
      rw [List.filterMap_cons] at h
      cases h

theorem realise_shapeS_noref (st : SpecTuple) (m m2 : Meta)
    (h : shapeRefs st = []) :
    realise_shapeS st m = realise_shape st m2 := by
  unfold shapeRefs at h
  unfold realise_shapeS realise_shape
  cases hs : st.shape with
  | none => rfl
  | some sh =>
    rw [hs] at h
    replace h : sh.filterMap (fun it => match it with
      | ShapeItem.lit _ => none
      | ShapeItem.ref k => some k) = [] := h
    show (if sh = [] ∨ sh = [.lit 0] then Except.ok none
      else match realiseItemsS st.name sh m with
        | Except.error e => Except.error e
        | Except.ok l => Except.ok (some l))
      = (if sh = [] ∨ sh = [.lit 0] then Except.ok none
      else match realiseItems sh m2 with
        | Except.error e => Except.error e
        | Except.ok l => Except.ok (some l))
    by_cases hsp : sh = [] ∨ sh = [.lit 0]
    · rw [if_pos hsp, if_pos hsp]
    · rw [if_neg hsp, if_neg hsp, realiseItemsS_noref st.name sh m m2 h]

theorem compoundFields_noref : ∀ (spec : List SpecTuple),
    (∀ st ∈ spec, shapeRefs st = []) →
    ∀ (m m2 : Meta) (off : Nat),
    compoundFields m spec off = compoundFields m2 spec off := by
  intro spec
  induction spec with
  | nil =>
    intro _ m m2 off
    rfl
  | cons st rest ih =>
    intro hnr m m2 off
    have hre : realise_shapeS st m = realise_shapeS st m2 := by
      rw [realise_shapeS_noref st m m2 (hnr st (List.mem_cons_self st rest)),
        realise_shapeS_noref st m2 m2 (hnr st (List.mem_cons_self st rest))]
    show (if off > st.offset then
        Except.error (DatError.valueError "field overlap")
      else match realise_shapeS st m with
        | Except.error e => Except.error e
        | Except.ok sh =>
          match compoundFields m rest
              (st.offset + cfieldNBytes ⟨some st.name, st.dtype, sh⟩) with
          | Except.error e => Except.error e
          | Except.ok fs =>
            Except.ok (if off < st.offset then
                ⟨none, ⟨.uint, 1⟩, some [st.offset - off]⟩
                  :: ⟨some st.name, st.dtype, sh⟩ :: fs
              else ⟨some st.name, st.dtype, sh⟩ :: fs))
      = (if off > st.offset then
        Except.error (DatError.valueError "field overlap")
      else match realise_shapeS st m2 with
        | Except.error e => Except.error e
        | Except.ok sh =>
          match compoundFields m2 rest
              (st.offset + cfieldNBytes ⟨some st.name, st.dtype, sh⟩) with
          | Except.error e => Except.error e
          | Except.ok fs =>
            Except.ok (if off < st.offset then
                ⟨none, ⟨.uint, 1⟩, some [st.offset - off]⟩
                  :: ⟨some st.name, st.dtype, sh⟩ :: fs
              else ⟨some st.name, st.dtype, sh⟩ :: fs))
    rw [hre]
    by_cases h1 : off > st.offset
    · rw [if_pos h1, if_pos h1]
    · rw [if_neg h1, if_neg h1]
      cases hsh : realise_shapeS st m2 with
      | error e => rfl
      | ok sh =>
        show (match compoundFields m rest
            (st.offset + cfieldNBytes ⟨some st.name, st.dtype, sh⟩) with
          | Except.error e => Except.error e
          | Except.ok fs =>
            Except.ok (if off < st.offset then
                (⟨none, ⟨.uint, 1⟩, some [st.offset - off]⟩ : CField)
                  :: ⟨some st.name, st.dtype, sh⟩ :: fs
              else (⟨some st.name, st.dtype, sh⟩ : CField) :: fs))
          = (match compoundFields m2 rest
            (st.offset + cfieldNBytes ⟨some st.name, st.dtype, sh⟩) with
          | Except.error e => Except.error e
          | Except.ok fs =>
            Except.ok (if off < st.offset then
                (⟨none, ⟨.uint, 1⟩, some [st.offset - off]⟩ : CField)
                  :: ⟨some st.name, st.dtype, sh⟩ :: fs
              else (⟨some st.name, st.dtype, sh⟩ : CField) :: fs))
        rw [ih (fun st2 h2 => hnr st2 (List.mem_cons_of_mem st h2)) m m2
          (st.offset + cfieldNBytes ⟨some st.name, st.dtype, sh⟩)]

theorem takeChunks_prefix {α : Type} (w : Nat) : ∀ (n : Nat) (pre l : List α),
    n * w ≤ pre.length → takeChunks w n (pre ++ l) = takeChunks w n pre := by
  intro n
  induction n with
  | zero =>
    intro pre l _
    rfl
  | succ k ih =>
    intro pre l hn
    have hw : w ≤ pre.length := by
      have h2 : w ≤ (k + 1) * w := by nlinarith
      omega
    show ((pre ++ l).take w) :: takeChunks w k ((pre ++ l).drop w)
      = (pre.take w) :: takeChunks w k (pre.drop w)
    rw [List.take_append_eq_append_take,
      show w - pre.length = 0 from by omega, List.take_zero,
      List.append_nil, List.drop_append_eq_append_drop,
      show w - pre.length = 0 from by omega, List.drop_zero]
    have hrec : k * w ≤ (pre.drop w).length := by
      rw [List.length_drop]
      have h3 : (k + 1) * w = k * w + w := by ring
      omega
    rw [ih (pre.drop w) l hrec]

theorem take_drop_slice (b : List Nat) (off nb hl : Nat) (h : off + nb ≤ hl) :
    ((b.take hl).drop off).take nb = (b.drop off).take nb := by
  rw [List.drop_take, List.take_take,
    show min nb (hl - off) = nb from by omega]

theorem read_value_none_inv {b : List Nat} {dt : DType} {off : Nat}
    {val : DatValue} (h : read_value b dt off none none = .ok val) :
    val = .scalar (decodeElem dt ((b.drop off).take dt.itemsize))
      ∧ off + dt.itemsize ≤ b.length := by
  unfold read_value at h
  cases hfb : fromBuffer b dt 1 off with
  | error e =>
    rw [hfb] at h
    cases h
  | ok es =>
    rw [hfb] at h
    obtain ⟨ho1, ho2, hes⟩ := fromBuffer_ok_inv hfb
    have hchunk : takeChunks dt.itemsize 1 (b.drop off)
        = [(b.drop off).take dt.itemsize] := rfl
    rw [hchunk, List.map_cons, List.map_nil] at hes
    subst hes
    replace h : (Except.ok (DatValue.scalar
        (decodeElem dt ((b.drop off).take dt.itemsize)))
        : Except DatError DatValue) = .ok val := h
    cases h
    exact ⟨rfl, by omega⟩

theorem read_value_some_inv {b : List Nat} {dt : DType} {off : Nat}
    {sh : List Nat} {val : DatValue}
    (h : read_value b dt off (some sh) none = .ok val) :
    val = .array sh ((takeChunks dt.itemsize sh.prod (b.drop off)).map
      (decodeElem dt)) ∧ off + sh.prod * dt.itemsize ≤ b.length := by
  replace h : (match fromBuffer b dt sh.prod off with
      | Except.error e => Except.error e
      | Except.ok es =>
        if es.length < sh.prod then
          Except.error (DatError.runtimeError
            "could only read fewer items than expected")
        else Except.ok (DatValue.array sh es)) = Except.ok val := h
  cases hfb : fromBuffer b dt sh.prod off with
  | error e =>
    rw [hfb] at h
    cases h
  | ok es =>
    rw [hfb] at h
    obtain ⟨ho1, ho2, hes⟩ := fromBuffer_ok_inv hfb
    have hlen2 : es.length = sh.prod := by
      rw [hes, List.length_map, length_takeChunks]
    replace h : (if es.length < sh.prod then
        Except.error (DatError.runtimeError
          "could only read fewer items than expected")
      else Except.ok (DatValue.array sh es)) = Except.ok val := h
    rw [if_neg (by omega)] at h
    cases h
    subst hes
    exact ⟨rfl, by omega⟩

theorem compoundFields_itemsize (meta : Meta) : ∀ (spec : List SpecTuple)
    (off0 : Nat) (fs : List CField),
    compoundFields meta spec off0 = .ok fs →
    off0 ≤ HEADER_LENGTH →
    (∀ st ∈ spec, ∀ sh, realise_shapeS st meta = .ok sh →
      st.offset + cfieldNBytes ⟨some st.name, st.dtype, sh⟩
        ≤ HEADER_LENGTH) →
    off0 + compoundItemsize fs = HEADER_LENGTH := by
  intro spec
  induction spec with
  | nil =>
    intro off0 fs h hle _
    replace h : (Except.ok
        (if off0 < HEADER_LENGTH then
          [(⟨none, ⟨.uint, 1⟩, some [HEADER_LENGTH - off0]⟩ : CField)]
        else []) : Except DatError (List CField)) = .ok fs := h
    cases h
    by_cases hlt : off0 < HEADER_LENGTH
    · rw [if_pos hlt]
      simp [compoundItemsize, cfieldNBytes]
      omega
    · rw [if_neg hlt]
      simp [compoundItemsize]
      omega
  | cons st rest ih =>
    intro off0 fs h hle hext
    replace h : (if off0 > st.offset then
        Except.error (DatError.valueError "field overlap")
      else match realise_shapeS st meta with
        | Except.error e => Except.error e
        | Except.ok sh =>
          match compoundFields meta rest
              (st.offset + cfieldNBytes ⟨some st.name, st.dtype, sh⟩) with
          | Except.error e => Except.error e
          | Except.ok fs2 =>
            Except.ok (if off0 < st.offset then
                (⟨none, ⟨.uint, 1⟩, some [st.offset - off0]⟩ : CField)
                  :: ⟨some st.name, st.dtype, sh⟩ :: fs2
              else (⟨some st.name, st.dtype, sh⟩ : CField) :: fs2))
        = .ok fs := h
    by_cases h1 : off0 > st.offset
    · rw [if_pos h1] at h
      cases h
    · rw [if_neg h1] at h
      cases hsh : realise_shapeS st meta with
      | error e =>
        rw [hsh] at h
        cases h
      | ok sh =>
        rw [hsh] at h
        replace h : (match compoundFields meta rest
            (st.offset + cfieldNBytes ⟨some st.name, st.dtype, sh⟩) with
          | Except.error e => Except.error e
          | Except.ok fs2 =>
            Except.ok (if off0 < st.offset then
                (⟨none, ⟨.uint, 1⟩, some [st.offset - off0]⟩ : CField)
                  :: ⟨some st.name, st.dtype, sh⟩ :: fs2
              else (⟨some st.name, st.dtype, sh⟩ : CField) :: fs2))
            = Except.ok fs := h
        cases hcf : compoundFields meta rest
            (st.offset + cfieldNBytes ⟨some st.name, st.dtype, sh⟩) with
        | error e =>
          rw [hcf] at h
          cases h
        | ok fs2 =>
          rw [hcf] at h
          replace h : (Except.ok
              (if off0 < st.offset then
                (⟨none, ⟨.uint, 1⟩, some [st.offset - off0]⟩ : CField)
                  :: ⟨some st.name, st.dtype, sh⟩ :: fs2
              else (⟨some st.name, st.dtype, sh⟩ : CField) :: fs2)
              : Except DatError (List CField))
              = .ok fs := h
          cases h
          have hst := hext st (List.mem_cons_self st rest) sh hsh
          have hrec := ih
            (st.offset + cfieldNBytes ⟨some st.name, st.dtype, sh⟩) fs2 hcf
            (by omega)
            (fun st2 h2 sh2 hsh2 =>
              hext st2 (List.mem_cons_of_mem st h2) sh2 hsh2)
          by_cases h2 : off0 < st.offset
          · rw [if_pos h2]
            show off0 + compoundItemsize
                ((⟨none, ⟨.uint, 1⟩, some [st.offset - off0]⟩ : CField)
                  :: ⟨some st.name, st.dtype, sh⟩ :: fs2) = HEADER_LENGTH
            have hsum : compoundItemsize
                ((⟨none, ⟨.uint, 1⟩, some [st.offset - off0]⟩ : CField)
                  :: ⟨some st.name, st.dtype, sh⟩ :: fs2)
                = (st.offset - off0) * 1
                  + (cfieldNBytes ⟨some st.name, st.dtype, sh⟩
                    + compoundItemsize fs2) := by
              show cfieldNBytes ⟨none, ⟨.uint, 1⟩, some [st.offset - off0]⟩
                  + (cfieldNBytes ⟨some st.name, st.dtype, sh⟩
                    + compoundItemsize fs2) = _
              congr 1
              show [st.offset - off0].prod * 1 = (st.offset - off0) * 1
              rw [List.prod_cons, List.prod_nil]
              ring
            rw [hsum]
            omega
          · rw [if_neg h2]
            show off0 + compoundItemsize
                ((⟨some st.name, st.dtype, sh⟩ : CField) :: fs2)
                = HEADER_LENGTH
            have hsum : compoundItemsize
                ((⟨some st.name, st.dtype, sh⟩ : CField) :: fs2)
                = cfieldNBytes ⟨some st.name, st.dtype, sh⟩
                  + compoundItemsize fs2 := rfl
            rw [hsum]
            omega

theorem compoundFields_get (meta : Meta) : ∀ (spec : List SpecTuple)
    (off0 : Nat) (fs : List CField),
    compoundFields meta spec off0 = .ok fs →
    (spec.map SpecTuple.name).Nodup →
    ∀ st ∈ spec, ∀ sh, realise_shapeS st meta = .ok sh →
    ∀ raw, cgetFrom off0 raw fs st.name
      = .ok (cheaderGetField raw st.offset ⟨some st.name, st.dtype, sh⟩)
    := by
  intro spec
  induction spec with
  | nil =>
    intro off0 fs _ _ st hst
    exact absurd hst (List.not_mem_nil st)
  | cons st2 rest ih =>
    intro off0 fs h hnd st hst sh hsh raw
    replace h : (if off0 > st2.offset then
        Except.error (DatError.valueError "field overlap")
      else match realise_shapeS st2 meta with
        | Except.error e => Except.error e
        | Except.ok sh2 =>
          match compoundFields meta rest
              (st2.offset + cfieldNBytes ⟨some st2.name, st2.dtype, sh2⟩)
          with
          | Except.error e => Except.error e
          | Except.ok fs2 =>
            Except.ok (if off0 < st2.offset then
                (⟨none, ⟨.uint, 1⟩, some [st2.offset - off0]⟩ : CField)
                  :: ⟨some st2.name, st2.dtype, sh2⟩ :: fs2
              else (⟨some st2.name, st2.dtype, sh2⟩ : CField) :: fs2))
        = .ok fs := h
    by_cases h1 : off0 > st2.offset
    · rw [if_pos h1] at h
      cases h
    · rw [if_neg h1] at h
      cases hsh2 : realise_shapeS st2 meta with
      | error e =>
        rw [hsh2] at h
        cases h
      | ok sh2 =>
        rw [hsh2] at h
        replace h : (match compoundFields meta rest
            (st2.offset + cfieldNBytes ⟨some st2.name, st2.dtype, sh2⟩)
          with
          | Except.error e => Except.error e
          | Except.ok fs2 =>
            Except.ok (if off0 < st2.offset then
                (⟨none, ⟨.uint, 1⟩, some [st2.offset - off0]⟩ : CField)
                  :: ⟨some st2.name, st2.dtype, sh2⟩ :: fs2
              else (⟨some st2.name, st2.dtype, sh2⟩ : CField) :: fs2))
            = Except.ok fs := h
        cases hcf : compoundFields meta rest
            (st2.offset + cfieldNBytes ⟨some st2.name, st2.dtype, sh2⟩)
          with
        | error e =>
          rw [hcf] at h
          cases h
        | ok fs2 =>
          rw [hcf] at h
          replace h : (Except.ok
              (if off0 < st2.offset then
                (⟨none, ⟨.uint, 1⟩, some [st2.offset - off0]⟩ : CField)
                  :: ⟨some st2.name, st2.dtype, sh2⟩ :: fs2
              else (⟨some st2.name, st2.dtype, sh2⟩ : CField) :: fs2)
              : Except DatError (List CField))
              = .ok fs := h
          cases h
          rw [List.map_cons, List.nodup_cons] at hnd
          rcases List.mem_cons.mp hst with heq | hmem
          · subst heq
            rw [hsh] at hsh2
            cases hsh2
            by_cases h2 : off0 < st.offset
            · rw [if_pos h2]
              show (if (none : Option String) = some st.name then
                  Except.ok (cheaderGetField raw off0
                    ⟨none, ⟨.uint, 1⟩, some [st.offset - off0]⟩)
                else cgetFrom (off0 + cfieldNBytes
                    ⟨none, ⟨.uint, 1⟩, some [st.offset - off0]⟩) raw
                  (⟨some st.name, st.dtype, sh⟩ :: fs2) st.name)
                = .ok (cheaderGetField raw st.offset
                  ⟨some st.name, st.dtype, sh⟩)
              rw [if_neg (by simp)]
              have hoff : off0 + cfieldNBytes
                  ⟨none, ⟨.uint, 1⟩, some [st.offset - off0]⟩
                  = st.offset := by
                show off0 + [st.offset - off0].prod * 1 = st.offset
                rw [List.prod_cons, List.prod_nil]
                omega
              rw [hoff]
              show (if (some st.name : Option String) = some st.name then
                  Except.ok (cheaderGetField raw st.offset
                    ⟨some st.name, st.dtype, sh⟩)
                else cgetFrom (st.offset + cfieldNBytes
                    ⟨some st.name, st.dtype, sh⟩) raw fs2 st.name)
                = .ok (cheaderGetField raw st.offset
                  ⟨some st.name, st.dtype, sh⟩)
              rw [if_pos rfl]
            · rw [if_neg h2]
              have hoff : off0 = st.offset := by omega
              rw [hoff]
              show (if (some st.name : Option String) = some st.name then
                  Except.ok (cheaderGetField raw st.offset
                    ⟨some st.name, st.dtype, sh⟩)
                else cgetFrom (st.offset + cfieldNBytes
                    ⟨some st.name, st.dtype, sh⟩) raw fs2 st.name)
                = .ok (cheaderGetField raw st.offset
                  ⟨some st.name, st.dtype, sh⟩)
              rw [if_pos rfl]
          · have hne : st.name ≠ st2.name := by
              intro he
              exact hnd.1 (he ▸ List.mem_map_of_mem SpecTuple.name hmem)
            have htail := ih
              (st2.offset + cfieldNBytes ⟨some st2.name, st2.dtype, sh2⟩)
              fs2 hcf hnd.2 st hmem sh hsh raw
            by_cases h2 : off0 < st2.offset
            · rw [if_pos h2]
              show (if (none : Option String) = some st.name then
                  Except.ok (cheaderGetField raw off0
                    ⟨none, ⟨.uint, 1⟩, some [st2.offset - off0]⟩)
                else cgetFrom (off0 + cfieldNBytes
                    ⟨none, ⟨.uint, 1⟩, some [st2.offset - off0]⟩) raw
                  (⟨some st2.name, st2.dtype, sh2⟩ :: fs2) st.name)
                = .ok (cheaderGetField raw st.offset
                  ⟨some st.name, st.dtype, sh⟩)
              rw [if_neg (by simp)]
              have hoff : off0 + cfieldNBytes
                  ⟨none, ⟨.uint, 1⟩, some [st2.offset - off0]⟩
                  = st2.offset := by
                show off0 + [st2.offset - off0].prod * 1 = st2.offset
                rw [List.prod_cons, List.prod_nil]
                omega
              rw [hoff]
              show (if (some st2.name : Option String) = some st.name then
                  Except.ok (cheaderGetField raw st2.offset
                    ⟨some st2.name, st2.dtype, sh2⟩)
                else cgetFrom (st2.offset + cfieldNBytes
                    ⟨some st2.name, st2.dtype, sh2⟩) raw fs2 st.name)
                = .ok (cheaderGetField raw st.offset
                  ⟨some st.name, st.dtype, sh⟩)
              rw [if_neg (by simp [Ne.symm hne])]
              exact htail
            · rw [if_neg h2]
              show (if (some st2.name : Option String) = some st.name then
                  Except.ok (cheaderGetField raw off0
                    ⟨some st2.name, st2.dtype, sh2⟩)
                else cgetFrom (off0 + cfieldNBytes
                    ⟨some st2.name, st2.dtype, sh2⟩) raw fs2 st.name)
                = .ok (cheaderGetField raw st.offset
                  ⟨some st.name, st.dtype, sh⟩)
              rw [if_neg (by simp [Ne.symm hne])]
              have hoff : off0 = st2.offset := by omega
              rw [hoff]
              exact htail

/-- Every schema field of a successfully parsed buffer decoded cleanly
(the first half of the header-roundtrip argument, reusable on its own). -/
theorem parse_fields_ok (reg : Registry) (b : List Nat) (m : Meta)
    (ver : Nat) (spec : List SpecTuple)
    (hparse : parse_bytes reg b true = .ok m)
    (hboot : bootVersion reg b true = .ok ver)
    (hspec : findSpec reg ver = some spec)
    (hwf : specWF spec) :
    ∀ st ∈ spec, FieldOkAt b m st := by
  obtain ⟨d, ver0, out, hp0, hfv0, hpv, hm⟩ := parse_bytes_inv hparse
  have hver0 : ver0 = ver := by
    unfold bootVersion at hboot
    rw [hp0] at hboot
    replace hboot : getFileVersion d = .ok ver := hboot
    rw [hfv0] at hboot
    cases hboot
    rfl
  rw [hver0] at hpv
  obtain ⟨spec', hspec', hfold⟩ := parse_with_version_inv hpv
  have hspeceq : spec' = spec := by
    rw [hspec] at hspec'
    cases hspec'
    rfl
  rw [hspeceq] at hfold
  have hkeysnil : KeysFrom [] ([] : Meta) := fun k hk => absurd rfl hk
  obtain ⟨hkeysout, hfieldout, _⟩ :=
    foldFields_props reg b true spec hwf spec [] [] out rfl hkeysnil
      (fun st h => absurd h (List.not_mem_nil st))
      (fun _ st h => absurd h (List.not_mem_nil st)) hfold
  have hdatfresh : mlookup out DAT_NBYTES_FIELD = none := by
    by_contra hne
    obtain ⟨st, hst, hor⟩ := hkeysout DAT_NBYTES_FIELD hne
    rcases hor with heq | heq
    · exact (hwf.2.2.1 st hst).1 heq.symm
    · exact (hwf.2.2.1 st hst).2 heq.symm
  have hpres : MPreserve out m := by
    rw [hm]
    exact mpreserve_minsert_fresh out _ _ hdatfresh
  exact fun st hst => fieldOkAt_mono hpres (hfieldout st hst)

/-- C10 (amended): for a well-formed header buffer of a schema whose
shapes are all literal, the two codec paths agree on the bytes — the
compound path's `Header.to_bytes` and the mapping path's re-encoded
header both equal the first `HEADER_LENGTH` bytes — and on the values of
every scalar and 1-D field.  (They do *not* agree on `≥ 2`-D fields:
compound subarrays are C-ordered while the mapping path reshapes
column-major — see the counterexample.) -/
theorem c10_codec_agreement (reg : Registry) (b : List Nat) (m : Meta)
    (ver : Nat) (spec : List SpecTuple) (mini : CHeader) (fs : List CField)
    (hb : ∀ x ∈ b, x < 256)
    (hblen : HEADER_LENGTH ≤ b.length)
    (hparse : parse_bytes reg b true = .ok m)
    (hboot : bootVersion reg b true = .ok ver)
    (hfv : getFileVersion m = .ok ver)
    (hspec : findSpec reg ver = some spec)
    (hwf : specWF spec)
    (hext : ∀ st ∈ spec, extentOkB m st = true)
    (hspacer : ∀ i, i < HEADER_LENGTH → ¬ Covered m spec i → b[i]? = some 0)
    (hnoref : ∀ st ∈ spec, shapeRefs st = [])
    (hcf : compoundFields [] spec 0 = .ok fs)
    (hmini : cheaderFromBytesVersion reg b 0 [] = .ok mini)
    (hfvc : mlookup (cfieldsMeta 0 mini.raw mini.fields) "FileVersion"
      = some (.scalar (.i (ver : Int)))) :
    ∃ full, Header_from_bytes reg b = .ok full ∧
      Header_to_bytes full = b.take HEADER_LENGTH ∧
      write_header reg m = .ok (b.take HEADER_LENGTH) ∧
      (∀ st ∈ spec, ∀ val, mlookup m st.name = some val →
        (realise_shape st m = .ok none ∨
          ∃ n, realise_shape st m = .ok (some [n])) →
        cheaderGet full st.name = .ok val) := by
  have hcf2 : compoundFields (cfieldsMeta 0 mini.raw mini.fields) spec 0
      = .ok fs := by
    rw [compoundFields_noref spec hnoref
      (cfieldsMeta 0 mini.raw mini.fields) [] 0]
    exact hcf
  have hshS : ∀ st ∈ spec,
      realise_shapeS st (cfieldsMeta 0 mini.raw mini.fields)
      = realise_shape st m :=
    fun st hst => realise_shapeS_noref st _ m (hnoref st hst)
  have hfnb : ∀ st ∈ spec, ∀ sh, realise_shape st m = .ok sh →
      fieldNBytes m st
        = some (cfieldNBytes ⟨some st.name, st.dtype, sh⟩) := by
    intro st hst sh hsh
    unfold fieldNBytes
    rw [hsh]
    cases sh with
    | none =>
      show some st.dtype.itemsize = some (1 * st.dtype.itemsize)
      rw [Nat.one_mul]
    | some l => rfl
  have hextS : ∀ st ∈ spec, ∀ sh,
      realise_shapeS st (cfieldsMeta 0 mini.raw mini.fields) = .ok sh →
      st.offset + cfieldNBytes ⟨some st.name, st.dtype, sh⟩
        ≤ HEADER_LENGTH := by
    intro st hst sh hsh
    rw [hshS st hst] at hsh
    have hok := hext st hst
    unfold extentOkB at hok
    rw [hfnb st hst sh hsh] at hok
    exact of_decide_eq_true hok
  have hitem : compoundItemsize fs = HEADER_LENGTH := by
    have h0 := compoundFields_itemsize
      (cfieldsMeta 0 mini.raw mini.fields) spec 0 fs hcf2 (by omega) hextS
    omega
  have hfull : cheaderFromBytesVersion reg b ver
      (cfieldsMeta 0 mini.raw mini.fields)
      = .ok ⟨b.take HEADER_LENGTH, fs⟩ := by
    unfold cheaderFromBytesVersion
    rw [hspec]
    show (match compoundFields (cfieldsMeta 0 mini.raw mini.fields)
        spec 0 with
      | Except.error e => Except.error e
      | Except.ok fs2 =>
        if b.length < compoundItemsize fs2 then
          Except.error (DatError.valueError
            "buffer is smaller than requested size")
        else Except.ok (⟨b.take (compoundItemsize fs2), fs2⟩ : CHeader))
      = Except.ok (⟨b.take HEADER_LENGTH, fs⟩ : CHeader)
    rw [hcf2]
    show (if b.length < compoundItemsize fs then
        Except.error (DatError.valueError
          "buffer is smaller than requested size")
      else Except.ok (⟨b.take (compoundItemsize fs), fs⟩ : CHeader))
      = Except.ok (⟨b.take HEADER_LENGTH, fs⟩ : CHeader)
    rw [hitem, if_neg (by omega)]
  refine ⟨(⟨b.take HEADER_LENGTH, fs⟩ : CHeader), ?_, rfl,
    write_header_take reg b m ver spec hblen hb hparse hboot hfv hspec
      hwf hext hspacer, ?_⟩
  · unfold Header_from_bytes
    rw [hmini]
    show (match mlookup (cfieldsMeta 0 mini.raw mini.fields)
        "FileVersion" with
      | some (.scalar (.i v)) =>
        cheaderFromBytesVersion reg b v.toNat
          (cfieldsMeta 0 mini.raw mini.fields)
      | some _ => Except.error (DatError.typeError "FileVersion")
      | none => Except.error (DatError.keyError "FileVersion"))
      = Except.ok (⟨b.take HEADER_LENGTH, fs⟩ : CHeader)
    rw [hfvc]
    show cheaderFromBytesVersion reg b ((ver : Int)).toNat
        (cfieldsMeta 0 mini.raw mini.fields)
      = Except.ok (⟨b.take HEADER_LENGTH, fs⟩ : CHeader)
    rw [Int.toNat_natCast]
    exact hfull
  · intro st hst val hlook hcase
    obtain ⟨sh0, val0, hsh0, hrv0, hlook0⟩ :=
      parse_fields_ok reg b m ver spec hparse hboot hspec hwf st hst
    have hveq : val0 = val := by
      rw [hlook0] at hlook
      cases hlook
      rfl
    subst hveq
    have hshS2 : realise_shapeS st (cfieldsMeta 0 mini.raw mini.fields)
        = .ok sh0 := by
      rw [hshS st hst]
      exact hsh0
    have hget := compoundFields_get
      (cfieldsMeta 0 mini.raw mini.fields) spec 0 fs hcf2 hwf.1 st hst
      sh0 hshS2 (b.take HEADER_LENGTH)
    have hbound : st.offset + cfieldNBytes ⟨some st.name, st.dtype, sh0⟩
        ≤ HEADER_LENGTH := hextS st hst sh0 hshS2
    show cgetFrom 0 (b.take HEADER_LENGTH) fs st.name = .ok val0
    rw [hget]
    rcases hcase with hc | ⟨n, hc⟩
    · rw [hsh0] at hc
      cases hc
      obtain ⟨hval, _⟩ := read_value_none_inv hrv0
      show Except.ok (DatValue.scalar (decodeElem st.dtype
          (((b.take HEADER_LENGTH).drop st.offset).take
            st.dtype.itemsize))) = Except.ok val0
      rw [take_drop_slice b st.offset st.dtype.itemsize HEADER_LENGTH
        (by
          have h2 : cfieldNBytes ⟨some st.name, st.dtype, none⟩
              = 1 * st.dtype.itemsize := rfl
          omega), hval]
    · rw [hsh0] at hc
      cases hc
      obtain ⟨hval, _⟩ := read_value_some_inv hrv0
      have hnb2 : cfieldNBytes ⟨some st.name, st.dtype, some [n]⟩
          = [n].prod * st.dtype.itemsize := rfl
      have hchunks : takeChunks st.dtype.itemsize ([n] : List Nat).prod
          ((b.take HEADER_LENGTH).drop st.offset)
          = takeChunks st.dtype.itemsize ([n] : List Nat).prod
            (b.drop st.offset) := by
        have hpre : ([n] : List Nat).prod * st.dtype.itemsize
            ≤ ((b.drop st.offset).take
              (HEADER_LENGTH - st.offset)).length := by
          rw [List.length_take, List.length_drop]
          omega
        have h2 : takeChunks st.dtype.itemsize ([n] : List Nat).prod
            (b.drop st.offset)
            = takeChunks st.dtype.itemsize ([n] : List Nat).prod
              ((b.drop st.offset).take (HEADER_LENGTH - st.offset)) := by
          conv_lhs => rw [← List.take_append_drop
            (HEADER_LENGTH - st.offset) (b.drop st.offset)]
          exact takeChunks_prefix st.dtype.itemsize _ _ _ hpre
        rw [List.drop_take, h2]
      show Except.ok (DatValue.array [n] (cToF [n]
          ((takeChunks st.dtype.itemsize ([n] : List Nat).prod
            ((b.take HEADER_LENGTH).drop st.offset)).map
              (decodeElem st.dtype)))) = Except.ok val0
      rw [hchunks]
      show Except.ok (DatValue.array [n]
          ((takeChunks st.dtype.itemsize ([n] : List Nat).prod
            (b.drop st.offset)).map (decodeElem st.dtype)))
        = Except.ok val0
      rw [hval]

/-! ## C10: a concrete schema with a 2-D field

Schema tables are spec-modelled (the TSVs are not under `src/`): a
single version-0 schema with a 1-byte `FileVersion` scalar at offset 0
and a `(2, 2)`-shaped 1-byte unsigned field `M` at offset 1.  The buffer
holds bytes `0, 1, 2, 3, 4` followed by 1019 zero bytes. -/

def specC10 : List SpecTuple :=
  [⟨"FileVersion", ⟨.uint, 1⟩, 0, none⟩,
   ⟨"M", ⟨.uint, 1⟩, 1, some [.lit 2, .lit 2]⟩]

def regC10 : Registry := ⟨[(0, specC10)], []⟩

def b10 : List Nat := [0, 1, 2, 3, 4] ++ List.replicate 1019 0

/-- The compound dtype built from `specC10`: the two named fields and
the trailing spacer padding the itemsize to `HEADER_LENGTH`. -/
def fs10 : List CField :=
  [⟨some "FileVersion", ⟨.uint, 1⟩, none⟩,
   ⟨some "M", ⟨.uint, 1⟩, some [2, 2]⟩,
   ⟨none, ⟨.uint, 1⟩, some [1019]⟩]

/-- `parse_bytes regC10 b10` output. -/
def m10 : Meta :=
  [("FileVersion", DatValue.scalar (.i 0)),
   ("M", DatValue.array [2, 2] [.i 1, .i 2, .i 3, .i 4]),
   (DAT_NBYTES_FIELD, DatValue.scalar (.i 1024))]

theorem b10_len : b10.length = 1024 := by
  show ([0, 1, 2, 3, 4] ++ List.replicate 1019 0).length = 1024
  rw [List.length_append, List.length_replicate]
  rfl

theorem b10_fb0 : fromBuffer b10 ⟨.uint, 1⟩ 1 0 = .ok [.i 0] := by
  have hsplit : b10 = 0 :: ([1, 2, 3, 4] ++ List.replicate 1019 0) := rfl
  rw [hsplit]
  exact fromBuffer_u1_head 0 _

theorem b10_drop1 : b10.drop 1 = [1, 2, 3, 4] ++ List.replicate 1019 0 :=
  rfl

theorem b10_chunksM : takeChunks 1 4 (b10.drop 1)
    = [[1], [2], [3], [4]] := by
  rw [b10_drop1,
    takeChunks_prefix 1 4 [1, 2, 3, 4] (List.replicate 1019 0) (by decide)]
  decide

theorem b10_fbM : fromBuffer b10 ⟨.uint, 1⟩ (([2, 2] : List Nat)).prod 1
    = .ok [.i 1, .i 2, .i 3, .i 4] := by
  rw [show (([2, 2] : List Nat)).prod = 4 from rfl]
  unfold fromBuffer
  rw [if_neg (show ¬ 1 > b10.length by rw [b10_len]; omega)]
  rw [if_neg (show ¬ b10.length - 1 < 4 * (⟨DTKind.uint, 1⟩ : DType).itemsize
    by rw [b10_len]; decide)]
  show Except.ok ((takeChunks 1 4 (b10.drop 1)).map
      (decodeElem ⟨DTKind.uint, 1⟩))
    = Except.ok [Elem.i 1, .i 2, .i 3, .i 4]
  rw [b10_chunksM]
  decide

theorem b10_rv0 : read_value b10 ⟨.uint, 1⟩ 0 none none
    = .ok (.scalar (.i 0)) := read_value_scalar_eval b10_fb0

theorem b10_rvM : read_value b10 ⟨.uint, 1⟩ 1 (some [2, 2]) none
    = .ok (.array [2, 2] [.i 1, .i 2, .i 3, .i 4]) :=
  read_value_array_eval b10_fbM (by decide)

theorem b10_pv : _parse_with_version regC10 b10 0 true
    = .ok [("FileVersion", DatValue.scalar (.i 0)),
      ("M", DatValue.array [2, 2] [.i 1, .i 2, .i 3, .i 4])] := by
  simp [_parse_with_version, regC10, findSpec, specC10, foldFields,
    read_into, mcontains, mlookup, realise_shape, realiseItems, findEnum,
    minsert, b10_rv0, b10_rvM]

theorem b10_parse : parse_bytes regC10 b10 true = .ok m10 := by
  simp [parse_bytes, b10_pv, getFileVersion, mlookup, handle_dates,
    minsert, m10, b10_len, DAT_NBYTES_FIELD]

theorem b10_boot : bootVersion regC10 b10 true = .ok 0 := by
  simp [bootVersion, b10_pv, getFileVersion, mlookup]

theorem b10_b256 : ∀ x ∈ b10, x < 256 := by
  intro x hx
  rcases List.mem_append.mp hx with h | h
  · exact (by decide : ∀ y ∈ ([0, 1, 2, 3, 4] : List Nat), y < 256) x h
  · have h0 := List.eq_of_mem_replicate h
    omega

theorem b10_spacer : ∀ i, i < HEADER_LENGTH →
    ¬ Covered m10 specC10 i → b10[i]? = some 0 := by
  intro i hi hnc
  have hi5 : 5 ≤ i := by
    by_contra h5
    push_neg at h5
    apply hnc
    interval_cases i <;> decide
  show ([0, 1, 2, 3, 4] ++ List.replicate 1019 0)[i]? = some 0
  rw [List.getElem?_append]
  rw [if_neg (show ¬ i < ([0, 1, 2, 3, 4] : List Nat).length by
    rw [show ([0, 1, 2, 3, 4] : List Nat).length = 5 from rfl]; omega)]
  rw [List.getElem?_replicate,
    if_pos (show i - ([0, 1, 2, 3, 4] : List Nat).length < 1019 by
      rw [show ([0, 1, 2, 3, 4] : List Nat).length = 5 from rfl]
      have hh : HEADER_LENGTH = 1024 := rfl
      omega)]

theorem c10_cf0 : compoundFields [] specC10 0 = .ok fs10 := by decide

theorem c10_fbv (meta : Meta)
    (hcf : compoundFields meta specC10 0 = .ok fs10) :
    cheaderFromBytesVersion regC10 b10 0 meta = .ok ⟨b10, fs10⟩ := by
  unfold cheaderFromBytesVersion
  rw [show findSpec regC10 0 = some specC10 from rfl]
  show (match compoundFields meta specC10 0 with
    | Except.error e => Except.error e
    | Except.ok fs =>
      if b10.length < compoundItemsize fs then
        Except.error (DatError.valueError
          "buffer is smaller than requested size")
      else Except.ok (⟨b10.take (compoundItemsize fs), fs⟩ : CHeader))
    = Except.ok (⟨b10, fs10⟩ : CHeader)
  rw [hcf]
  show (if b10.length < compoundItemsize fs10 then
      Except.error (DatError.valueError
        "buffer is smaller than requested size")
    else Except.ok (⟨b10.take (compoundItemsize fs10), fs10⟩ : CHeader))
    = Except.ok (⟨b10, fs10⟩ : CHeader)
  rw [show compoundItemsize fs10 = 1024 from by decide]
  rw [if_neg (show ¬ b10.length < 1024 by rw [b10_len]; omega)]
  have htake : b10.take 1024 = b10 := by
    rw [← b10_len]
    exact List.take_length b10
  rw [htake]

theorem b10_getFV : cheaderGetField b10 0
    (⟨some "FileVersion", ⟨.uint, 1⟩, none⟩ : CField)
    = .scalar (.i 0) := by
  show DatValue.scalar (decodeElem ⟨DTKind.uint, 1⟩ ((b10.drop 0).take 1))
    = DatValue.scalar (.i 0)
  rw [show (b10.drop 0).take 1 = [0] from rfl]
  decide

theorem b10_getM : cheaderGetField b10 1
    (⟨some "M", ⟨.uint, 1⟩, some [2, 2]⟩ : CField)
    = .array [2, 2] [.i 1, .i 3, .i 2, .i 4] := by
  show DatValue.array [2, 2] (cToF [2, 2]
      ((takeChunks 1 (([2, 2] : List Nat)).prod (b10.drop 1)).map
        (decodeElem ⟨DTKind.uint, 1⟩)))
    = DatValue.array [2, 2] [.i 1, .i 3, .i 2, .i 4]
  rw [show (([2, 2] : List Nat)).prod = 4 from rfl, b10_chunksM]
  decide

theorem b10_miniMeta : cfieldsMeta 0 b10 fs10
    = [("FileVersion", DatValue.scalar (.i 0)),
       ("M", DatValue.array [2, 2] [.i 1, .i 3, .i 2, .i 4])] := by
  show [("FileVersion", cheaderGetField b10 0
      (⟨some "FileVersion", ⟨.uint, 1⟩, none⟩ : CField)),
    ("M", cheaderGetField b10 1
      (⟨some "M", ⟨.uint, 1⟩, some [2, 2]⟩ : CField))]
    = [("FileVersion", DatValue.scalar (.i 0)),
       ("M", DatValue.array [2, 2] [.i 1, .i 3, .i 2, .i 4])]
  rw [b10_getFV, b10_getM]

theorem b10_from_bytes : Header_from_bytes regC10 b10 = .ok ⟨b10, fs10⟩ := by
  unfold Header_from_bytes
  rw [c10_fbv [] c10_cf0]
  show (match mlookup (cfieldsMeta 0 b10 fs10) "FileVersion" with
    | some (.scalar (.i v)) =>
      cheaderFromBytesVersion regC10 b10 v.toNat (cfieldsMeta 0 b10 fs10)
    | some _ => Except.error (DatError.typeError "FileVersion")
    | none => Except.error (DatError.keyError "FileVersion"))
    = Except.ok (⟨b10, fs10⟩ : CHeader)
  rw [b10_miniMeta]
  show cheaderFromBytesVersion regC10 b10 ((0 : Int)).toNat
      [("FileVersion", DatValue.scalar (.i 0)),
       ("M", DatValue.array [2, 2] [.i 1, .i 3, .i 2, .i 4])]
    = Except.ok (⟨b10, fs10⟩ : CHeader)
  exact c10_fbv _ (by decide)

theorem b10_cget : cheaderGet ⟨b10, fs10⟩ "M"
    = .ok (.array [2, 2] [.i 1, .i 3, .i 2, .i 4]) := by
  have h1 : cheaderGet ⟨b10, fs10⟩ "M" = Except.ok (cheaderGetField b10 1
      (⟨some "M", ⟨.uint, 1⟩, some [2, 2]⟩ : CField)) := by
    show cgetFrom 0 b10 fs10 "M" = _
    show (if (some "FileVersion" : Option String) = some "M"
      then Except.ok (cheaderGetField b10 0
        (⟨some "FileVersion", ⟨.uint, 1⟩, none⟩ : CField))
      else cgetFrom 1 b10
        [(⟨some "M", ⟨.uint, 1⟩, some [2, 2]⟩ : CField),
         (⟨none, ⟨.uint, 1⟩, some [1019]⟩ : CField)] "M") = _
    rw [if_neg (show ¬ (some "FileVersion" : Option String) = some "M"
      by decide)]
    show (if (some "M" : Option String) = some "M"
      then Except.ok (cheaderGetField b10 1
        (⟨some "M", ⟨.uint, 1⟩, some [2, 2]⟩ : CField))
      else cgetFrom (1 + 4) b10
        [(⟨none, ⟨.uint, 1⟩, some [1019]⟩ : CField)] "M") = _
    rw [if_pos rfl]
  rw [h1, b10_getM]

/-- C10 counterexample: on the concrete schema with a `(2, 2)`-shaped
1-byte field `M` at offset 1 and the buffer `0, 1, 2, 3, 4` + 1019 zero
bytes, both decoders succeed, but `parse_bytes` reads `M` column-major
(value listing `1, 2, 3, 4`) while `Header.from_bytes` reads the compound
subarray C-ordered (column-major value listing `1, 3, 2, 4`): the two
paths yield different values for the same field, refuting claimed
value-level agreement for `≥ 2`-D fields (the header *byte* agreement and
scalar/1-D value agreement are proved separately). -/
theorem c10_counterexample :
    parse_bytes regC10 b10 true = .ok m10 ∧
    mlookup m10 "M" = some (DatValue.array [2, 2] [.i 1, .i 2, .i 3, .i 4]) ∧
    Header_from_bytes regC10 b10 = .ok ⟨b10, fs10⟩ ∧
    cheaderGet ⟨b10, fs10⟩ "M"
      = .ok (.array [2, 2] [.i 1, .i 3, .i 2, .i 4]) ∧
    DatValue.array [2, 2] [.i 1, .i 2, .i 3, .i 4]
      ≠ DatValue.array [2, 2] [.i 1, .i 3, .i 2, .i 4] :=
  ⟨b10_parse, by decide, b10_from_bytes, b10_cget, by decide⟩

theorem c10_codec_agreement_witness :
    (parse_bytes regC10 b10 true = .ok m10 ∧
      bootVersion regC10 b10 true = .ok 0 ∧ specWF specC10 ∧
      compoundFields [] specC10 0 = .ok fs10) ∧
    ∃ full, Header_from_bytes regC10 b10 = .ok full ∧
      Header_to_bytes full = b10.take HEADER_LENGTH ∧
      write_header regC10 m10 = .ok (b10.take HEADER_LENGTH) ∧
      (∀ st ∈ specC10, ∀ val, mlookup m10 st.name = some val →
        (realise_shape st m10 = .ok none ∨
          ∃ n, realise_shape st m10 = .ok (some [n])) →
        cheaderGet full st.name = .ok val) :=
  ⟨⟨b10_parse, b10_boot, by decide, c10_cf0⟩,
    c10_codec_agreement regC10 b10 m10 0 specC10 ⟨b10, fs10⟩ fs10
      b10_b256 (by rw [b10_len]; decide) b10_parse b10_boot (by decide)
      rfl (by decide) (by decide) b10_spacer (by decide) c10_cf0
      (c10_fbv [] c10_cf0)
      (by show mlookup (cfieldsMeta 0 b10 fs10) "FileVersion"
            = some (DatValue.scalar (.i ((0 : Nat) : Int)))
          rw [b10_miniMeta]
          decide)⟩

end Jeiss
